import Mathlib

/-!
Verification development for the VCNPU cycle-approximate simulator
(`src/Sim/vcnpu.py` and `src/Sim/vcnpuprop.py`).

The Python sources are shallowly embedded as executable Lean definitions:
machine arithmetic is `Nat`/`Int` (the Python integers are unbounded, so no
wrapping is involved), the seeded `random` stream is abstracted as an input
list of `Int` jitter draws, and `time.time()` is abstracted as an input pair
of rational timestamps.  Python `float` enters the sources only in three
places, each modelled exactly:

* `int(x * 0.375)` / `int(x * 0.5)` with integer `x`: `0.375 = 3/8` and
  `0.5 = 1/2` are exact binary floats and `x * 36 * 16 * 0.375 = x * 216`
  etc. are integer valued, so the products are modelled as exact natural
  number expressions;
* `math.ceil(a / b)` with integer `a, b`: modelled as natural ceiling
  division (exact for the magnitudes the simulator produces);
* the DRAM bandwidth `bw = 1024.0` bytes/cycle: modelled as a positive
  natural number (every configuration exercised by the sources and the
  specification uses an integral bandwidth).
-/

/-! ## Configuration constants (class Config and module constants) -/

def PIF : Nat := 12
def POF : Nat := 4
def SCU_MULTIPLIERS : Nat := 18
def MU_C : Nat := 4
def MU_D : Nat := 6
def PRETU_LATENCY : Nat := 4
def POSTTU_LATENCY : Nat := 4
def SCU_PIPELINE_LATENCY : Nat := 2
def DFCONV_INTERP_COST_PER_SAMPLE : Nat := 2
def DFCONV_PE_COUNT : Nat := 64

def FRAME_COLS : Nat := 1920
def FRAME_ROWS : Nat := 1080
def CHANNELS : Nat := 36
def BYTES_PER_SAMPLE : Nat := 2
def BYTES_PER_PIXEL : Nat := CHANNELS * BYTES_PER_SAMPLE
def ROWS_PER_GROUP : Nat := 4

def DEFAULT_BASE_PERIOD : Nat := 140
def DEFAULT_DRAM_LATENCY : Nat := 800
def DEFAULT_DRAM_BW : Nat := 1024
def DEFAULT_MAX_OUTSTANDING : Nat := 8
def DEFAULT_PTABLE_ENTRIES : Nat := 64
def DEFAULT_COALESCE_BYTES : Nat := 16 * 1024
def DEFAULT_BANKS : Nat := 4
def DEFAULT_GROUP_SLOTS : Nat := 2

/-! ## Small helpers shared by the embeddings -/

/-- `math.ceil(a / b)` for naturals, written the way the sources write their
integer ceiling `(a + b - 1) // b`. -/
def natCeilDiv (a b : Nat) : Nat := (a + b - 1) / b

/-- Specification-side mathematical ceiling of `a / b`, stated independently
of the `(a + b - 1) / b` idiom used by the code. -/
def specCeil (a b : Nat) : Nat := if a % b = 0 then a / b else a / b + 1

/-- `numpy` max over a vector of naturals (`0` on the empty vector, matching
the `if size > 0 else 0` guards in the sources). -/
def listMax (xs : List Nat) : Nat := xs.foldl max 0

/-- `np.bincount(xs, minlength)`: the result has one cell per value below
`max(minlength, max xs + 1)` (just `minlength` cells for an empty input),
cell `k` counting the occurrences of `k`. -/
def bincount (xs : List Nat) (minlength : Nat) : List Nat :=
  let len := if xs = [] then minlength else max minlength (listMax xs + 1)
  (List.range len).map (fun k => xs.count k)

/-! ## SCU-count precomputation (SFTM.precompute_scu_counts_for_layer,
vcnpu.py lines 196-216, and the inlined copy in
ProducerSFTM.load_sparse_masks, vcnpuprop.py lines 471-480)

A mask coordinate is `(o, i, m0, m1)`; only the two channel indices `o`, `i`
enter the SCU mapping.  The grid is `POF` rows by `PIF` columns.  -/

/-- Per-layer SCU-count vector: nonzero at `(o, i, _, _)` is binned to
`linear = min(POF-1, o / out_per_row) * PIF + min(PIF-1, i / in_per_col)`,
then the bins are counted with `np.bincount(..., minlength = POF * PIF)`. -/
def precompute_scu_counts (out_ch in_ch : Nat)
    (coords : List (Nat × Nat × Nat × Nat)) : List Nat :=
  if coords = [] then List.replicate (POF * PIF) 0
  else
    let out_per_row := max 1 (natCeilDiv out_ch POF)
    let in_per_col := max 1 (natCeilDiv in_ch PIF)
    let linear := coords.map (fun q =>
      min (POF - 1) (q.1 / out_per_row) * PIF + min (PIF - 1) (q.2.1 / in_per_col))
    bincount linear (POF * PIF)

/-! ## SFTM per-tile cycle model (ProducerSFTM.compute_sftm_cycles,
vcnpuprop.py lines 485-510) -/

/-- `ProducerSFTM.compute_sftm_cycles`: returns `(total_cycles, total_macs)`
for the tile column span `[col_start, col_end]`.  `cache` is the entry of
`scu_counts_cache` for the (default) layer `"RFConv0"`, if a mask was
loaded.  The fallback's `int(patches * CHANNELS * mu2 * rho)` with
`rho = RHO_C = 0.375` is the exact integer `patches * CHANNELS * mu2 * 3 / 8`
(the division is exact because `CHANNELS * mu2 * 3 = 1728` is divisible
by `8`). -/
def compute_sftm_cycles (cache : Option (List Nat)) (col_start col_end : Nat) :
    Nat × Nat :=
  let rows := ROWS_PER_GROUP
  let cols := col_end - col_start + 1
  let out_patch_rows := max 1 (natCeilDiv rows 2)
  let out_patch_cols := max 1 (natCeilDiv cols 2)
  let patches := out_patch_rows * out_patch_cols
  match cache with
  | some counts =>
      let assigned_mults := counts.map (fun c => c * patches)
      let cycles_per_scu :=
        assigned_mults.map (fun a => (a + SCU_MULTIPLIERS - 1) / SCU_MULTIPLIERS)
      let scu_cycles := listMax cycles_per_scu
      let total_macs := assigned_mults.sum
      (PRETU_LATENCY + scu_cycles + SCU_PIPELINE_LATENCY + POSTTU_LATENCY, total_macs)
  | none =>
      let mu2 := MU_C * MU_C
      let total_macs := patches * CHANNELS * mu2 * 3 / 8
      let mults_per_scu := total_macs / (POF * PIF)
      let scu_cycles := natCeilDiv mults_per_scu SCU_MULTIPLIERS
      (PRETU_LATENCY + scu_cycles + SCU_PIPELINE_LATENCY + POSTTU_LATENCY, total_macs)

/-! ## Analytic fallback of SFTM.process_tile (vcnpu.py lines 255-280) -/

/-- `total_mults` of the analytic branch: `int(num_patches * out_ch * mu2 * rho)`
with `(mu2, rho) = (16, 0.375)` for `RFConv`, `(36, 0.5)` for `RFDeConv` and
`(1, 1)` otherwise.  All three products are integer valued (`16 * 0.375 = 6`,
`36 * 0.5 = 18`), so the `float` round trip is exact. -/
def analytic_total_mults (ty : String) (patches out_ch : Nat) : Nat :=
  if ty = "RFConv" then patches * out_ch * (MU_C * MU_C) * 3 / 8
  else if ty = "RFDeConv" then patches * out_ch * (MU_D * MU_D) / 2
  else patches * out_ch

/-- Per-SCU assigned multiplies of the analytic branch: the source fills
`counts[r*cols : (r+1)*cols] = max(0, min(out_ch, (r+1)*out_per_row) -
r*out_per_row) * base_mults_per_out`; cell `k` of the flat vector lies in
row `r = k / PIF`.  Natural subtraction is the `max(0, ...)` of the source. -/
def analytic_counts (out_ch total_mults : Nat) : List Nat :=
  let out_per_row := max 1 (natCeilDiv out_ch POF)
  let base_mults_per_out := max 1 (total_mults / max 1 out_ch)
  (List.range (POF * PIF)).map (fun k =>
    let r := k / PIF
    (min out_ch ((r + 1) * out_per_row) - r * out_per_row) * base_mults_per_out)

/-- `scu_cycles` of the analytic branch: ceiling-divide each per-SCU count by
the multiplier count and take the max over the grid. -/
def analytic_scu_cycles (out_ch total_mults : Nat) : Nat :=
  listMax ((analytic_counts out_ch total_mults).map
    (fun a => (a + SCU_MULTIPLIERS - 1) / SCU_MULTIPLIERS))

/-- Total cycles reported by `SFTM.process_tile` for a tile that takes the
analytic branch (no cached counts for its layer). -/
def process_tile_cycles_analytic (ty : String) (rows cols out_ch : Nat) : Nat :=
  let out_patch_rows := max 1 (natCeilDiv rows 2)
  let out_patch_cols := max 1 (natCeilDiv cols 2)
  let patches := out_patch_rows * out_patch_cols
  let total := analytic_total_mults ty patches out_ch
  PRETU_LATENCY + analytic_scu_cycles out_ch total +
    SCU_PIPELINE_LATENCY + POSTTU_LATENCY

/-- Total cycles reported by `SFTM.process_tile` for a tile whose layer has
cached SCU counts (vcnpu.py lines 243-253). -/
def process_tile_cycles_cached (counts : List Nat) (rows cols : Nat) : Nat :=
  let out_patch_rows := max 1 (natCeilDiv rows 2)
  let out_patch_cols := max 1 (natCeilDiv cols 2)
  let patches := out_patch_rows * out_patch_cols
  let assigned_mults := counts.map (fun c => c * patches)
  let cycles_per_scu :=
    assigned_mults.map (fun a => (a + SCU_MULTIPLIERS - 1) / SCU_MULTIPLIERS)
  PRETU_LATENCY + listMax cycles_per_scu + SCU_PIPELINE_LATENCY + POSTTU_LATENCY

/-! ## Banked group FIFO (class BankedGroupFIFO, vcnpuprop.py lines 131-210)

The Python queue holds `TileGroup` objects; here the queue holds tile keys
(`tid`s into the simulator's tile store, or the gids themselves in the
standalone FIFO theorems) and `push`/`pop` take the tile's `gid` — the only
field of the element the FIFO itself reads — alongside the key. -/

structure BankedGroupFIFO where
  banks : Nat
  group_slots_per_bank : Nat
  queue : List Nat
  bank_slots : List (List (Option Nat))
  valid_bits : List (List Bool)
  tile_to_slot : List (Nat × Nat × Nat)
  push_attempts : Nat
  push_success : Nat
  pop_attempts : Nat
  pop_success : Nat
  overflow_count : Nat
  occ_timeseries : List (Nat × Nat)
  deriving Repr, DecidableEq

namespace BankedGroupFIFO

def init (banks group_slots_per_bank : Nat) : BankedGroupFIFO where
  banks := banks
  group_slots_per_bank := group_slots_per_bank
  queue := []
  bank_slots := List.replicate banks (List.replicate group_slots_per_bank none)
  valid_bits := List.replicate banks (List.replicate group_slots_per_bank false)
  tile_to_slot := []
  push_attempts := 0
  push_success := 0
  pop_attempts := 0
  pop_success := 0
  overflow_count := 0
  occ_timeseries := []

def max_groups (f : BankedGroupFIFO) : Nat := f.banks * f.group_slots_per_bank

def can_push (f : BankedGroupFIFO) : Bool := f.queue.length < f.max_groups

/-- Contents of slot `(bank, local_slot)` of the slot table (out-of-range
reads return `none`, matching the defensive guards of the source). -/
def slotOf (f : BankedGroupFIFO) (bank local_slot : Nat) : Option Nat :=
  (f.bank_slots.getD bank []).getD local_slot none

/-- Python dict assignment `tile_to_slot[gid] = (bank, slot)`. -/
def dictInsert (m : List (Nat × Nat × Nat)) (gid bank slot : Nat) :
    List (Nat × Nat × Nat) :=
  (gid, bank, slot) :: m.filter (fun p => decide (p.1 ≠ gid))

/-- Python `tile_to_slot.pop(gid, None)`. -/
def dictPop (m : List (Nat × Nat × Nat)) (gid : Nat) :
    Option (Nat × Nat) × List (Nat × Nat × Nat) :=
  match m.find? (fun p => decide (p.1 = gid)) with
  | some p => (some p.2, m.filter (fun q => decide (q.1 ≠ gid)))
  | none => (none, m)

/-- Write `bank_slots[bank][local_slot] := v` and
`valid_bits[bank][local_slot] := vb`. -/
def setSlot (f : BankedGroupFIFO) (bank local_slot : Nat) (v : Option Nat)
    (vb : Bool) : BankedGroupFIFO :=
  { f with
    bank_slots :=
      f.bank_slots.set bank ((f.bank_slots.getD bank []).set local_slot v)
    valid_bits :=
      f.valid_bits.set bank ((f.valid_bits.getD bank []).set local_slot vb) }

/-- `push(tile)`: on success the tile key is appended to the queue and the
gid is recorded at `(slot_idx % banks, slot_idx // banks)` for
`slot_idx = len(queue)`.  Returns the updated FIFO and the boolean result. -/
def push (f : BankedGroupFIFO) (tid gid : Nat) : BankedGroupFIFO × Bool :=
  let f := { f with push_attempts := f.push_attempts + 1 }
  if ¬ f.can_push then
    ({ f with overflow_count := f.overflow_count + 1 }, false)
  else
    let slot_idx := f.queue.length
    let bank := slot_idx % f.banks
    let local_slot := slot_idx / f.banks
    if bank ≥ f.banks ∨ local_slot ≥ f.group_slots_per_bank then
      ({ f with overflow_count := f.overflow_count + 1 }, false)
    else
      let f := setSlot f bank local_slot (some gid) true
      let f := { f with
        tile_to_slot := dictInsert f.tile_to_slot gid bank local_slot
        queue := f.queue ++ [tid]
        push_success := f.push_success + 1 }
      (f, true)

def peek (f : BankedGroupFIFO) : Option Nat := f.queue.head?

/-- `pop()`: removes the queue head; `gidOf` reads the `gid` field of the
stored tile object (the identity map when the queue stores gids directly).
The departing gid's slot-table entry is cleared if the in-range guard holds. -/
def pop (f : BankedGroupFIFO) (gidOf : Nat → Nat) :
    Option Nat × BankedGroupFIFO :=
  let f := { f with pop_attempts := f.pop_attempts + 1 }
  match f.queue with
  | [] => (none, f)
  | t :: rest =>
      let f := { f with queue := rest }
      let (mapped, m) := dictPop f.tile_to_slot (gidOf t)
      let f := { f with tile_to_slot := m }
      let f :=
        match mapped with
        | some (bank, slot) =>
            if bank < f.banks ∧ slot < f.group_slots_per_bank then
              setSlot f bank slot none false
            else f
        | none => f
      (some t, { f with pop_success := f.pop_success + 1 })

def occupancy (f : BankedGroupFIFO) : Nat := f.queue.length

instance instInhabited : Inhabited BankedGroupFIFO := ⟨init 0 0⟩

def record_ts (f : BankedGroupFIFO) (cycle : Nat) : BankedGroupFIFO :=
  { f with occ_timeseries := f.occ_timeseries ++ [(cycle, f.occupancy)] }

end BankedGroupFIFO

/-! ## DMA engine (class DMAEngine, vcnpuprop.py lines 215-250) -/

structure DMARequest where
  tag : Nat
  base_addr : Nat
  length : Nat
  issue_cycle : Nat
  done_cycle : Option Nat
  dest : Nat × Nat × Nat
  request_type : String
  deriving Repr, DecidableEq

structure DMAEngine where
  dram_latency : Nat
  bw : Nat
  inflight : List (Nat × DMARequest)
  completed : List DMARequest
  next_tag : Nat
  cycle : Nat
  deriving Repr, DecidableEq

namespace DMAEngine

def init (dram_latency bw : Nat) : DMAEngine :=
  { dram_latency := dram_latency, bw := bw, inflight := [], completed := [],
    next_tag := 1, cycle := 0 }

/-- `issue`: transfer takes `max(1, ceil(length / max(1, bw)))` cycles after
the fixed latency.  Returns the tag and the updated engine. -/
def issue (d : DMAEngine) (base_addr length : Nat) (dest : Nat × Nat × Nat)
    (request_type : String) : Nat × DMAEngine :=
  let tag := d.next_tag
  let transfer_cycles := max 1 (natCeilDiv length (max 1 d.bw))
  let done_cycle := d.cycle + d.dram_latency + transfer_cycles
  let req : DMARequest :=
    { tag := tag, base_addr := base_addr, length := length,
      issue_cycle := d.cycle, done_cycle := some done_cycle,
      dest := dest, request_type := request_type }
  (tag, { d with next_tag := d.next_tag + 1, inflight := d.inflight ++ [(tag, req)] })

def reqDone (cycle : Nat) (p : Nat × DMARequest) : Bool :=
  match p.2.done_cycle with
  | some dc => dc ≤ cycle
  | none => false

/-- `step`: advance the cycle and move finished requests (in insertion
order, as the Python dict iteration does) to the completed list. -/
def step (d : DMAEngine) : DMAEngine :=
  let cycle := d.cycle + 1
  { d with cycle := cycle,
           inflight := d.inflight.filter (fun p => ! reqDone cycle p),
           completed := d.completed ++ (d.inflight.filter (reqDone cycle)).map (·.2) }

def collect_completed (d : DMAEngine) : List DMARequest × DMAEngine :=
  (d.completed, { d with completed := [] })

def outstanding_count (d : DMAEngine) : Nat := d.inflight.length

end DMAEngine

/-! ## Prefetch table and split prefetcher (classes PTEntry and
SplitPrefetcher, vcnpuprop.py lines 94-103 and 255-384)

In Python the prefetch table, the pending queue and `tag_to_entry` all hold
references to shared mutable `PTEntry` objects.  Object identity is modelled
by an append-only entry store; `ptable`, `prefetch_queue` and `tag_to_entry`
hold indices into it. -/

structure PTEntry where
  valid : Bool
  base_addr : Nat
  length : Nat
  status : String
  tag : Option Nat
  linked_tiles : List Nat
  dest_banks : List (Nat × Nat)
  request_type : String
  deriving Repr, DecidableEq

instance : Inhabited PTEntry :=
  ⟨{ valid := false, base_addr := 0, length := 0, status := "pending",
     tag := none, linked_tiles := [], dest_banks := [], request_type := "motion" }⟩

structure SplitPrefetcher where
  max_outstanding : Nat
  ptable_entries : Nat
  coalesce_bytes : Nat
  dram_alignment : Nat
  store : List PTEntry
  ptable : List Nat
  prefetch_queue : List Nat
  tag_to_entry : List (Nat × Nat)
  requests_total : Nat
  requests_coalesced : Nat
  requests_hits : Nat
  deriving Repr, DecidableEq

namespace SplitPrefetcher

def init (max_outstanding ptable_entries coalesce_bytes dram_alignment : Nat) :
    SplitPrefetcher :=
  { max_outstanding := max_outstanding, ptable_entries := ptable_entries,
    coalesce_bytes := coalesce_bytes, dram_alignment := dram_alignment,
    store := [], ptable := [], prefetch_queue := [], tag_to_entry := [],
    requests_total := 0, requests_coalesced := 0, requests_hits := 0 }

def getEntry (p : SplitPrefetcher) (id : Nat) : PTEntry := p.store.getD id default

def setEntry (p : SplitPrefetcher) (id : Nat) (e : PTEntry) : SplitPrefetcher :=
  { p with store := p.store.set id e }

/-- `_align`: widen `[base, base+length)` to the enclosing
`dram_alignment`-aligned span; returns the aligned base and length. -/
def align (p : SplitPrefetcher) (base length : Nat) : Nat × Nat :=
  let a := p.dram_alignment
  let base_aligned := base / a * a
  let endAddr := base + length
  let end_aligned := natCeilDiv endAddr a * a
  (base_aligned, end_aligned - base_aligned)

/-- `lookup_done`: first valid done entry of the same kind fully covering
the span. -/
def lookup_done (p : SplitPrefetcher) (base length : Nat)
    (request_type : String) : Option Nat :=
  p.ptable.find? (fun id =>
    let e := p.getEntry id
    e.valid && (e.request_type == request_type) && (e.status == "done") &&
      decide (e.base_addr ≤ base) &&
      decide (base + length ≤ e.base_addr + e.length))

/-- `pending_overlap`: first valid pending-or-inflight entry of the same kind
whose span overlaps. -/
def pending_overlap (p : SplitPrefetcher) (base length : Nat)
    (request_type : String) : Option Nat :=
  p.ptable.find? (fun id =>
    let e := p.getEntry id
    e.valid && (e.request_type == request_type) &&
      decide (e.base_addr < base + length) &&
      decide (base < e.base_addr + e.length) &&
      ((e.status == "pending") || (e.status == "inflight")))

def mkEntry (base length : Nat) (request_type : String) : PTEntry :=
  { valid := true, base_addr := base, length := length, status := "pending",
    tag := none, linked_tiles := [], dest_banks := [], request_type := request_type }

/-- `allocate_ptable`: reuse the first invalid slot; else append below
capacity; else evict the first non-inflight entry; else forcibly evict
index 0.  Returns the store index of the allocated entry. -/
def allocate_ptable (p : SplitPrefetcher) (base length : Nat)
    (request_type : String) : Nat × SplitPrefetcher :=
  match p.ptable.find? (fun id => ! (p.getEntry id).valid) with
  | some id => (id, p.setEntry id (mkEntry base length request_type))
  | none =>
      if p.ptable.length < p.ptable_entries then
        let id := p.store.length
        (id, { p with store := p.store ++ [mkEntry base length request_type],
                      ptable := p.ptable ++ [id] })
      else
        let id := p.store.length
        let p := { p with store := p.store ++ [mkEntry base length request_type] }
        match p.ptable.findIdx? (fun eid => ! ((p.getEntry eid).status == "inflight")) with
        | some i => (id, { p with ptable := p.ptable.eraseIdx i ++ [id] })
        | none => (id, { p with ptable := p.ptable.drop 1 ++ [id] })

/-- Tail of `coalesce_enqueue` that creates a fresh pending entry and
appends it to the prefetch queue. -/
def coalesce_allocNew (p : SplitPrefetcher) (base_a len_a : Nat)
    (dest_banks : List (Nat × Nat)) (request_type : String) :
    Nat × SplitPrefetcher :=
  let (id, p) := p.allocate_ptable base_a len_a request_type
  let e := p.getEntry id
  let p := p.setEntry id
    { e with dest_banks := dest_banks, linked_tiles := [], status := "pending" }
  (id, { p with prefetch_queue := p.prefetch_queue ++ [id] })

/-- Body of `coalesce_enqueue` after the request counter bump and span
alignment: dedupe against done entries, attach to overlapping
pending/inflight entries, merge with the pending tail when the union fits
in `coalesce_bytes`, else allocate a fresh pending entry and queue it. -/
def coalesce_core (p : SplitPrefetcher) (base_a len_a : Nat)
    (dest_banks : List (Nat × Nat)) (request_type : String) :
    Nat × SplitPrefetcher :=
  match p.lookup_done base_a len_a request_type with
  | some id => (id, { p with requests_hits := p.requests_hits + 1 })
  | none =>
  match p.pending_overlap base_a len_a request_type with
  | some id =>
      let e := p.getEntry id
      (id, p.setEntry id { e with dest_banks := e.dest_banks ++ dest_banks })
  | none =>
  match p.prefetch_queue.getLast? with
  | some tailId =>
      let tl := p.getEntry tailId
      if tl.request_type == request_type then
        let tail_end := tl.base_addr + tl.length
        let merged_base := min tl.base_addr base_a
        let merged_end := max tail_end (base_a + len_a)
        let merged_len := merged_end - merged_base
        if merged_len ≤ p.coalesce_bytes then
          let p := p.setEntry tailId
            { tl with base_addr := merged_base, length := merged_len,
                      dest_banks := tl.dest_banks ++ dest_banks }
          (tailId, { p with requests_coalesced := p.requests_coalesced + 1 })
        else coalesce_allocNew p base_a len_a dest_banks request_type
      else coalesce_allocNew p base_a len_a dest_banks request_type
  | none => coalesce_allocNew p base_a len_a dest_banks request_type

/-- `coalesce_enqueue`: bump the request counter, align the span, then run
the dedupe/attach/merge/allocate chain.  Returns the store index of the
entry handling the request. -/
def coalesce_enqueue (p : SplitPrefetcher) (base length : Nat)
    (dest_banks : List (Nat × Nat)) (request_type : String) :
    Nat × SplitPrefetcher :=
  let p := { p with requests_total := p.requests_total + 1 }
  let (base_a, len_a) := p.align base length
  coalesce_core p base_a len_a dest_banks request_type

/-- One iteration body of the `issue_prefetches` while loop, recursing on a
fuel bounded by the queue length. -/
def issueLoop : Nat → SplitPrefetcher → DMAEngine → List (Nat × Nat) →
    SplitPrefetcher × DMAEngine × List (Nat × Nat)
  | 0, p, d, acc => (p, d, acc)
  | fuel + 1, p, d, acc =>
      match p.prefetch_queue with
      | [] => (p, d, acc)
      | id :: rest =>
          if d.outstanding_count < p.max_outstanding then
            let p := { p with prefetch_queue := rest }
            let e := p.getEntry id
            let dest := e.dest_banks.headD (0, 0)
            let (tag, d) := d.issue e.base_addr e.length (dest.1, dest.2, 0)
              e.request_type
            let p := p.setEntry id { e with status := "inflight", tag := some tag }
            let p := { p with tag_to_entry :=
              (tag, id) :: p.tag_to_entry.filter (fun q => decide (q.1 ≠ tag)) }
            issueLoop fuel p d (acc ++ [(tag, id)])
          else (p, d, acc)

/-- `issue_prefetches`: drain the pending queue into the DMA engine while
the outstanding cap allows; returns the (tag, entry) pairs issued. -/
def issue_prefetches (p : SplitPrefetcher) (d : DMAEngine) :
    SplitPrefetcher × DMAEngine × List (Nat × Nat) :=
  issueLoop p.prefetch_queue.length p d []

/-- `on_dma_completed`: pop the tag from `tag_to_entry` and mark the entry
done. -/
def on_dma_completed (p : SplitPrefetcher) (req : DMARequest) : SplitPrefetcher :=
  match p.tag_to_entry.find? (fun q => decide (q.1 = req.tag)) with
  | some m =>
      let e := p.getEntry m.2
      let p := { p with tag_to_entry :=
        p.tag_to_entry.filter (fun q => decide (q.1 ≠ req.tag)) }
      p.setEntry m.2 { e with status := "done" }
  | none => p

/-- Lookup of the entry handling a completed request, as the simulator's
completion loop does it: `tag_to_entry.get(req.tag)` (always `None` right
after `on_dma_completed` popped it) and then a linear `ptable` scan for the
first entry with a matching tag. -/
def entryForCompleted (p : SplitPrefetcher) (req : DMARequest) : Option Nat :=
  match p.tag_to_entry.find? (fun q => decide (q.1 = req.tag)) with
  | some m => some m.2
  | none => p.ptable.find? (fun id => (p.getEntry id).tag == some req.tag)

end SplitPrefetcher

/-! ## Python dict helpers for the gid-keyed registries -/

/-- `m[k] = v` on an association list (overwrite-or-insert). -/
def dictSet (m : List (Nat × Nat)) (k v : Nat) : List (Nat × Nat) :=
  (k, v) :: m.filter (fun q => decide (q.1 ≠ k))

/-- `m.get(k, None)` on an association list. -/
def dictGet (m : List (Nat × Nat)) (k : Nat) : Option Nat :=
  (m.find? (fun q => decide (q.1 = k))).map (·.2)

/-! ## Reference-readiness subsystem

The prefetch/DMA/readiness slice of `Simulator.step`:
`submit` is the reference-prefetch enqueue of a freshly pushed tile
(vcnpuprop.py lines 692-697, plus the `tile_registry` insertion of line 682
restricted to the one field the subsystem tracks), and `phase23` is the
shared prefetcher-issue / DMA-step / completion-dispatch tail of the step
loop (lines 729-754).  `ready` maps a tile's gid to its `reference_ready`
flag. -/

structure PrefetchSystem where
  pf : SplitPrefetcher
  dma : DMAEngine
  ready : List (Nat × Nat)
  deriving Repr, DecidableEq

namespace PrefetchSystem

def init (max_outstanding ptable_entries coalesce_bytes dram_alignment
    dram_latency bw : Nat) : PrefetchSystem :=
  { pf := SplitPrefetcher.init max_outstanding ptable_entries coalesce_bytes
      dram_alignment,
    dma := DMAEngine.init dram_latency bw,
    ready := [] }

/-- Register the produced tile (with `reference_ready = False`), submit its
reference region, and link its gid to the returned entry. -/
def submit (s : PrefetchSystem) (gid base length : Nat)
    (dest_banks : List (Nat × Nat)) : PrefetchSystem × Nat :=
  let ready := dictSet s.ready gid 0
  let (id, pf) := s.pf.coalesce_enqueue base length dest_banks "reference"
  let e := pf.getEntry id
  let pf :=
    if gid ∈ e.linked_tiles then pf
    else pf.setEntry id { e with linked_tiles := e.linked_tiles ++ [gid] }
  ({ pf := pf, dma := s.dma, ready := ready }, id)

/-- Set `reference_ready` for `gid` if it is registered
(`tile = tile_registry.get(gid); if tile: tile.reference_ready = True`). -/
def flipReady (ready : List (Nat × Nat)) (gid : Nat) : List (Nat × Nat) :=
  match dictGet ready gid with
  | some _ => dictSet ready gid 1
  | none => ready

/-- Completion dispatch for one DMA request (vcnpuprop.py lines 741-754
without the instrumentation). -/
def dispatchCompleted (acc : SplitPrefetcher × List (Nat × Nat))
    (req : DMARequest) : SplitPrefetcher × List (Nat × Nat) :=
  let pf := acc.1.on_dma_completed req
  match pf.entryForCompleted req with
  | some id =>
      let e := pf.getEntry id
      if e.request_type == "reference" then
        (pf, e.linked_tiles.foldl flipReady acc.2)
      else (pf, acc.2)
  | none => (pf, acc.2)

/-- Phases 2 and 3 of `Simulator.step`: issue pending prefetches, step the
DMA engine, dispatch completions. -/
def phase23 (s : PrefetchSystem) : PrefetchSystem :=
  let (pf, dma, _issued) := s.pf.issue_prefetches s.dma
  let dma := dma.step
  let (completed, dma) := dma.collect_completed
  let (pf, ready) := completed.foldl dispatchCompleted (pf, s.ready)
  { pf := pf, dma := dma, ready := ready }

end PrefetchSystem

/-- Reachable states of the readiness subsystem: any interleaving of tile
submissions and step phases from an initial configuration. -/
inductive PSReach (mo pe cb da dl bw : Nat) : PrefetchSystem → Prop
  | init : PSReach mo pe cb da dl bw (PrefetchSystem.init mo pe cb da dl bw)
  | submit (s : PrefetchSystem) (gid base length : Nat)
      (dest_banks : List (Nat × Nat)) :
      PSReach mo pe cb da dl bw s →
      PSReach mo pe cb da dl bw (s.submit gid base length dest_banks).1
  | step (s : PrefetchSystem) :
      PSReach mo pe cb da dl bw s → PSReach mo pe cb da dl bw s.phase23

/-! ## Tile descriptors (dataclass TileGroup, vcnpuprop.py lines 81-92) -/

structure TileGroup where
  gid : Nat
  row_group_idx : Nat
  col_tile_idx : Nat
  col_start : Nat
  col_end : Nat
  motion_ready : Bool := false
  reference_ready : Bool := false
  sftm_done : Bool := false
  sftm_cycles : Nat := 0
  bypass_mode : Bool := false
  deriving Repr, DecidableEq

instance : Inhabited TileGroup :=
  ⟨{ gid := 0, row_group_idx := 0, col_tile_idx := 0, col_start := 0, col_end := 0 }⟩

/-- Python `round(a / b)` on a nonnegative exact fraction: nearest integer,
ties to even (the float division is exact at the magnitudes used). -/
def pyRoundDiv (a b : Nat) : Nat :=
  let q := a / b
  let r := a % b
  if 2 * r < b then q
  else if b < 2 * r then q + 1
  else if q % 2 = 0 then q else q + 1

/-! ## Producer (class ProducerSFTM, vcnpuprop.py lines 389-510)

The seeded global `random` stream is abstracted as a list of `Int` draws
threaded through the simulator; each `random.randint(-j, j)` call pops the
head. -/

structure ProducerSFTM where
  core_id : Nat
  tile_columns : Nat
  num_col_tiles : Nat
  base_period : Nat
  period_per_tile : Nat
  groups_total : Nat
  jitter : Nat
  cycle : Nat
  issued : Nat
  next_issue : Nat
  gid : Nat
  scu_counts_cache : List (String × List Nat)
  active_tile : Option TileGroup
  sftm_busy_until : Nat
  deriving Repr, DecidableEq

instance : Inhabited ProducerSFTM :=
  ⟨{ core_id := 0, tile_columns := 1, num_col_tiles := 1, base_period := 0,
     period_per_tile := 1, groups_total := 0, jitter := 0, cycle := 0,
     issued := 0, next_issue := 1, gid := 1, scu_counts_cache := [],
     active_tile := none, sftm_busy_until := 0 }⟩

namespace ProducerSFTM

def init (tile_columns : Nat) (groups_total : Option Nat)
    (base_period jitter core_id : Nat)
    (cache : List (String × List Nat)) : ProducerSFTM :=
  let num_col_tiles := natCeilDiv FRAME_COLS tile_columns
  let row_groups := FRAME_ROWS / ROWS_PER_GROUP
  { core_id := core_id, tile_columns := tile_columns,
    num_col_tiles := num_col_tiles, base_period := base_period,
    period_per_tile := max 1 (pyRoundDiv base_period (max 1 num_col_tiles)),
    groups_total := groups_total.getD (row_groups * num_col_tiles),
    jitter := jitter, cycle := 0, issued := 0, next_issue := 1, gid := 1,
    scu_counts_cache := cache, active_tile := none, sftm_busy_until := 0 }

/-- The per-producer `compute_sftm_cycles` call with its default layer
argument `"RFConv0"`. -/
def computeCycles (p : ProducerSFTM) (t : TileGroup) : Nat × Nat :=
  compute_sftm_cycles
    ((p.scu_counts_cache.find? (fun q => q.1 == "RFConv0")).map (·.2))
    t.col_start t.col_end

/-- `step`: advance one cycle; finish the active tile once its busy window
has elapsed (returning it with `sftm_done` and `motion_ready` set), else
issue the next tile when past `next_issue`. -/
def step (p : ProducerSFTM) (rng : List Int) :
    Option (TileGroup × Nat × Nat) × ProducerSFTM × List Int :=
  let p := { p with cycle := p.cycle + 1 }
  match p.active_tile with
  | some t =>
      if p.cycle < p.sftm_busy_until then (none, p, rng)
      else
        let finished := { t with sftm_done := true, motion_ready := true }
        (some (finished, finished.sftm_cycles, 0),
         { p with active_tile := none }, rng)
  | none =>
      if p.groups_total ≤ p.issued then (none, p, rng)
      else if p.next_issue ≤ p.cycle then
        let tile_index := p.issued
        let row_groups_per_frame := FRAME_ROWS / ROWS_PER_GROUP
        let row_group_idx := (tile_index / p.num_col_tiles) % row_groups_per_frame
        let col_tile_idx := tile_index % p.num_col_tiles
        let col_start := col_tile_idx * p.tile_columns
        let col_end := min (FRAME_COLS - 1) (col_start + p.tile_columns - 1)
        let t : TileGroup :=
          { gid := p.gid, row_group_idx := row_group_idx,
            col_tile_idx := col_tile_idx, col_start := col_start,
            col_end := col_end }
        let (sftm_c, _macs) := p.computeCycles t
        let t := { t with sftm_cycles := sftm_c }
        let (jitter_v, rng) :=
          if 0 < p.jitter then (rng.headD 0, rng.tail) else (0, rng)
        let p := { p with
          active_tile := some t,
          sftm_busy_until := p.cycle + sftm_c,
          gid := p.gid + 1,
          issued := p.issued + 1,
          next_issue := p.cycle + (max 1 ((p.period_per_tile : Int) + jitter_v)).toNat }
        (none, p, rng)
      else (none, p, rng)

end ProducerSFTM

/-! ## Consumer (class ConsumerDPM, vcnpuprop.py lines 515-556) -/

structure ConsumerDPM where
  tile_columns : Nat
  num_col_tiles : Nat
  base_period : Nat
  period_per_tile : Nat
  jitter : Nat
  cycle : Nat
  next_consume : Nat
  stall_cycles : Nat
  consumed : Nat
  active_tile : Option Nat
  dpm_busy_until : Nat
  deriving Repr, DecidableEq

instance : Inhabited ConsumerDPM :=
  ⟨{ tile_columns := 1, num_col_tiles := 1, base_period := 0,
     period_per_tile := 1, jitter := 0, cycle := 0, next_consume := 1,
     stall_cycles := 0, consumed := 0, active_tile := none,
     dpm_busy_until := 0 }⟩

namespace ConsumerDPM

def init (tile_columns base_period jitter : Nat) : ConsumerDPM :=
  let num_col_tiles := natCeilDiv FRAME_COLS tile_columns
  { tile_columns := tile_columns, num_col_tiles := num_col_tiles,
    base_period := base_period,
    period_per_tile := max 1 (pyRoundDiv base_period (max 1 num_col_tiles)),
    jitter := jitter, cycle := 0, next_consume := 1, stall_cycles := 0,
    consumed := 0, active_tile := none, dpm_busy_until := 0 }

/-- `compute_dpm_cycles`: interpolation plus MAC cycles for the deformable
convolution over the tile (`macs` is divisible by 4, so the Python `// 4`
is exact). -/
def compute_dpm_cycles (t : TileGroup) : Nat × Nat :=
  let rows := ROWS_PER_GROUP
  let cols := t.col_end - t.col_start + 1
  let out_pixels := rows * cols
  let interp_cycles := out_pixels * DFCONV_INTERP_COST_PER_SAMPLE
  let macs := out_pixels * CHANNELS * 9 * CHANNELS / 4
  let mac_cycles := natCeilDiv macs DFCONV_PE_COUNT
  (interp_cycles + mac_cycles, macs)

def step (c : ConsumerDPM) : ConsumerDPM := { c with cycle := c.cycle + 1 }

def ready_to_consume (c : ConsumerDPM) : Bool :=
  decide (c.next_consume ≤ c.cycle) && decide (c.dpm_busy_until ≤ c.cycle)

def start_consume (c : ConsumerDPM) (t : TileGroup) (rng : List Int) :
    (Nat × Nat) × ConsumerDPM × List Int :=
  let (dpm_cycles, macs) := compute_dpm_cycles t
  let (jitter_v, rng) :=
    if 0 < c.jitter then (rng.headD 0, rng.tail) else (0, rng)
  ((dpm_cycles, macs),
   { c with active_tile := some t.gid,
            dpm_busy_until := c.cycle + dpm_cycles,
            next_consume := c.cycle + (max 1 ((c.period_per_tile : Int) + jitter_v)).toNat,
            consumed := c.consumed + 1 },
   rng)

end ConsumerDPM

/-! ## Simulator (class Simulator, vcnpuprop.py lines 561-795) -/

structure Stats where
  cycles : Nat := 0
  groups_produced : Nat := 0
  groups_consumed : Nat := 0
  fifo_max_occupancy : Nat := 0
  dma_bytes : Nat := 0
  dma_requests : Nat := 0
  dma_motion_requests : Nat := 0
  dma_reference_requests : Nat := 0
  dpm_stall_cycles : Nat := 0
  dpm_stall_motion : Nat := 0
  dpm_stall_reference : Nat := 0
  prefetch_hits : Nat := 0
  prefetch_coalesced : Nat := 0
  prefetch_total : Nat := 0
  sftm_compute_cycles : Nat := 0
  dpm_compute_cycles : Nat := 0
  sftm_macs : Nat := 0
  dpm_macs : Nat := 0
  bypass_mode_used : Nat := 0
  deriving Repr, DecidableEq

/-- Constructor arguments of `Simulator` (and the mask data its producers
would load from `mask_dir`: the per-layer SCU-count cache, empty when no
mask directory is given). -/
structure SimConfig where
  tile_columns : Nat := 120
  banks : Nat := DEFAULT_BANKS
  group_slots : Nat := DEFAULT_GROUP_SLOTS
  dram_latency : Nat := DEFAULT_DRAM_LATENCY
  dram_bw : Nat := DEFAULT_DRAM_BW
  max_outstanding : Nat := DEFAULT_MAX_OUTSTANDING
  groups_total : Option Nat := none
  halo_pixels : Nat := 4
  ptable_entries : Nat := DEFAULT_PTABLE_ENTRIES
  coalesce_bytes : Nat := DEFAULT_COALESCE_BYTES
  base_period : Nat := DEFAULT_BASE_PERIOD
  num_parallel_units : Nat := 4
  bypass_mode : Bool := false
  mask_counts : List (String × List Nat) := []
  deriving Repr, DecidableEq

/-- The Python `TileGroup` objects live in `tile_registry` and inside FIFO
queues simultaneously and are mutated through either alias.  Object identity
is modelled by the append-only `tile_store` (`tid` = index); FIFO queues
hold `tid`s and `tile_registry` maps a gid to the `tid` it was most recently
bound to.  `prodLog`, `consLog` and `readyLog` are ghost instrumentation:
`(cycle, tid)` when a tile is returned by its producer / popped for
consumption, and `(tid, done_cycle, cycle)` when a DMA completion sets a
tile's `reference_ready`. -/
structure Simulator where
  tile_columns : Nat
  num_col_tiles : Nat
  row_groups : Nat
  groups_total : Nat
  num_parallel_units : Nat
  bypass_mode : Bool
  fifos : List BankedGroupFIFO
  dma : DMAEngine
  prefetcher : SplitPrefetcher
  producers : List ProducerSFTM
  consumers : List ConsumerDPM
  cycle : Nat
  unit_cycles : List Nat
  halo_pixels : Nat
  tile_store : List TileGroup
  tile_registry : List (Nat × Nat)
  rng : List Int
  stats : Stats
  fifo_occ_ts : List (List (Nat × Nat))
  first_byte_samples : List (Nat × Nat × Option Nat × String)
  prodLog : List (Nat × Nat)
  consLog : List (Nat × Nat)
  readyLog : List (Nat × Nat × Nat)
  deriving Repr, DecidableEq

namespace Simulator

def init (cfg : SimConfig) (rng : List Int) : Simulator :=
  let num_col_tiles := natCeilDiv FRAME_COLS cfg.tile_columns
  let row_groups := FRAME_ROWS / ROWS_PER_GROUP
  let groups_total := cfg.groups_total.getD (row_groups * num_col_tiles)
  let groups_per_unit := natCeilDiv groups_total cfg.num_parallel_units
  { tile_columns := cfg.tile_columns, num_col_tiles := num_col_tiles,
    row_groups := row_groups, groups_total := groups_total,
    num_parallel_units := cfg.num_parallel_units,
    bypass_mode := cfg.bypass_mode,
    fifos := List.replicate cfg.num_parallel_units
      (BankedGroupFIFO.init cfg.banks cfg.group_slots),
    dma := DMAEngine.init cfg.dram_latency cfg.dram_bw,
    prefetcher := SplitPrefetcher.init cfg.max_outstanding cfg.ptable_entries
      cfg.coalesce_bytes 4096,
    producers := (List.range cfg.num_parallel_units).map (fun i =>
      ProducerSFTM.init cfg.tile_columns (some groups_per_unit)
        cfg.base_period 2 i cfg.mask_counts),
    consumers := List.replicate cfg.num_parallel_units
      (ConsumerDPM.init cfg.tile_columns cfg.base_period 4),
    cycle := 0,
    unit_cycles := List.replicate cfg.num_parallel_units 0,
    halo_pixels := cfg.halo_pixels,
    tile_store := [], tile_registry := [], rng := rng, stats := {},
    fifo_occ_ts := List.replicate cfg.num_parallel_units [],
    first_byte_samples := [], prodLog := [], consLog := [], readyLog := [] }

/-- `linear_addr_for_pixel` (vcnpuprop.py lines 118-119). -/
def linear_addr_for_pixel (x y : Nat) : Nat :=
  (y * FRAME_COLS + x) * BYTES_PER_PIXEL

/-- `region_bytes_for_dims` (vcnpuprop.py lines 121-122). -/
def region_bytes_for_dims (width_pixels height_rows : Nat) : Nat :=
  width_pixels * height_rows * BYTES_PER_PIXEL

/-- `compute_reference_region_for_tile` (vcnpuprop.py lines 645-654). -/
def compute_reference_region (halo_pixels : Nat) (t : TileGroup) : Nat × Nat :=
  let x0 := t.col_start
  let x1 := t.col_end
  let y0 := t.row_group_idx * ROWS_PER_GROUP - halo_pixels
  let y1 := min (FRAME_ROWS - 1) ((t.row_group_idx + 1) * ROWS_PER_GROUP - 1 + halo_pixels)
  let width := x1 - x0 + 1
  let height := y1 - y0 + 1
  (linear_addr_for_pixel x0 y0, region_bytes_for_dims width height)

/-- `allocate_dest_banks_for_tile` (vcnpuprop.py lines 656-663). -/
def allocate_dest_banks (fifo : BankedGroupFIFO) : List (Nat × Nat) :=
  let slot_idx := fifo.occupancy
  let bank := slot_idx % fifo.banks
  let local_slot := slot_idx / fifo.banks
  let local_slot :=
    if fifo.group_slots_per_bank ≤ local_slot then fifo.group_slots_per_bank - 1
    else local_slot
  [(bank, local_slot)]

/-- The bypass arm of the produced-tile handling (lines 684-688). -/
def bypassProducedTile (s : Simulator) (tid : Nat) : Simulator :=
  let t := s.tile_store.getD tid default
  { s with
    tile_store := s.tile_store.set tid { t with bypass_mode := true },
    stats := { s.stats with
      bypass_mode_used := s.stats.bypass_mode_used + 1 } }

/-- The push arm of the produced-tile handling (lines 690-697). -/
def pushProducedTile (s : Simulator) (u : Nat) (tid : Nat) : Simulator :=
  let t := s.tile_store.getD tid default
  let fifo := s.fifos.getD u default
  let (fifo, pushed) := fifo.push tid t.gid
  let s := { s with fifos := s.fifos.set u fifo }
  if pushed then
    let (ref_base, ref_length) := compute_reference_region s.halo_pixels t
    let dest_banks := allocate_dest_banks fifo
    let (id, pf) := s.prefetcher.coalesce_enqueue ref_base ref_length
      dest_banks "reference"
    let e := pf.getEntry id
    let pf :=
      if t.gid ∈ e.linked_tiles then pf
      else pf.setEntry id { e with linked_tiles := e.linked_tiles ++ [t.gid] }
    { s with prefetcher := pf }
  else s

def handleProducedTile (s : Simulator) (u : Nat) (tid : Nat) : Simulator :=
  if s.bypass_mode || ! (s.fifos.getD u default).can_push then
    bypassProducedTile s tid
  else
    pushProducedTile s u tid

/-- Producer half of the per-unit step (lines 676-697): advance the unit's
producer; on a finished tile update the stats, register it, and hand it to
the bypass-or-push block. -/
def prodPhase (s : Simulator) (u : Nat) : Simulator :=
  let producer := s.producers.getD u default
  let (result, producer, rng) := producer.step s.rng
  let s := { s with producers := s.producers.set u producer, rng := rng }
  match result with
  | none => s
  | some (t, sftm_cycles, macs) =>
      let s := { s with stats := { s.stats with
        groups_produced := s.stats.groups_produced + 1,
        sftm_compute_cycles := s.stats.sftm_compute_cycles + sftm_cycles,
        sftm_macs := s.stats.sftm_macs + macs } }
      let tid := s.tile_store.length
      let s := { s with
        tile_store := s.tile_store ++ [t],
        tile_registry := dictSet s.tile_registry t.gid tid,
        prodLog := s.prodLog ++ [(s.cycle, tid)] }
      handleProducedTile s u tid

/-- Consumer half of the per-unit step (lines 699-716): step the DPM; when
it is ready and the FIFO head has both readiness flags, pop and start
consuming it, otherwise count the stall. -/
def consPhase (s : Simulator) (u : Nat) : Simulator :=
  let consumer := (s.consumers.getD u default).step
  let s := { s with consumers := s.consumers.set u consumer }
  if consumer.ready_to_consume then
    let fifo := s.fifos.getD u default
    match fifo.peek with
    | none => s
    | some tid =>
        let front := s.tile_store.getD tid default
        if front.motion_ready && front.reference_ready then
          let (popped, fifo) :=
            fifo.pop (fun tid2 => (s.tile_store.getD tid2 default).gid)
          let s := { s with fifos := s.fifos.set u fifo }
          match popped with
          | some ptid =>
              let pt := s.tile_store.getD ptid default
              let ((dpm_cycles, dpm_macs), consumer, rng) :=
                consumer.start_consume pt s.rng
              { s with
                consumers := s.consumers.set u consumer, rng := rng,
                stats := { s.stats with
                  groups_consumed := s.stats.groups_consumed + 1,
                  dpm_compute_cycles := s.stats.dpm_compute_cycles + dpm_cycles,
                  dpm_macs := s.stats.dpm_macs + dpm_macs },
                consLog := s.consLog ++ [(s.cycle, ptid)] }
          | none => s
        else
          { s with stats := { s.stats with
              dpm_stall_cycles := s.stats.dpm_stall_cycles + 1,
              dpm_stall_motion :=
                s.stats.dpm_stall_motion + (if front.motion_ready then 0 else 1),
              dpm_stall_reference :=
                s.stats.dpm_stall_reference + (if front.reference_ready then 0 else 1) } }
  else s

/-- Per-unit bookkeeping tail of the step (lines 718-726): max-occupancy
stat, occupancy timeseries, per-unit cycle counter. -/
def statsPhase (s : Simulator) (u : Nat) : Simulator :=
  let fifo := s.fifos.getD u default
  let occ := fifo.occupancy
  let s := { s with stats := { s.stats with
    fifo_max_occupancy := max s.stats.fifo_max_occupancy occ } }
  let fifo := fifo.record_ts s.cycle
  { s with
    fifos := s.fifos.set u fifo,
    fifo_occ_ts := s.fifo_occ_ts.set u fifo.occ_timeseries,
    unit_cycles := s.unit_cycles.set u s.cycle }

def stepUnit (s : Simulator) (u : Nat) : Simulator :=
  statsPhase (consPhase (prodPhase s u) u) u

/-- Completion dispatch for one DMA request in the full simulator
(lines 741-754): mark the entry done, flip `reference_ready` on the tiles
its linked gids currently resolve to, and record the first-byte sample. -/
def dispatchCompleted (s : Simulator) (req : DMARequest) : Simulator :=
  let pf := s.prefetcher.on_dma_completed req
  let s := { s with prefetcher := pf }
  let s :=
    match pf.entryForCompleted req with
    | some id =>
        let e := pf.getEntry id
        if e.request_type == "reference" then
          e.linked_tiles.foldl (fun (s : Simulator) gid =>
            match dictGet s.tile_registry gid with
            | some tid =>
                let t := s.tile_store.getD tid default
                { s with
                  tile_store := s.tile_store.set tid { t with reference_ready := true },
                  readyLog := s.readyLog ++ [(tid, req.done_cycle.getD 0, s.cycle)] }
            | none => s) s
        else s
    | none => s
  { s with first_byte_samples := s.first_byte_samples ++
      [(req.tag, req.issue_cycle, req.done_cycle, req.request_type)] }

/-- The per-issued-request DMA statistics update of phase 2 (lines 731-737). -/
def issueStats (s : Simulator) (ti : Nat × Nat) : Simulator :=
  let e := s.prefetcher.getEntry ti.2
  { s with stats := { s.stats with
      dma_requests := s.stats.dma_requests + 1,
      dma_bytes := s.stats.dma_bytes + e.length,
      dma_reference_requests := s.stats.dma_reference_requests +
        (if e.request_type == "reference" then 1 else 0),
      dma_motion_requests := s.stats.dma_motion_requests +
        (if e.request_type == "reference" then 0 else 1) } }

/-- The DMA-step / completion-dispatch / counter tail of phases 2-3
(lines 739-762). -/
def phase23Tail (s : Simulator) : Simulator :=
  let dma := s.dma.step
  let (completed, dma) := dma.collect_completed
  let s := { s with dma := dma }
  let s := completed.foldl dispatchCompleted s
  let s := { s with stats := { s.stats with
    prefetch_total := s.prefetcher.requests_total,
    prefetch_hits := s.prefetcher.requests_hits,
    prefetch_coalesced := s.prefetcher.requests_coalesced } }
  { s with stats := { s.stats with
    cycles := if s.unit_cycles = [] then s.cycle else listMax s.unit_cycles } }

/-- Phases 2 and 3 of the step (lines 728-762): shared prefetcher issue with
DMA-request stats, DMA step and completion dispatch, prefetch-counter stats
and the parallel-units cycle reduction. -/
def phase23 (s : Simulator) : Simulator :=
  let (pf, dma, issued) := s.prefetcher.issue_prefetches s.dma
  let s := { s with prefetcher := pf, dma := dma }
  phase23Tail (issued.foldl issueStats s)

/-- `Simulator.step` (lines 665-765): bump the cycle, run every unit's
producer/consumer pair, then the shared prefetch/DMA phases.  Returns the
updated state and the termination flag. -/
def step (s : Simulator) : Simulator × Bool :=
  let s := { s with cycle := s.cycle + 1 }
  let s := (List.range s.num_parallel_units).foldl stepUnit s
  let s := phase23 s
  (s, s.groups_total ≤ s.stats.groups_consumed)

def stepN : Nat → Simulator → Simulator
  | 0, s => s
  | n + 1, s => stepN n (s.step).1

def runLoop : Nat → Nat → Simulator → Simulator
  | 0, _, s => s
  | fuel + 1, max_cycles, s =>
      if s.cycle < max_cycles then
        let (s', done) := s.step
        if done then s' else runLoop fuel max_cycles s'
      else s

/-- The statistics record returned by `Simulator.run` (lines 767-795).
`runtime_s` is the wall-clock time elapsed over the run. -/
structure SimRes where
  stats : Stats
  dma_outstanding_at_end : Nat
  fifo_overflow_count : Nat
  tile_columns : Nat
  num_col_tiles : Nat
  row_groups : Nat
  runtime_s : ℚ
  dram_bw : Nat
  num_parallel_units : Nat
  unit_cycles : List Nat
  fifo_occ_timeseries : List (Nat × Nat)
  first_byte_samples : List (Nat × Nat × Option Nat × String)
  deriving DecidableEq

/-- `Simulator.run`: `time.time()` is sampled at entry and exit; the pair
`(t0, t1)` is that wall-clock oracle.  A `probe_cycles` argument of `0`
is falsy in Python and skips the probe loop, like `None`. -/
def run (s : Simulator) (max_cycles : Nat) (probe_cycles : Option Nat)
    (t0 t1 : ℚ) : SimRes :=
  let s := if 0 < probe_cycles.getD 0 then stepN (probe_cycles.getD 0) s else s
  let s := runLoop max_cycles max_cycles s
  { stats := s.stats
    dma_outstanding_at_end := s.dma.outstanding_count
    fifo_overflow_count := (s.fifos.map (·.overflow_count)).sum
    tile_columns := s.tile_columns
    num_col_tiles := s.num_col_tiles
    row_groups := s.row_groups
    runtime_s := t1 - t0
    dram_bw := s.dma.bw
    num_parallel_units := s.num_parallel_units
    unit_cycles := s.unit_cycles
    fifo_occ_timeseries := s.fifo_occ_ts.flatten
    first_byte_samples := s.first_byte_samples }

/-- Every field of the run record except the wall-clock `runtime_s`. -/
def SimRes.core (r : SimRes) :
    Stats × Nat × Nat × Nat × Nat × Nat × Nat × Nat × List Nat ×
      List (Nat × Nat) × List (Nat × Nat × Option Nat × String) :=
  (r.stats, r.dma_outstanding_at_end, r.fifo_overflow_count, r.tile_columns,
   r.num_col_tiles, r.row_groups, r.dram_bw, r.num_parallel_units,
   r.unit_cycles, r.fifo_occ_timeseries, r.first_byte_samples)

end Simulator

/-- Simulator states reachable from an initial configuration and jitter
stream by the step loop. -/
inductive SimReach (cfg : SimConfig) (rng : List Int) : Simulator → Prop
  | init : SimReach cfg rng (Simulator.init cfg rng)
  | step (s : Simulator) : SimReach cfg rng s → SimReach cfg rng (s.step).1

/-! ## Reachability relations and claim-level predicates for the FIFO -/

namespace BankedGroupFIFO

/-- A gid not currently present anywhere in the FIFO's bookkeeping (the
producers' gid counters are monotone, so every pushed gid is fresh for its
unit's FIFO). -/
def gidFresh (f : BankedGroupFIFO) (gid : Nat) : Prop :=
  gid ∉ f.queue ∧ (∀ p ∈ f.tile_to_slot, p.1 ≠ gid) ∧
    (∀ row ∈ f.bank_slots, ∀ c ∈ row, c ≠ some gid)

instance (f : BankedGroupFIFO) (gid : Nat) : Decidable (f.gidFresh gid) := by
  unfold gidFresh; infer_instance

end BankedGroupFIFO

/-- FIFO states reachable by any interleaving of fresh-gid pushes and pops
from an empty FIFO (the queue stores the gids themselves here). -/
inductive FifoReach (banks slots : Nat) : BankedGroupFIFO → Prop
  | init : FifoReach banks slots (BankedGroupFIFO.init banks slots)
  | push (f : BankedGroupFIFO) (gid : Nat) : FifoReach banks slots f →
      f.gidFresh gid → FifoReach banks slots (f.push gid gid).1
  | pop (f : BankedGroupFIFO) : FifoReach banks slots f →
      FifoReach banks slots (f.pop (fun g => g)).2

/-- FIFO states reachable by fresh-gid pushes alone (no pop yet). -/
inductive FifoReachPush (banks slots : Nat) : BankedGroupFIFO → Prop
  | init : FifoReachPush banks slots (BankedGroupFIFO.init banks slots)
  | push (f : BankedGroupFIFO) (gid : Nat) : FifoReachPush banks slots f →
      f.gidFresh gid → FifoReachPush banks slots (f.push gid gid).1

namespace BankedGroupFIFO

/-- Each gid appears in at most one slot of the bank/slot table. -/
def atMostOneSlot (f : BankedGroupFIFO) : Prop :=
  ∀ b1 ∈ List.range f.banks, ∀ l1 ∈ List.range f.group_slots_per_bank,
    ∀ b2 ∈ List.range f.banks, ∀ l2 ∈ List.range f.group_slots_per_bank,
      (f.slotOf b1 l1).isSome → f.slotOf b1 l1 = f.slotOf b2 l2 →
        b1 = b2 ∧ l1 = l2

/-- The slot table is a bijection between resident gids and occupied slots:
every queued gid sits in exactly one slot and every occupied slot holds a
queued gid. -/
def slotBijection (f : BankedGroupFIFO) : Prop :=
  (∀ g ∈ f.queue, ∃ b ∈ List.range f.banks, ∃ l ∈ List.range f.group_slots_per_bank,
    f.slotOf b l = some g ∧
      ∀ b' ∈ List.range f.banks, ∀ l' ∈ List.range f.group_slots_per_bank,
        f.slotOf b' l' = some g → b' = b ∧ l' = l) ∧
    (∀ b ∈ List.range f.banks, ∀ l ∈ List.range f.group_slots_per_bank,
      ∀ g ∈ (f.slotOf b l).toList, g ∈ f.queue)

/-- The slot a push would use (`slot_idx = len(queue)`) holds no resident
gid, so an admission cannot overwrite the slot-table entry of a tile still
in the queue. -/
def pushTargetsFreeSlot (f : BankedGroupFIFO) : Prop :=
  f.can_push = true →
    ∀ g ∈ (f.slotOf (f.queue.length % f.banks) (f.queue.length / f.banks)).toList,
      g ∉ f.queue

/-- The push-time association between queue positions and slots: the gid at
queue position `i` occupies the slot with linear index `i`
(`slot = bank + banks * local_slot`, `bank = i % banks`,
`local_slot = i / banks`), and all other slots are empty. -/
def queueSlotCorrespondence (f : BankedGroupFIFO) : Prop :=
  ∀ b ∈ List.range f.banks, ∀ l ∈ List.range f.group_slots_per_bank,
    f.slotOf b l =
      if b + f.banks * l < f.queue.length
      then some (f.queue.getD (b + f.banks * l) 0) else none

instance (f : BankedGroupFIFO) : Decidable f.atMostOneSlot := by
  unfold atMostOneSlot; infer_instance

instance (f : BankedGroupFIFO) : Decidable f.slotBijection := by
  unfold slotBijection; infer_instance

instance (f : BankedGroupFIFO) : Decidable f.pushTargetsFreeSlot := by
  unfold pushTargetsFreeSlot; infer_instance

instance (f : BankedGroupFIFO) : Decidable f.queueSlotCorrespondence := by
  unfold queueSlotCorrespondence; infer_instance

end BankedGroupFIFO

/-! ## Continuations of the readiness subsystem after a prefetch hit -/

/-- One subsystem step that never resubmits the gid `g`: either a submission
of a different tile or the shared prefetch/DMA/completion phases. -/
def PSStep (g : Nat) (s t : PrefetchSystem) : Prop :=
  (∃ gid base length db, gid ≠ g ∧ t = (s.submit gid base length db).1) ∨
    t = s.phase23

/-- Any number of such steps. -/
def PSSteps (g : Nat) : PrefetchSystem → PrefetchSystem → Prop :=
  Relation.ReflTransGen (PSStep g)

/-- Alignment of a prefetch-table entry to the DRAM alignment `a`. -/
def PTEntry.alignedTo (a : Nat) (e : PTEntry) : Prop :=
  e.base_addr % a = 0 ∧ e.length % a = 0

instance (a : Nat) (e : PTEntry) : Decidable (e.alignedTo a) := by
  unfold PTEntry.alignedTo; infer_instance

/-- Alignment of a DMA request to the DRAM alignment `a`. -/
def DMARequest.alignedTo (a : Nat) (r : DMARequest) : Prop :=
  r.base_addr % a = 0 ∧ r.length % a = 0

instance (a : Nat) (r : DMARequest) : Decidable (r.alignedTo a) := by
  unfold DMARequest.alignedTo; infer_instance

/-- Every entry of the prefetcher's store is aligned. -/
def SplitPrefetcher.storeAligned (a : Nat) (p : SplitPrefetcher) : Prop :=
  ∀ e ∈ p.store, e.alignedTo a

/-- Every request held by the DMA engine (in flight or completed) is
aligned. -/
def DMAEngine.reqsAligned (a : Nat) (d : DMAEngine) : Prop :=
  (∀ q ∈ d.inflight, q.2.alignedTo a) ∧ (∀ r ∈ d.completed, r.alignedTo a)

/-- Alignment invariant of the whole readiness subsystem: every stored
prefetch-table entry and every DMA request is aligned, and the prefetcher's
configured alignment is `a`. -/
def PrefetchSystem.psAligned (a : Nat) (s : PrefetchSystem) : Prop :=
  s.pf.storeAligned a ∧ s.pf.dram_alignment = a ∧ s.dma.reqsAligned a

/-- Structural well-formedness of the prefetcher/DMA pair: stored entries
are valid, table and queue indices are in range, `tag_to_entry` maps live
tags to the inflight entries carrying them, queued entries are pending and
unrepeated, entry tags are unique and below the DMA tag counter, every
in-flight request tag is resolvable through `tag_to_entry`, request keys
are the request tags, and the completed list is drained. -/
structure goodParts (pf : SplitPrefetcher) (d : DMAEngine) : Prop where
  vld : ∀ e ∈ pf.store, e.valid = true
  pbound : ∀ id ∈ pf.ptable, id < pf.store.length
  tmap : ∀ m ∈ pf.tag_to_entry, m.2 < pf.store.length ∧
    (pf.getEntry m.2).status = "inflight" ∧ (pf.getEntry m.2).tag = some m.1
  qpend : ∀ id ∈ pf.prefetch_queue, id < pf.store.length ∧
    (pf.getEntry id).status = "pending"
  qnodup : pf.prefetch_queue.Nodup
  tuniq : ∀ id1 id2 t, (pf.getEntry id1).tag = some t →
    (pf.getEntry id2).tag = some t → id1 = id2
  tlt : ∀ id t, (pf.getEntry id).tag = some t → t < d.next_tag
  wmap : ∀ q ∈ d.inflight, ∀ id, (pf.getEntry id).tag = some q.1 →
    (q.1, id) ∈ pf.tag_to_entry
  rtag : ∀ q ∈ d.inflight, q.2.tag = q.1 ∧ q.1 < d.next_tag
  rnodup : (d.inflight.map (fun q => q.1)).Nodup
  cempty : d.completed = []

/-- The subsystem invariant behind claim C10: the state is well formed,
tile `g` is registered not-ready, and `g` is linked only to done entries. -/
def psHitInv (g : Nat) (s : PrefetchSystem) : Prop :=
  goodParts s.pf s.dma ∧ dictGet s.ready g = some 0 ∧
    ∀ id, g ∈ (s.pf.getEntry id).linked_tiles →
      (s.pf.getEntry id).status = "done"

/-- Boundary invariant of the simulator step loop, holding at every state
reachable by whole steps: the DMA clock tracks the simulator clock,
production timestamps are current, queued tiles are registered productions,
consumptions happened strictly after production, readiness timestamps are
ordered (`done_cycle` value at or before the flip cycle, flip at or before
now), a raised `reference_ready` flag always has a readiness record,
consumed tiles were flipped ready after their DMA data arrived and before
the consuming cycle, and in-flight producer tiles are not reference-ready. -/
structure SimInv (s : Simulator) : Prop where
  dcyc : s.dma.cycle = s.cycle
  dcomp : s.dma.completed = []
  plog : ∀ p ∈ s.prodLog, p.1 ≤ s.cycle
  qlog : ∀ u : Nat, ∀ tid ∈ (s.fifos.getD u default).queue,
    tid < s.tile_store.length ∧ ∃ cp, (cp, tid) ∈ s.prodLog ∧ cp ≤ s.cycle
  clog : ∀ p ∈ s.consLog, ∃ cp, (cp, p.2) ∈ s.prodLog ∧ cp < p.1
  rlog : ∀ e ∈ s.readyLog, e.2.1 ≤ e.2.2 ∧ e.2.2 ≤ s.cycle
  rdy : ∀ tid : Nat, (s.tile_store.getD tid default).reference_ready = true →
    ∃ d tc, (tid, d, tc) ∈ s.readyLog
  crdy : ∀ p ∈ s.consLog, ∃ d tc, (p.2, d, tc) ∈ s.readyLog ∧ d ≤ tc ∧
    tc < p.1
  pact : ∀ u : Nat, ∀ t, (s.producers.getD u default).active_tile = some t →
    t.reference_ready = false

/-- Invariant holding throughout the per-unit half of a step at cycle
`c + 1`: tiles queued now were either produced in an earlier cycle or were
produced this cycle and are still not reference-ready (flips only happen in
the shared phase after all units run). -/
structure MidInv (c : Nat) (m : Simulator) : Prop where
  mcyc : m.cycle = c + 1
  mdcyc : m.dma.cycle = c
  mdcomp : m.dma.completed = []
  mplog : ∀ p ∈ m.prodLog, p.1 ≤ m.cycle
  mqlog : ∀ u : Nat, ∀ tid ∈ (m.fifos.getD u default).queue,
    tid < m.tile_store.length ∧ ∃ cp, (cp, tid) ∈ m.prodLog ∧
      (cp ≤ c ∨ (m.tile_store.getD tid default).reference_ready = false)
  mclog : ∀ p ∈ m.consLog, ∃ cp, (cp, p.2) ∈ m.prodLog ∧ cp < p.1
  mrlog : ∀ e ∈ m.readyLog, e.2.1 ≤ e.2.2 ∧ e.2.2 ≤ c
  mrdy : ∀ tid : Nat, (m.tile_store.getD tid default).reference_ready =
    true → ∃ d tc, (tid, d, tc) ∈ m.readyLog
  mcrdy : ∀ p ∈ m.consLog, ∃ d tc, (p.2, d, tc) ∈ m.readyLog ∧ d ≤ tc ∧
    tc < p.1
  mpact : ∀ u : Nat, ∀ t, (m.producers.getD u default).active_tile =
    some t → t.reference_ready = false

/-- A concrete simulator state whose single one-slot FIFO is full (used by
the claim C8 theorems). -/
def c8State : Simulator :=
  { Simulator.init
      { tile_columns := 1920, banks := 1, group_slots := 1,
        num_parallel_units := 1 } [] with
    fifos := [((BankedGroupFIFO.init 1 1).push 0 5).1],
    tile_store := [(default : TileGroup)] }

/-! ## Invariant formulas used by the proofs -/

namespace BankedGroupFIFO

/-- Shape of the slot tables: `banks` rows of `group_slots_per_bank` cells. -/
def shapeOK (f : BankedGroupFIFO) : Prop :=
  f.bank_slots.length = f.banks ∧
    ∀ row ∈ f.bank_slots, row.length = f.group_slots_per_bank

/-- Structural invariant of push-only histories: the queue is within
capacity and duplicate-free, and slot `(b, l)` holds exactly the gid at
queue position `b + banks * l` (empty above the occupancy). -/
def pushInv (f : BankedGroupFIFO) : Prop :=
  f.shapeOK ∧ f.queue.length ≤ f.banks * f.group_slots_per_bank ∧
    f.queue.Nodup ∧
    ∀ b l, b < f.banks → l < f.group_slots_per_bank →
      f.slotOf b l =
        if b + f.banks * l < f.queue.length
        then some (f.queue.getD (b + f.banks * l) 0) else none

end BankedGroupFIFO

/-! # Theorems

Helper lemmas first, then one theorem per claim (with witnesses and
counterexamples where required). -/

lemma specCeil_eq_natCeilDiv (a b : Nat) (hb : 0 < b) : natCeilDiv a b = specCeil a b := by
  obtain ⟨q, r, hr, hqr⟩ : ∃ q r, r < b ∧ a = b * q + r :=
    ⟨a / b, a % b, Nat.mod_lt _ hb, (Nat.div_add_mod a b).symm⟩
  subst hqr
  have h1 : (b * q + r) % b = r := by
    rw [Nat.mul_add_mod, Nat.mod_eq_of_lt hr]
  have h2 : (b * q + r) / b = q := by
    rw [Nat.mul_add_div hb, Nat.div_eq_of_lt hr, Nat.add_zero]
  have h3 : b * q + r + b - 1 = b * q + (r + b - 1) := by omega
  unfold natCeilDiv specCeil
  rw [h1, h2, h3, Nat.mul_add_div hb]
  rcases Nat.eq_zero_or_pos r with rfl | hr0
  · simp [Nat.div_eq_of_lt (by omega : b - 1 < b)]
  · have h4 : r + b - 1 = (r - 1) + b := by omega
    have h5 : (r + b - 1) / b = 1 := by
      rw [h4, Nat.add_div_right _ hb, Nat.div_eq_of_lt (by omega)]
    rw [if_neg (by omega), h5]

lemma foldl_max_hoist (l : List Nat) : ∀ a b : Nat,
    l.foldl max (max a b) = max a (l.foldl max b) := by
  induction l with
  | nil => intro a b; simp
  | cons y l ih =>
      intro a b
      simp only [List.foldl_cons]
      rw [show max (max a b) y = max a (max b y) by omega]
      exact ih a (max b y)

lemma listMax_cons (x : Nat) (xs : List Nat) : listMax (x :: xs) = max x (listMax xs) := by
  unfold listMax
  simp only [List.foldl_cons]
  simpa using foldl_max_hoist xs x 0

lemma listMax_le_iff (xs : List Nat) (n : Nat) : listMax xs ≤ n ↔ ∀ x ∈ xs, x ≤ n := by
  induction xs with
  | nil => simp [listMax]
  | cons y l ih => rw [listMax_cons]; simp [ih]

lemma sum_map_add (l : List Nat) (f g : Nat → Nat) :
    (l.map (fun x => f x + g x)).sum = (l.map f).sum + (l.map g).sum := by
  induction l with
  | nil => simp
  | cons a l ih => simp [ih]; omega

lemma sum_range_indicator (x : Nat) : ∀ n : Nat, x < n →
    ((List.range n).map (fun k => if k = x then 1 else 0)).sum = 1 := by
  intro n
  induction n with
  | zero => omega
  | succ n ih =>
      intro hx
      rw [List.range_succ, List.map_append, List.sum_append]
      by_cases h : x = n
      · subst h
        have hz : ((List.range x).map (fun k => if k = x then 1 else 0)).sum = 0 := by
          apply List.sum_eq_zero
          intro y hy
          simp only [List.mem_map, List.mem_range] at hy
          obtain ⟨k, hk, rfl⟩ := hy
          simp [Nat.ne_of_lt hk]
        simp [hz]
      · have hx' : x < n := by omega
        rw [ih hx']
        simp [Ne.symm h]

lemma sum_range_count (n : Nat) (xs : List Nat) (h : ∀ x ∈ xs, x < n) :
    ((List.range n).map (fun k => xs.count k)).sum = xs.length := by
  induction xs with
  | nil => simp
  | cons x xs ih =>
      have hx : x < n := h x (by simp)
      have hrec := ih (fun y hy => h y (by simp [hy]))
      have hcount : ∀ k, (x :: xs).count k = xs.count k + if k = x then 1 else 0 := by
        intro k
        by_cases hkx : k = x
        · subst hkx; simp [List.count_cons]
        · simp [List.count_cons, hkx, Ne.symm hkx]
      calc ((List.range n).map (fun k => (x :: xs).count k)).sum
          = ((List.range n).map (fun k => xs.count k + if k = x then 1 else 0)).sum := by
            simp only [hcount]
        _ = ((List.range n).map (fun k => xs.count k)).sum +
              ((List.range n).map (fun k => if k = x then 1 else 0)).sum :=
            sum_map_add _ _ _
        _ = xs.length + 1 := by rw [hrec, sum_range_indicator x n hx]
        _ = (x :: xs).length := by simp

lemma bincount_spec (xs : List Nat) (n : Nat) (hne : xs ≠ [])
    (hb : ∀ x ∈ xs, x < n) :
    (bincount xs n).sum = xs.length ∧ (bincount xs n).length = n := by
  obtain ⟨x0, hx0⟩ : ∃ x, x ∈ xs := by
    cases xs with
    | nil => exact absurd rfl hne
    | cons a l => exact ⟨a, by simp⟩
  have hn : 0 < n := Nat.lt_of_le_of_lt (Nat.zero_le _) (hb x0 hx0)
  have hmax : listMax xs + 1 ≤ n := by
    have := (listMax_le_iff xs (n - 1)).2 (fun x hx => by have := hb x hx; omega)
    omega
  have hlen : (if xs = [] then n else max n (listMax xs + 1)) = n := by
    rw [if_neg hne]; omega
  constructor
  · show ((List.range _).map (fun k => xs.count k)).sum = xs.length
    rw [hlen, sum_range_count n xs hb]
  · show ((List.range _).map (fun k => xs.count k)).length = n
    rw [hlen]; simp

/-- Claim C4: for every loaded sparse mask, the per-layer SCU-count vector
has length `POF * PIF` and its entries sum to the number of nonzero
coordinates in the mask (proved for arbitrary channel counts and arbitrary
coordinates — the clamped mapping makes every bin index valid). -/
theorem C4_scu_counts_sum_eq_nonzeros (out_ch in_ch : Nat)
    (coords : List (Nat × Nat × Nat × Nat)) :
    (precompute_scu_counts out_ch in_ch coords).sum = coords.length ∧
      (precompute_scu_counts out_ch in_ch coords).length = POF * PIF := by
  by_cases hc : coords = []
  · subst hc
    constructor <;> simp [precompute_scu_counts]
  · have hbound : ∀ x ∈ coords.map (fun q =>
        min (POF - 1) (q.1 / max 1 (natCeilDiv out_ch POF)) * PIF +
          min (PIF - 1) (q.2.1 / max 1 (natCeilDiv in_ch PIF))), x < POF * PIF := by
      intro x hx
      simp only [List.mem_map] at hx
      obtain ⟨q, _, rfl⟩ := hx
      have h1 : min (POF - 1) (q.1 / max 1 (natCeilDiv out_ch POF)) ≤ 3 := by
        have := Nat.min_le_left (POF - 1) (q.1 / max 1 (natCeilDiv out_ch POF))
        simp only [show POF = 4 from rfl] at this ⊢
        omega
      have h2 : min (PIF - 1) (q.2.1 / max 1 (natCeilDiv in_ch PIF)) ≤ 11 := by
        have := Nat.min_le_left (PIF - 1) (q.2.1 / max 1 (natCeilDiv in_ch PIF))
        simp only [show PIF = 12 from rfl] at this ⊢
        omega
      calc min (POF - 1) (q.1 / max 1 (natCeilDiv out_ch POF)) * PIF +
            min (PIF - 1) (q.2.1 / max 1 (natCeilDiv in_ch PIF))
          ≤ 3 * PIF + 11 := by
            exact Nat.add_le_add (Nat.mul_le_mul_right PIF h1) h2
        _ < POF * PIF := by decide
    have hne : coords.map (fun q =>
        min (POF - 1) (q.1 / max 1 (natCeilDiv out_ch POF)) * PIF +
          min (PIF - 1) (q.2.1 / max 1 (natCeilDiv in_ch PIF))) ≠ [] := by
      simpa using hc
    have hb := bincount_spec _ (POF * PIF) hne hbound
    unfold precompute_scu_counts
    rw [if_neg hc]
    constructor
    · show (bincount _ (POF * PIF)).sum = coords.length
      rw [hb.1, List.length_map]
    · show (bincount _ (POF * PIF)).length = POF * PIF
      exact hb.2

/-- Claim C3: for a tile whose layer has cached SCU counts, the reported
SFTM cycles are `PRETU_LATENCY + max_k ceil(count[k] * patches / M) +
SCU_PIPELINE_LATENCY + POSTTU_LATENCY` with
`patches = ceil(rows / 2) * ceil(cols / 2)` — the max over the SCU grid,
not the sum, with the ceilings stated as exact mathematical ceilings. -/
theorem C3_sftm_cached_cycles_formula (counts : List Nat)
    (col_start col_end : Nat) :
    (compute_sftm_cycles (some counts) col_start col_end).1 =
      PRETU_LATENCY +
        listMax (counts.map (fun c =>
          specCeil
            (c * (specCeil ROWS_PER_GROUP 2 * specCeil (col_end - col_start + 1) 2))
            SCU_MULTIPLIERS)) +
        SCU_PIPELINE_LATENCY + POSTTU_LATENCY := by
  have hrows : max 1 (natCeilDiv ROWS_PER_GROUP 2) = specCeil ROWS_PER_GROUP 2 := by
    decide
  have hcols : max 1 (natCeilDiv (col_end - col_start + 1) 2) =
      specCeil (col_end - col_start + 1) 2 := by
    rw [← specCeil_eq_natCeilDiv _ _ (by omega)]
    have h1 : 1 ≤ natCeilDiv (col_end - col_start + 1) 2 := by
      unfold natCeilDiv
      omega
    omega
  have hmap : ∀ P : Nat,
      (counts.map (fun c => c * P)).map
        (fun a => (a + SCU_MULTIPLIERS - 1) / SCU_MULTIPLIERS) =
      counts.map (fun c => specCeil (c * P) SCU_MULTIPLIERS) := by
    intro P
    rw [List.map_map]
    apply List.map_congr_left
    intro c _
    exact specCeil_eq_natCeilDiv (c * P) SCU_MULTIPLIERS (by decide)
  show PRETU_LATENCY +
      listMax ((counts.map (fun c => c *
        (max 1 (natCeilDiv ROWS_PER_GROUP 2) *
          max 1 (natCeilDiv (col_end - col_start + 1) 2)))).map
        (fun a => (a + SCU_MULTIPLIERS - 1) / SCU_MULTIPLIERS)) +
      SCU_PIPELINE_LATENCY + POSTTU_LATENCY = _
  rw [hmap, hrows, hcols]

lemma getD_range_map (f : Nat → Nat) (n k : Nat) (hk : k < n) :
    ((List.range n).map f).getD k 0 = f k := by
  rw [List.getD_eq_getElem?_getD, List.getElem?_map, List.getElem?_range hk]
  rfl

set_option maxRecDepth 4000

/-- Claim C5 counterexample: for a default 120-column tile with no mask and
36 output channels, the analytic fallback of
`ProducerSFTM.compute_sftm_cycles` reports 40 cycles, while the claimed
output-channel row-block distribution (each SCU of row `r` receiving
`(min(C_out, (r+1)*out_per_row) - r*out_per_row) * base_mults_per_out`
multiplies, then ceiling-divided by M and maxed) gives 370 cycles. -/
theorem C5_counterexample :
    (compute_sftm_cycles none 0 119).1 = 40 ∧
    (PRETU_LATENCY +
      listMax ((List.range (POF * PIF)).map (fun k =>
        specCeil
          ((min CHANNELS ((k / PIF + 1) * max 1 (specCeil CHANNELS POF)) -
              (k / PIF) * max 1 (specCeil CHANNELS POF)) *
            max 1 ((specCeil ROWS_PER_GROUP 2 * specCeil 120 2) * CHANNELS * 6 /
              max 1 CHANNELS))
          SCU_MULTIPLIERS)) +
      SCU_PIPELINE_LATENCY + POSTTU_LATENCY) = 370 ∧
    (40 : Nat) ≠ 370 := by
  refine ⟨by decide, by decide, by decide⟩

/-- Claim C5 (amended): the row-block distribution holds of the analytic
branch of `SFTM.process_tile` in vcnpu.py — SCU cell `k` (row `r = k / PIF`)
receives `(min(C_out, (r+1)*out_per_row) - r*out_per_row) *
base_mults_per_out` multiplies (identical across the columns of a row, with
natural subtraction clamping empty rows to zero), the total multiplies for
an RFConv tile are exactly `patches * C_out * µ² * ρ = patches * C_out * 6`,
and the cycle count is the ceil-then-max reduction of those counts.  The
analytic fallback of `ProducerSFTM.compute_sftm_cycles` in vcnpuprop.py
instead divides the total multiplies uniformly across all `POF * PIF` SCUs:
its reported cycles are `PRETU + ceil((patches * CHANNELS * 6 / (POF * PIF))
/ M) + PIPELINE + POSTTU`. -/
theorem C5_analytic_fallback_distribution :
    (∀ out_ch total k, k < POF * PIF →
      (analytic_counts out_ch total).getD k 0 =
        (min out_ch ((k / PIF + 1) * max 1 (specCeil out_ch POF)) -
            (k / PIF) * max 1 (specCeil out_ch POF)) *
          max 1 (total / max 1 out_ch)) ∧
    (∀ out_ch total,
      analytic_scu_cycles out_ch total =
        listMax ((analytic_counts out_ch total).map
          (fun a => specCeil a SCU_MULTIPLIERS))) ∧
    (∀ patches out_ch,
      analytic_total_mults "RFConv" patches out_ch = patches * out_ch * 6) ∧
    (∀ col_start col_end,
      (compute_sftm_cycles none col_start col_end).1 =
        PRETU_LATENCY +
          specCeil
            ((specCeil ROWS_PER_GROUP 2 * specCeil (col_end - col_start + 1) 2) *
              CHANNELS * 6 / (POF * PIF))
            SCU_MULTIPLIERS +
          SCU_PIPELINE_LATENCY + POSTTU_LATENCY) := by
  have hopr : ∀ out_ch : Nat,
      max 1 (natCeilDiv out_ch POF) = max 1 (specCeil out_ch POF) := by
    intro out_ch
    rw [specCeil_eq_natCeilDiv _ _ (by decide : (0:Nat) < POF)]
  refine ⟨?_, ?_, ?_, ?_⟩
  · intro out_ch total k hk
    unfold analytic_counts
    rw [getD_range_map _ _ _ hk, hopr]
  · intro out_ch total
    unfold analytic_scu_cycles
    congr 1
    apply List.map_congr_left
    intro a _
    exact specCeil_eq_natCeilDiv a SCU_MULTIPLIERS (by decide)
  · intro patches out_ch
    unfold analytic_total_mults
    rw [if_pos rfl]
    have h : patches * out_ch * (MU_C * MU_C) * 3 = patches * out_ch * 6 * 8 := by
      show patches * out_ch * 16 * 3 = patches * out_ch * 6 * 8
      ring
    rw [h, Nat.mul_div_cancel _ (by decide : (0:Nat) < 8)]
  · intro col_start col_end
    have hrows : max 1 (natCeilDiv ROWS_PER_GROUP 2) = specCeil ROWS_PER_GROUP 2 := by
      decide
    have hcols : max 1 (natCeilDiv (col_end - col_start + 1) 2) =
        specCeil (col_end - col_start + 1) 2 := by
      rw [← specCeil_eq_natCeilDiv _ _ (by omega)]
      have h1 : 1 ≤ natCeilDiv (col_end - col_start + 1) 2 := by
        unfold natCeilDiv
        omega
      omega
    have htot : ∀ P : Nat, P * CHANNELS * (MU_C * MU_C) * 3 / 8 = P * CHANNELS * 6 := by
      intro P
      have h : P * CHANNELS * (MU_C * MU_C) * 3 = P * CHANNELS * 6 * 8 := by
        show P * 36 * 16 * 3 = P * 36 * 6 * 8
        ring
      rw [h, Nat.mul_div_cancel _ (by decide : (0:Nat) < 8)]
    show PRETU_LATENCY +
        natCeilDiv
          ((max 1 (natCeilDiv ROWS_PER_GROUP 2) *
            max 1 (natCeilDiv (col_end - col_start + 1) 2)) *
              CHANNELS * (MU_C * MU_C) * 3 / 8 / (POF * PIF))
          SCU_MULTIPLIERS +
        SCU_PIPELINE_LATENCY + POSTTU_LATENCY = _
    rw [htot, hrows, hcols,
      specCeil_eq_natCeilDiv _ SCU_MULTIPLIERS (by decide)]

/-! ## FIFO slot-table lemmas (claims C1 and C8) -/

lemma getD_set_self {α : Type} (l : List α) (i : Nat) (x d : α)
    (h : i < l.length) : (l.set i x).getD i d = x := by
  rw [List.getD_eq_getElem?_getD, List.getElem?_set_eq_of_lt x h]
  rfl

lemma getD_set_other {α : Type} (l : List α) {i j : Nat} (x d : α)
    (h : i ≠ j) : (l.set i x).getD j d = l.getD j d := by
  rw [List.getD_eq_getElem?_getD, List.getElem?_set_ne h,
    ← List.getD_eq_getElem?_getD]

lemma getD_append_lt {α : Type} (l t : List α) (i : Nat) (d : α)
    (h : i < l.length) : (l ++ t).getD i d = l.getD i d := by
  rw [List.getD_eq_getElem?_getD, List.getElem?_append, if_pos h,
    ← List.getD_eq_getElem?_getD]

lemma getD_append_self {α : Type} (l : List α) (x d : α) :
    (l ++ [x]).getD l.length d = x := by
  simp [List.getD_eq_getElem?_getD]

lemma getD_mem {α : Type} (l : List α) (i : Nat) (d : α) (h : i < l.length) :
    l.getD i d ∈ l := by
  rw [List.getD_eq_getElem l d h]
  exact l.getElem_mem h

lemma linear_index_unique {b banks l len : Nat} (hb : b < banks)
    (h : b + banks * l = len) : b = len % banks ∧ l = len / banks := by
  subst h
  refine ⟨?_, ?_⟩
  · rw [Nat.add_mul_mod_self_left, Nat.mod_eq_of_lt hb]
  · rw [Nat.add_mul_div_left _ _ (by omega : 0 < banks),
      Nat.div_eq_of_lt hb, Nat.zero_add]

namespace BankedGroupFIFO

lemma setSlot_queue (f : BankedGroupFIFO) (b l : Nat) (v : Option Nat)
    (vb : Bool) : (f.setSlot b l v vb).queue = f.queue := rfl

lemma setSlot_banks (f : BankedGroupFIFO) (b l : Nat) (v : Option Nat)
    (vb : Bool) : (f.setSlot b l v vb).banks = f.banks := rfl

lemma setSlot_slots (f : BankedGroupFIFO) (b l : Nat) (v : Option Nat)
    (vb : Bool) :
    (f.setSlot b l v vb).group_slots_per_bank = f.group_slots_per_bank := rfl

lemma rowLen (f : BankedGroupFIFO) (hsh : f.shapeOK) {b : Nat}
    (hb : b < f.banks) :
    (f.bank_slots.getD b []).length = f.group_slots_per_bank :=
  hsh.2 _ (getD_mem _ _ _ (hsh.1 ▸ hb))

lemma shapeOK_setSlot (f : BankedGroupFIFO) (b l : Nat) (v : Option Nat)
    (vb : Bool) (hsh : f.shapeOK) : (f.setSlot b l v vb).shapeOK := by
  constructor
  · show (f.bank_slots.set b _).length = f.banks
    rw [List.length_set]
    exact hsh.1
  · show ∀ row ∈ f.bank_slots.set b _, row.length = f.group_slots_per_bank
    intro row hrow
    by_cases hb : b < f.banks
    · rcases List.mem_or_eq_of_mem_set hrow with h | rfl
      · exact hsh.2 _ h
      · rw [List.length_set]
        exact rowLen f hsh hb
    · have hlen : f.bank_slots.length ≤ b := by
        have h1 := hsh.1
        omega
      rw [List.set_eq_of_length_le hlen] at hrow
      exact hsh.2 _ hrow

lemma slotOf_setSlot_self (f : BankedGroupFIFO) {b l : Nat} (v : Option Nat)
    (vb : Bool) (hsh : f.shapeOK) (hb : b < f.banks)
    (hl : l < f.group_slots_per_bank) :
    (f.setSlot b l v vb).slotOf b l = v := by
  show ((f.bank_slots.set b _).getD b []).getD l none = v
  rw [getD_set_self _ _ _ _ (hsh.1 ▸ hb),
    getD_set_self _ _ _ _ ((rowLen f hsh hb) ▸ hl)]

lemma slotOf_setSlot_other (f : BankedGroupFIFO) {b l b' l' : Nat}
    (v : Option Nat) (vb : Bool) (hsh : f.shapeOK) (hb : b < f.banks)
    (hne : ¬ (b' = b ∧ l' = l)) :
    (f.setSlot b l v vb).slotOf b' l' = f.slotOf b' l' := by
  show ((f.bank_slots.set b _).getD b' []).getD l' none = f.slotOf b' l'
  by_cases hbb : b = b'
  · subst hbb
    have hll : l ≠ l' := fun h => hne ⟨rfl, h.symm⟩
    rw [getD_set_self _ _ _ _ (hsh.1 ▸ hb), getD_set_other _ _ _ hll]
    rfl
  · rw [getD_set_other _ _ _ hbb]
    rfl

/-- The mixed push/pop invariant: well-shaped tables in which no gid sits in
two slots. -/
lemma init_slotOf (banks slots b l : Nat) :
    (init banks slots).slotOf b l = none := by
  show ((List.replicate banks (List.replicate slots none)).getD b []).getD l none = none
  have hrow : (List.replicate banks (List.replicate slots (none : Option Nat))).getD b [] =
      [] ∨ (List.replicate banks (List.replicate slots (none : Option Nat))).getD b [] =
      List.replicate slots none := by
    by_cases hb : b < banks
    · right
      rw [List.getD_eq_getElem _ _ (by simpa using hb)]
      simp
    · left
      apply List.getD_eq_default
      simpa using hb
  have hnone : ∀ i, (List.replicate slots (none : Option Nat)).getD i none = none := by
    intro i
    by_cases hi : i < slots
    · rw [List.getD_eq_getElem _ _ (by simpa using hi)]
      simp
    · apply List.getD_eq_default
      simpa using hi
  rcases hrow with h | h <;> rw [h]
  · rfl
  · exact hnone l

lemma mixInv_init (banks slots : Nat) :
    (init banks slots).shapeOK ∧ (init banks slots).atMostOneSlot := by
  constructor
  · constructor
    · simp [init]
    · intro row hrow
      simp only [init] at hrow
      rcases List.eq_of_mem_replicate hrow with rfl
      simp [init]
  · intro b1 hb1 l1 hl1 b2 hb2 l2 hl2 hsome _
    exfalso
    rw [init_slotOf] at hsome
    simp at hsome

lemma fresh_not_in_slot (f : BankedGroupFIFO) {gid b l : Nat}
    (hsh : f.shapeOK) (hfresh : f.gidFresh gid) (hb : b < f.banks)
    (hl : l < f.group_slots_per_bank) : f.slotOf b l ≠ some gid := by
  intro hcontra
  have hrow : f.bank_slots.getD b [] ∈ f.bank_slots :=
    getD_mem _ _ _ (hsh.1 ▸ hb)
  have hcell : (f.bank_slots.getD b []).getD l none ∈ f.bank_slots.getD b [] :=
    getD_mem _ _ _ ((rowLen f hsh hb) ▸ hl)
  have := hfresh.2.2 _ hrow _ hcell
  exact this hcontra


lemma can_push_facts (f : BankedGroupFIFO) (h : f.can_push = true) :
    f.queue.length < f.banks * f.group_slots_per_bank ∧ 0 < f.banks ∧
      0 < f.group_slots_per_bank ∧ f.queue.length % f.banks < f.banks ∧
      f.queue.length / f.banks < f.group_slots_per_bank := by
  have hlen : f.queue.length < f.banks * f.group_slots_per_bank := by
    simpa [can_push, max_groups] using h
  have hbpos : 0 < f.banks := by
    rcases Nat.eq_zero_or_pos f.banks with hz | hp
    · rw [hz] at hlen; simp at hlen
    · exact hp
  have hspos : 0 < f.group_slots_per_bank := by
    rcases Nat.eq_zero_or_pos f.group_slots_per_bank with hz | hp
    · rw [hz] at hlen; simp at hlen
    · exact hp
  refine ⟨hlen, hbpos, hspos, Nat.mod_lt _ hbpos, ?_⟩
  rw [Nat.div_lt_iff_lt_mul hbpos]
  exact (Nat.mul_comm f.banks f.group_slots_per_bank) ▸ hlen

lemma push_eq_of_full (f : BankedGroupFIFO) (tid gid : Nat)
    (h : f.can_push = false) :
    f.push tid gid =
      ({ f with push_attempts := f.push_attempts + 1,
                overflow_count := f.overflow_count + 1 }, false) := by
  have h' : ({ f with push_attempts := f.push_attempts + 1
               } : BankedGroupFIFO).can_push = false := h
  simp only [push, h']
  rfl

lemma push_eq_of_can (f : BankedGroupFIFO) (tid gid : Nat)
    (h : f.can_push = true) :
    f.push tid gid =
      ({ f.setSlot (f.queue.length % f.banks) (f.queue.length / f.banks)
            (some gid) true with
          push_attempts := f.push_attempts + 1,
          tile_to_slot := dictInsert f.tile_to_slot gid
            (f.queue.length % f.banks) (f.queue.length / f.banks),
          queue := f.queue ++ [tid],
          push_success := f.push_success + 1 }, true) := by
  obtain ⟨hlen, hbpos, hspos, hmod, hdiv⟩ := can_push_facts f h
  have h' : ({ f with push_attempts := f.push_attempts + 1
               } : BankedGroupFIFO).can_push = true := h
  simp only [push, h']
  rw [if_neg (by simp), if_neg (by push_neg; exact ⟨hmod, hdiv⟩)]
  rfl

lemma pop_eq_nil (f : BankedGroupFIFO) (gidOf : Nat → Nat) (h : f.queue = []) :
    f.pop gidOf = (none, { f with pop_attempts := f.pop_attempts + 1 }) := by
  simp only [pop, h]

lemma pop_eq_cons_inrange (f : BankedGroupFIFO) (gidOf : Nat → Nat) (t : Nat)
    (rest : List Nat) (b l : Nat) (hq : f.queue = t :: rest)
    (hm : (dictPop f.tile_to_slot (gidOf t)).1 = some (b, l))
    (hb : b < f.banks) (hl : l < f.group_slots_per_bank) :
    f.pop gidOf = (some t,
      { f.setSlot b l none false with
          pop_attempts := f.pop_attempts + 1,
          queue := rest,
          tile_to_slot := (dictPop f.tile_to_slot (gidOf t)).2,
          pop_success := f.pop_success + 1 }) := by
  simp only [pop, hq]
  rw [show dictPop f.tile_to_slot (gidOf t) =
    (some (b, l), (dictPop f.tile_to_slot (gidOf t)).2) from by rw [← hm]]
  simp only [if_pos (And.intro hb hl)]
  rfl

lemma pop_eq_cons_outrange (f : BankedGroupFIFO) (gidOf : Nat → Nat) (t : Nat)
    (rest : List Nat) (b l : Nat) (hq : f.queue = t :: rest)
    (hm : (dictPop f.tile_to_slot (gidOf t)).1 = some (b, l))
    (hr : ¬ (b < f.banks ∧ l < f.group_slots_per_bank)) :
    f.pop gidOf = (some t,
      { f with
          pop_attempts := f.pop_attempts + 1,
          queue := rest,
          tile_to_slot := (dictPop f.tile_to_slot (gidOf t)).2,
          pop_success := f.pop_success + 1 }) := by
  simp only [pop, hq]
  rw [show dictPop f.tile_to_slot (gidOf t) =
    (some (b, l), (dictPop f.tile_to_slot (gidOf t)).2) from by rw [← hm]]
  simp only [if_neg hr]

lemma pop_eq_cons_none (f : BankedGroupFIFO) (gidOf : Nat → Nat) (t : Nat)
    (rest : List Nat) (hq : f.queue = t :: rest)
    (hm : (dictPop f.tile_to_slot (gidOf t)).1 = none) :
    f.pop gidOf = (some t,
      { f with
          pop_attempts := f.pop_attempts + 1,
          queue := rest,
          tile_to_slot := (dictPop f.tile_to_slot (gidOf t)).2,
          pop_success := f.pop_success + 1 }) := by
  simp only [pop, hq]
  rw [show dictPop f.tile_to_slot (gidOf t) =
    (none, (dictPop f.tile_to_slot (gidOf t)).2) from by rw [← hm]]

lemma pushInv_push (f : BankedGroupFIFO) (gid : Nat) (hinv : f.pushInv)
    (hfresh : f.gidFresh gid) : (f.push gid gid).1.pushInv := by
  obtain ⟨hsh, hle, hnd, hcorr⟩ := hinv
  cases hcp : f.can_push with
  | false =>
      rw [push_eq_of_full f gid gid hcp]
      exact ⟨hsh, hle, hnd, hcorr⟩
  | true =>
      obtain ⟨hlen, hbpos, hspos, hmod, hdiv⟩ := can_push_facts f hcp
      rw [push_eq_of_can f gid gid hcp]
      refine ⟨shapeOK_setSlot f (f.queue.length % f.banks)
        (f.queue.length / f.banks) (some gid) true hsh, ?_, ?_, ?_⟩
      · show (f.queue ++ [gid]).length ≤ f.banks * f.group_slots_per_bank
        rw [List.length_append, List.length_singleton]
        omega
      · show (f.queue ++ [gid]).Nodup
        refine hnd.append (List.nodup_singleton gid) ?_
        intro a ha hbmem
        simp only [List.mem_singleton] at hbmem
        subst hbmem
        exact hfresh.1 ha
      · intro b l hb hl
        show (f.setSlot (f.queue.length % f.banks) (f.queue.length / f.banks)
            (some gid) true).slotOf b l =
          if b + f.banks * l < (f.queue ++ [gid]).length
          then some ((f.queue ++ [gid]).getD (b + f.banks * l) 0) else none
        rw [List.length_append, List.length_singleton]
        by_cases htgt : b = f.queue.length % f.banks ∧ l = f.queue.length / f.banks
        · obtain ⟨rfl, rfl⟩ := htgt
          rw [slotOf_setSlot_self f _ _ hsh hmod hdiv]
          have hidx : f.queue.length % f.banks +
              f.banks * (f.queue.length / f.banks) = f.queue.length :=
            Nat.mod_add_div _ _
          rw [hidx, if_pos (by omega), getD_append_self]
        · rw [slotOf_setSlot_other f _ _ hsh hmod htgt, hcorr b l hb hl]
          rcases Nat.lt_trichotomy (b + f.banks * l) f.queue.length with hlt | heq | hgt
          · rw [if_pos hlt, if_pos (by omega), getD_append_lt _ _ _ _ hlt]
          · exfalso
            exact htgt (linear_index_unique hb heq)
          · rw [if_neg (by omega), if_neg (by omega)]

lemma mixInv_push (f : BankedGroupFIFO) (tid gid : Nat)
    (hsh : f.shapeOK) (hone : f.atMostOneSlot) (hfresh : f.gidFresh gid) :
    (f.push tid gid).1.shapeOK ∧ (f.push tid gid).1.atMostOneSlot := by
  cases hcp : f.can_push with
  | false =>
      rw [push_eq_of_full f tid gid hcp]
      exact ⟨hsh, hone⟩
  | true =>
      obtain ⟨hlen, hbpos, hspos, hmod, hdiv⟩ := can_push_facts f hcp
      rw [push_eq_of_can f tid gid hcp]
      refine ⟨shapeOK_setSlot f (f.queue.length % f.banks)
        (f.queue.length / f.banks) (some gid) true hsh, ?_⟩
      intro b1 hb1 l1 hl1 b2 hb2 l2 hl2 hsome heq
      simp only [List.mem_range] at hb1 hl1 hb2 hl2
      have hread : ∀ b l, b < f.banks → l < f.group_slots_per_bank →
          (f.setSlot (f.queue.length % f.banks) (f.queue.length / f.banks)
            (some gid) true).slotOf b l =
            if b = f.queue.length % f.banks ∧ l = f.queue.length / f.banks
            then some gid else f.slotOf b l := by
        intro b l hb hl
        by_cases h : b = f.queue.length % f.banks ∧ l = f.queue.length / f.banks
        · obtain ⟨rfl, rfl⟩ := h
          rw [slotOf_setSlot_self f _ _ hsh hmod hdiv, if_pos ⟨rfl, rfl⟩]
        · rw [slotOf_setSlot_other f _ _ hsh hmod h, if_neg h]
      replace hsome : ((f.setSlot (f.queue.length % f.banks)
        (f.queue.length / f.banks) (some gid) true).slotOf b1 l1).isSome = true := hsome
      replace heq : (f.setSlot (f.queue.length % f.banks) (f.queue.length / f.banks)
          (some gid) true).slotOf b1 l1 =
        (f.setSlot (f.queue.length % f.banks) (f.queue.length / f.banks)
          (some gid) true).slotOf b2 l2 := heq
      rw [hread b1 l1 hb1 hl1, hread b2 l2 hb2 hl2] at heq
      rw [hread b1 l1 hb1 hl1] at hsome
      by_cases ht1 : b1 = f.queue.length % f.banks ∧ l1 = f.queue.length / f.banks
      · by_cases ht2 : b2 = f.queue.length % f.banks ∧ l2 = f.queue.length / f.banks
        · obtain ⟨rfl, rfl⟩ := ht1
          obtain ⟨h1, h2⟩ := ht2
          exact ⟨h1.symm, h2.symm⟩
        · exfalso
          rw [if_pos ht1, if_neg ht2] at heq
          exact fresh_not_in_slot f hsh hfresh hb2 hl2 heq.symm
      · by_cases ht2 : b2 = f.queue.length % f.banks ∧ l2 = f.queue.length / f.banks
        · exfalso
          rw [if_neg ht1, if_pos ht2] at heq
          exact fresh_not_in_slot f hsh hfresh hb1 hl1 heq
        · rw [if_neg ht1] at hsome heq
          rw [if_neg ht2] at heq
          exact hone b1 (by simpa using hb1) l1 (by simpa using hl1) b2
            (by simpa using hb2) l2 (by simpa using hl2) hsome heq

lemma mixInv_pop (f : BankedGroupFIFO) (gidOf : Nat → Nat)
    (hsh : f.shapeOK) (hone : f.atMostOneSlot) :
    (f.pop gidOf).2.shapeOK ∧ (f.pop gidOf).2.atMostOneSlot := by
  cases hq : f.queue with
  | nil =>
      rw [pop_eq_nil f gidOf hq]
      exact ⟨hsh, hone⟩
  | cons t rest =>
      cases hm : (dictPop f.tile_to_slot (gidOf t)).1 with
      | none =>
          rw [pop_eq_cons_none f gidOf t rest hq hm]
          exact ⟨hsh, hone⟩
      | some bl =>
          obtain ⟨b, l⟩ := bl
          by_cases hr : b < f.banks ∧ l < f.group_slots_per_bank
          · rw [pop_eq_cons_inrange f gidOf t rest b l hq hm hr.1 hr.2]
            refine ⟨shapeOK_setSlot f b l none false hsh, ?_⟩
            intro b1 hb1 l1 hl1 b2 hb2 l2 hl2 hsome heq
            simp only [List.mem_range] at hb1 hl1 hb2 hl2
            have hread : ∀ b' l', b' < f.banks → l' < f.group_slots_per_bank →
                (f.setSlot b l none false).slotOf b' l' =
                  if b' = b ∧ l' = l then none else f.slotOf b' l' := by
              intro b' l' hb' hl'
              by_cases h : b' = b ∧ l' = l
              · obtain ⟨rfl, rfl⟩ := h
                rw [slotOf_setSlot_self f _ _ hsh hr.1 hr.2, if_pos ⟨rfl, rfl⟩]
              · rw [slotOf_setSlot_other f _ _ hsh hr.1 h, if_neg h]
            replace hsome : ((f.setSlot b l none false).slotOf b1 l1).isSome = true := hsome
            replace heq : (f.setSlot b l none false).slotOf b1 l1 =
              (f.setSlot b l none false).slotOf b2 l2 := heq
            rw [hread b1 l1 hb1 hl1] at hsome heq
            rw [hread b2 l2 hb2 hl2] at heq
            by_cases ht1 : b1 = b ∧ l1 = l
            · rw [if_pos ht1] at hsome
              simp at hsome
            · by_cases ht2 : b2 = b ∧ l2 = l
              · rw [if_neg ht1, if_pos ht2] at heq
                rw [if_neg ht1] at hsome
                rw [heq] at hsome
                simp at hsome
              · rw [if_neg ht1] at hsome heq
                rw [if_neg ht2] at heq
                exact hone b1 (by simpa using hb1) l1 (by simpa using hl1) b2
                  (by simpa using hb2) l2 (by simpa using hl2) hsome heq
          · rw [pop_eq_cons_outrange f gidOf t rest b l hq hm hr]
            exact ⟨hsh, hone⟩

end BankedGroupFIFO

lemma fifoReach_mixInv (banks slots : Nat) (f : BankedGroupFIFO)
    (h : FifoReach banks slots f) : f.shapeOK ∧ f.atMostOneSlot := by
  induction h with
  | init => exact BankedGroupFIFO.mixInv_init banks slots
  | push f gid _ hfresh ih =>
      exact BankedGroupFIFO.mixInv_push f gid gid ih.1 ih.2 hfresh
  | pop f _ ih =>
      exact BankedGroupFIFO.mixInv_pop f _ ih.1 ih.2

lemma fifoReachPush_pushInv (banks slots : Nat) (f : BankedGroupFIFO)
    (h : FifoReachPush banks slots f) : f.pushInv := by
  induction h with
  | init =>
      refine ⟨(BankedGroupFIFO.mixInv_init banks slots).1, by simp [BankedGroupFIFO.init], by simp [BankedGroupFIFO.init], ?_⟩
      intro b l _ _
      rw [BankedGroupFIFO.init_slotOf]
      rw [if_neg (by simp [BankedGroupFIFO.init])]
  | push f gid _ hfresh ih =>
      exact BankedGroupFIFO.pushInv_push f gid ih hfresh

lemma pushInv_slotBijection (f : BankedGroupFIFO) (hinv : f.pushInv) :
    f.slotBijection := by
  obtain ⟨hsh, hle, hnd, hcorr⟩ := hinv
  constructor
  · intro g hg
    obtain ⟨i, hi, hget⟩ := List.mem_iff_getElem.mp hg
    have hbpos : 0 < f.banks := by
      rcases Nat.eq_zero_or_pos f.banks with hz | hp
      · rw [hz, Nat.zero_mul] at hle
        omega
      · exact hp
    have hmod : i % f.banks < f.banks := Nat.mod_lt _ hbpos
    have hdiv : i / f.banks < f.group_slots_per_bank := by
      rw [Nat.div_lt_iff_lt_mul hbpos]
      calc i < f.queue.length := hi
        _ ≤ f.banks * f.group_slots_per_bank := hle
        _ = f.group_slots_per_bank * f.banks := Nat.mul_comm _ _
    have hidx : i % f.banks + f.banks * (i / f.banks) = i := Nat.mod_add_div _ _
    refine ⟨i % f.banks, by simpa using hmod, i / f.banks, by simpa using hdiv,
      ?_, ?_⟩
    · rw [hcorr _ _ hmod hdiv, hidx, if_pos hi, List.getD_eq_getElem _ _ hi, hget]
    · intro b' hb' l' hl' hslot
      simp only [List.mem_range] at hb' hl'
      rw [hcorr _ _ hb' hl'] at hslot
      by_cases hlt : b' + f.banks * l' < f.queue.length
      · rw [if_pos hlt] at hslot
        have hg' : f.queue[b' + f.banks * l'] = g := by
          have := List.getD_eq_getElem f.queue 0 hlt
          rw [this] at hslot
          exact Option.some.inj hslot
        have hij : b' + f.banks * l' = i := by
          have := hnd.getElem_inj_iff.mp (hg'.trans hget.symm)
          exact this
        obtain ⟨h1, h2⟩ := linear_index_unique hb' hij
        exact ⟨h1, h2⟩
      · rw [if_neg hlt] at hslot
        simp at hslot
  · intro b hb l hl g hg
    simp only [List.mem_range] at hb hl
    rw [hcorr _ _ hb hl] at hg
    by_cases hlt : b + f.banks * l < f.queue.length
    · rw [if_pos hlt] at hg
      simp only [Option.toList_some, List.mem_singleton] at hg
      subst hg
      exact getD_mem _ _ _ hlt
    · rw [if_neg hlt] at hg
      simp at hg

lemma pushInv_targetsFree (f : BankedGroupFIFO) (hinv : f.pushInv) :
    f.pushTargetsFreeSlot := by
  obtain ⟨hsh, hle, hnd, hcorr⟩ := hinv
  intro hcp g hg
  obtain ⟨hlen, hbpos, hspos, hmod, hdiv⟩ := BankedGroupFIFO.can_push_facts f hcp
  rw [hcorr _ _ hmod hdiv, Nat.mod_add_div, if_neg (by omega)] at hg
  simp at hg

lemma pushInv_corr (f : BankedGroupFIFO) (hinv : f.pushInv) :
    f.queueSlotCorrespondence := by
  intro b hb l hl
  simp only [List.mem_range] at hb hl
  exact hinv.2.2.2 b l hb hl

/-- Claim C1 (amended): in every FIFO state reachable by any interleaving of
fresh-gid pushes and pops, each gid occupies at most one slot of the
bank/slot table.  In every state reachable by pushes alone, the push-time
assignment `slot = bank + banks * local_slot` (for `bank = i % banks`,
`local_slot = i / banks` at queue position `i`) is a bijection between
resident tiles and occupied slots, and a push targets an unoccupied slot,
so it cannot overwrite the slot-table entry of a resident tile.  (After a
pop, a later push reuses `slot_idx = len(queue)` and can overwrite the slot
of a tile still in the queue — see the counterexample.) -/
theorem C1_fifo_slot_table_amended :
    (∀ banks slots f, FifoReach banks slots f → f.atMostOneSlot) ∧
    (∀ banks slots f, FifoReachPush banks slots f →
      f.slotBijection ∧ f.pushTargetsFreeSlot ∧ f.queueSlotCorrespondence) := by
  constructor
  · intro banks slots f h
    exact (fifoReach_mixInv banks slots f h).2
  · intro banks slots f h
    have hinv := fifoReachPush_pushInv banks slots f h
    exact ⟨pushInv_slotBijection f hinv, pushInv_targetsFree f hinv,
      pushInv_corr f hinv⟩

/-- Claim C1 witness: the amended invariants hold at concrete reachable
states (the empty default FIFO and a one-push FIFO). -/
theorem C1_fifo_slot_table_amended_witness :
    (BankedGroupFIFO.init 4 2).atMostOneSlot ∧
      (((BankedGroupFIFO.init 4 2).push 7 7).1.slotBijection ∧
        ((BankedGroupFIFO.init 4 2).push 7 7).1.pushTargetsFreeSlot) := by
  refine ⟨C1_fifo_slot_table_amended.1 4 2 _ FifoReach.init, ?_, ?_⟩
  · exact (C1_fifo_slot_table_amended.2 4 2 _
      (FifoReachPush.push _ 7 FifoReachPush.init (by decide))).1
  · exact (C1_fifo_slot_table_amended.2 4 2 _
      (FifoReachPush.push _ 7 FifoReachPush.init (by decide))).2.1

/-- Claim C1 counterexample: with the default 4 banks and 2 slots per bank,
push gid 1, push gid 2, pop.  The reachable state that results would admit
the next push at `slot_idx = len(queue) = 1`, i.e. slot `(1, 0)` — which
still holds resident gid 2, so the push-time slot is not free; and after
actually pushing gid 3 the table maps no slot to resident gid 2, so the
resident-tiles-to-occupied-slots correspondence is not a bijection. -/
theorem C1_counterexample :
    (FifoReach 4 2
        ((((BankedGroupFIFO.init 4 2).push 1 1).1.push 2 2).1.pop (fun g => g)).2 ∧
      ¬ ((((BankedGroupFIFO.init 4 2).push 1 1).1.push 2 2).1.pop
          (fun g => g)).2.pushTargetsFreeSlot) ∧
    (FifoReach 4 2
        (((((BankedGroupFIFO.init 4 2).push 1 1).1.push 2 2).1.pop
          (fun g => g)).2.push 3 3).1 ∧
      ¬ (((((BankedGroupFIFO.init 4 2).push 1 1).1.push 2 2).1.pop
          (fun g => g)).2.push 3 3).1.slotBijection) := by
  have h2 : FifoReach 4 2
      ((((BankedGroupFIFO.init 4 2).push 1 1).1.push 2 2).1.pop (fun g => g)).2 :=
    FifoReach.pop _ (FifoReach.push _ 2
      (FifoReach.push _ 1 FifoReach.init (by decide)) (by decide))
  refine ⟨⟨h2, by decide⟩, ⟨FifoReach.push _ 3 h2 (by decide), by decide⟩⟩

lemma fifoReach_occupancy (banks slots : Nat) (f : BankedGroupFIFO)
    (h : FifoReach banks slots f) :
    f.occupancy ≤ f.banks * f.group_slots_per_bank := by
  induction h with
  | init => simp [BankedGroupFIFO.occupancy, BankedGroupFIFO.init]
  | push f gid _ _ ih =>
      cases hcp : f.can_push with
      | false =>
          rw [BankedGroupFIFO.push_eq_of_full f gid gid hcp]
          exact ih
      | true =>
          obtain ⟨hlen, _, _, _, _⟩ := BankedGroupFIFO.can_push_facts f hcp
          rw [BankedGroupFIFO.push_eq_of_can f gid gid hcp]
          show (f.queue ++ [gid]).length ≤ f.banks * f.group_slots_per_bank
          rw [List.length_append, List.length_singleton]
          omega
  | pop f _ ih =>
      cases hq : f.queue with
      | nil =>
          rw [BankedGroupFIFO.pop_eq_nil f _ hq]
          exact ih
      | cons t rest =>
          have hlen : f.queue.length = rest.length + 1 := by rw [hq]; rfl
          cases hm : (BankedGroupFIFO.dictPop f.tile_to_slot ((fun g => g) t)).1 with
          | none =>
              rw [BankedGroupFIFO.pop_eq_cons_none f _ t rest hq hm]
              show rest.length ≤ f.banks * f.group_slots_per_bank
              have := ih
              unfold BankedGroupFIFO.occupancy at this
              omega
          | some bl =>
              obtain ⟨b, l⟩ := bl
              by_cases hr : b < f.banks ∧ l < f.group_slots_per_bank
              · rw [BankedGroupFIFO.pop_eq_cons_inrange f _ t rest b l hq hm hr.1 hr.2]
                show rest.length ≤ f.banks * f.group_slots_per_bank
                have := ih
                unfold BankedGroupFIFO.occupancy at this
                omega
              · rw [BankedGroupFIFO.pop_eq_cons_outrange f _ t rest b l hq hm hr]
                show rest.length ≤ f.banks * f.group_slots_per_bank
                have := ih
                unfold BankedGroupFIFO.occupancy at this
                omega

/-- Claim C8 (amended): when a produced tile arrives and the unit's FIFO
cannot accept it (and forced bypass is off), the step loop never calls
`push` at all: it sets the tile's `bypass_mode`, increments
`bypass_mode_used`, and leaves every FIFO — including its `overflow_count`
and `push_attempts` — unchanged, so no overflow is recorded.  Separately,
FIFO occupancy never exceeds `banks * group_slots_per_bank` in any
reachable FIFO state. -/
theorem C8_full_fifo_bypass_amended :
    (∀ (s : Simulator) (u tid : Nat),
      s.bypass_mode = false →
      (s.fifos.getD u default).can_push = false →
      tid < s.tile_store.length →
      (Simulator.handleProducedTile s u tid).stats.bypass_mode_used =
          s.stats.bypass_mode_used + 1 ∧
        ((Simulator.handleProducedTile s u tid).tile_store.getD tid
          default).bypass_mode = true ∧
        (Simulator.handleProducedTile s u tid).fifos = s.fifos) ∧
    (∀ banks slots f, FifoReach banks slots f →
      f.occupancy ≤ f.banks * f.group_slots_per_bank) := by
  constructor
  · intro s u tid hbm hcp htid
    have hcond : (s.bypass_mode || ! (s.fifos.getD u default).can_push) = true := by
      rw [hbm, hcp]
      rfl
    unfold Simulator.handleProducedTile
    rw [if_pos hcond]
    refine ⟨rfl, ?_, rfl⟩
    show ((s.tile_store.set tid _).getD tid default).bypass_mode = true
    rw [getD_set_self _ _ _ _ htid]
  · exact fun banks slots f h => fifoReach_occupancy banks slots f h

/-- Claim C8 witness: the amended statement applied at a concrete simulator
state whose single-slot FIFO is full, and at the empty default FIFO. -/
theorem C8_full_fifo_bypass_amended_witness :
    ((Simulator.handleProducedTile c8State 0 0).stats.bypass_mode_used =
      c8State.stats.bypass_mode_used + 1) ∧
    (BankedGroupFIFO.init 4 2).occupancy ≤
      (BankedGroupFIFO.init 4 2).banks *
        (BankedGroupFIFO.init 4 2).group_slots_per_bank := by
  constructor
  · exact (C8_full_fifo_bypass_amended.1 c8State 0 0 (by decide) (by decide)
      (by decide)).1
  · exact C8_full_fifo_bypass_amended.2 4 2 _ FifoReach.init

/-- Claim C8 counterexample: at a concrete simulator state whose FIFO is
full, handling a produced tile sets bypass and leaves the FIFO's
`overflow_count` at its old value instead of incrementing it — the push is
never attempted, refuting the claim that a full-FIFO arrival increments
`overflow_count`. -/
theorem C8_counterexample :
    ((c8State.fifos.getD 0 default).occupancy =
      (c8State.fifos.getD 0 default).max_groups) ∧
    (((Simulator.handleProducedTile c8State 0 0).fifos.getD 0
        default).overflow_count = 0) ∧
    ¬ (((Simulator.handleProducedTile c8State 0 0).fifos.getD 0
        default).overflow_count =
      (c8State.fifos.getD 0 default).overflow_count + 1) := by
  refine ⟨by decide, by decide, by decide⟩

/-! ## Alignment invariant of the prefetch/DMA subsystem (claim C7) -/

namespace SplitPrefetcher

lemma align_aligned (p : SplitPrefetcher) (base length : Nat) :
    (p.align base length).1 % p.dram_alignment = 0 ∧
      (p.align base length).2 % p.dram_alignment = 0 := by
  unfold align
  constructor
  · simp [Nat.mul_mod_left]
  · show (natCeilDiv (base + length) p.dram_alignment * p.dram_alignment -
      base / p.dram_alignment * p.dram_alignment) % p.dram_alignment = 0
    rw [← Nat.dvd_iff_mod_eq_zero]
    exact Nat.dvd_sub' (Dvd.intro _ (Nat.mul_comm _ _))
      (Dvd.intro _ (Nat.mul_comm _ _))

lemma getEntry_aligned (a : Nat) (p : SplitPrefetcher) (hs : p.storeAligned a)
    (id : Nat) : (p.getEntry id).alignedTo a := by
  unfold getEntry
  by_cases h : id < p.store.length
  · exact hs _ (getD_mem _ _ _ h)
  · rw [List.getD_eq_default _ _ (by omega)]
    exact ⟨Nat.zero_mod a, Nat.zero_mod a⟩

lemma storeAligned_setEntry (a : Nat) (p : SplitPrefetcher) (id : Nat)
    (e : PTEntry) (hs : p.storeAligned a) (he : e.alignedTo a) :
    (p.setEntry id e).storeAligned a := by
  intro x hx
  rcases List.mem_or_eq_of_mem_set hx with h | rfl
  · exact hs _ h
  · exact he

lemma storeAligned_allocate (a : Nat) (p : SplitPrefetcher)
    (hs : p.storeAligned a) (base length : Nat) (ty : String)
    (hb : base % a = 0) (hl : length % a = 0) :
    (p.allocate_ptable base length ty).2.storeAligned a := by
  have hmk : (mkEntry base length ty).alignedTo a := ⟨hb, hl⟩
  unfold allocate_ptable
  cases hfind : p.ptable.find? (fun id => ! (p.getEntry id).valid) with
  | some id =>
      simp only
      exact storeAligned_setEntry a p id _ hs hmk
  | none =>
      simp only
      by_cases hcap : p.ptable.length < p.ptable_entries
      · rw [if_pos hcap]
        intro x hx
        rcases List.mem_append.mp hx with h | h
        · exact hs _ h
        · simp only [List.mem_singleton] at h
          subst h
          exact hmk
      · rw [if_neg hcap]
        have hsa : ∀ x ∈ p.store ++ [mkEntry base length ty], x.alignedTo a := by
          intro x hx
          rcases List.mem_append.mp hx with h | h
          · exact hs _ h
          · simp only [List.mem_singleton] at h
            subst h
            exact hmk
        cases hidx : ({ p with store := p.store ++ [mkEntry base length ty]
            } : SplitPrefetcher).ptable.findIdx?
            (fun eid => ! ((({ p with store := p.store ++ [mkEntry base length ty]
              } : SplitPrefetcher).getEntry eid).status == "inflight")) with
        | some i => exact hsa
        | none => exact hsa

lemma storeAligned_allocNew (a : Nat) (q : SplitPrefetcher)
    (hs : q.storeAligned a) (base_a len_a : Nat)
    (hb : base_a % a = 0) (hl : len_a % a = 0)
    (db : List (Nat × Nat)) (ty : String) :
    (coalesce_allocNew q base_a len_a db ty).2.storeAligned a := by
  unfold coalesce_allocNew
  cases halloc : q.allocate_ptable base_a len_a ty with
  | mk id p2 =>
    simp only
    have h2 : p2.storeAligned a := by
      have h := storeAligned_allocate a q hs base_a len_a ty hb hl
      rw [halloc] at h
      exact h
    have h3 := getEntry_aligned a p2 h2 id
    intro x hx
    rcases List.mem_or_eq_of_mem_set hx with hmem | rfl
    · exact h2 _ hmem
    · exact ⟨h3.1, h3.2⟩

lemma storeAligned_core (a : Nat) (q : SplitPrefetcher)
    (hs : q.storeAligned a) (base_a len_a : Nat)
    (hb : base_a % a = 0) (hl : len_a % a = 0)
    (db : List (Nat × Nat)) (ty : String) :
    (coalesce_core q base_a len_a db ty).2.storeAligned a := by
  unfold coalesce_core
  cases hld : q.lookup_done base_a len_a ty with
  | some id =>
      intro x hx
      exact hs x hx
  | none =>
  simp only
  cases hpo : q.pending_overlap base_a len_a ty with
  | some id =>
      simp only
      apply storeAligned_setEntry a q id _ hs
      have h3 := getEntry_aligned a q hs id
      exact ⟨h3.1, h3.2⟩
  | none =>
  simp only
  cases htl : q.prefetch_queue.getLast? with
  | some tailId =>
      simp only
      split
      · split
        · intro x hx
          rcases List.mem_or_eq_of_mem_set hx with hmem | rfl
          · exact hs _ hmem
          · have hent := getEntry_aligned a q hs tailId
            constructor
            · show min (q.getEntry tailId).base_addr base_a % a = 0
              rcases min_choice (q.getEntry tailId).base_addr base_a with h | h
              · rw [h]; exact hent.1
              · rw [h]; exact hb
            · show (max ((q.getEntry tailId).base_addr + (q.getEntry tailId).length)
                  (base_a + len_a) - min (q.getEntry tailId).base_addr base_a) % a = 0
              rw [← Nat.dvd_iff_mod_eq_zero]
              apply Nat.dvd_sub'
              · rcases max_choice
                  ((q.getEntry tailId).base_addr + (q.getEntry tailId).length)
                  (base_a + len_a) with h | h
                · rw [h]
                  exact Nat.dvd_add (Nat.dvd_iff_mod_eq_zero.mpr hent.1)
                    (Nat.dvd_iff_mod_eq_zero.mpr hent.2)
                · rw [h]
                  exact Nat.dvd_add (Nat.dvd_iff_mod_eq_zero.mpr hb)
                    (Nat.dvd_iff_mod_eq_zero.mpr hl)
              · rcases min_choice (q.getEntry tailId).base_addr base_a with h | h
                · rw [h]; exact Nat.dvd_iff_mod_eq_zero.mpr hent.1
                · rw [h]; exact Nat.dvd_iff_mod_eq_zero.mpr hb
        · exact storeAligned_allocNew a q hs base_a len_a hb hl db ty
      · exact storeAligned_allocNew a q hs base_a len_a hb hl db ty
  | none =>
      simp only
      exact storeAligned_allocNew a q hs base_a len_a hb hl db ty

lemma storeAligned_coalesce (a : Nat) (p : SplitPrefetcher)
    (hs : p.storeAligned a) (ha : p.dram_alignment = a)
    (base length : Nat) (db : List (Nat × Nat)) (ty : String) :
    (p.coalesce_enqueue base length db ty).2.storeAligned a := by
  have hal := align_aligned p base length
  rw [ha] at hal
  exact storeAligned_core a { p with requests_total := p.requests_total + 1 }
    hs (p.align base length).1 (p.align base length).2 hal.1 hal.2 db ty

lemma dram_setEntry (p : SplitPrefetcher) (id : Nat) (e : PTEntry) :
    (p.setEntry id e).dram_alignment = p.dram_alignment := rfl

lemma dram_allocate (p : SplitPrefetcher) (b l : Nat) (ty : String) :
    (p.allocate_ptable b l ty).2.dram_alignment = p.dram_alignment := by
  unfold allocate_ptable
  split
  · rfl
  · split
    · rfl
    · simp only
      split
      · rfl
      · rfl

lemma dram_allocNew (p : SplitPrefetcher) (b l : Nat)
    (db : List (Nat × Nat)) (ty : String) :
    (coalesce_allocNew p b l db ty).2.dram_alignment = p.dram_alignment := by
  unfold coalesce_allocNew
  cases halloc : p.allocate_ptable b l ty with
  | mk id p2 =>
    simp only
    have h := dram_allocate p b l ty
    rw [halloc] at h
    exact h

lemma dram_core (p : SplitPrefetcher) (b l : Nat)
    (db : List (Nat × Nat)) (ty : String) :
    (coalesce_core p b l db ty).2.dram_alignment = p.dram_alignment := by
  unfold coalesce_core
  split
  · rfl
  · split
    · rfl
    · split
      · simp only
        split
        · split
          · rfl
          · exact dram_allocNew p b l db ty
        · exact dram_allocNew p b l db ty
      · exact dram_allocNew p b l db ty

lemma dram_coalesce (p : SplitPrefetcher) (base length : Nat)
    (db : List (Nat × Nat)) (ty : String) :
    (p.coalesce_enqueue base length db ty).2.dram_alignment =
      p.dram_alignment := by
  unfold coalesce_enqueue
  simp only
  exact dram_core { p with requests_total := p.requests_total + 1 } _ _ db ty

lemma storeAligned_onCompleted (a : Nat) (p : SplitPrefetcher)
    (hs : p.storeAligned a) (req : DMARequest) :
    (p.on_dma_completed req).storeAligned a := by
  unfold on_dma_completed
  cases hf : p.tag_to_entry.find? (fun q => decide (q.1 = req.tag)) with
  | some m =>
      simp only
      intro x hx
      rcases List.mem_or_eq_of_mem_set hx with hmem | rfl
      · exact hs _ hmem
      · have h := getEntry_aligned a p hs m.2
        exact ⟨h.1, h.2⟩
  | none => exact hs

lemma dram_onCompleted (p : SplitPrefetcher) (req : DMARequest) :
    (p.on_dma_completed req).dram_alignment = p.dram_alignment := by
  unfold on_dma_completed
  split
  · rfl
  · rfl

lemma issueLoop_aligned (a : Nat) : ∀ (fuel : Nat) (p : SplitPrefetcher)
    (d : DMAEngine) (acc : List (Nat × Nat)),
    p.storeAligned a → d.reqsAligned a →
    (issueLoop fuel p d acc).1.storeAligned a ∧
      (issueLoop fuel p d acc).2.1.reqsAligned a ∧
      (issueLoop fuel p d acc).1.dram_alignment = p.dram_alignment := by
  intro fuel
  induction fuel with
  | zero => exact fun p d acc hs hd => ⟨hs, hd, rfl⟩
  | succ n ih =>
    intro p d acc hs hd
    unfold issueLoop
    cases hq : p.prefetch_queue with
    | nil => exact ⟨hs, hd, rfl⟩
    | cons id rest =>
      simp only
      by_cases hout : d.outstanding_count < p.max_outstanding
      · rw [if_pos hout]
        have hent := getEntry_aligned a p hs id
        refine (fun hP hD => ⟨(ih _ _ _ hP hD).1, (ih _ _ _ hP hD).2.1,
          (ih _ _ _ hP hD).2.2⟩) ?_ ?_
        · intro x hx
          rcases List.mem_or_eq_of_mem_set hx with hmem | rfl
          · exact hs _ hmem
          · exact ⟨hent.1, hent.2⟩
        · refine ⟨?_, ?_⟩
          · intro q hq2
            rcases List.mem_append.mp hq2 with h | h
            · exact hd.1 _ h
            · simp only [List.mem_singleton] at h
              subst h
              exact ⟨hent.1, hent.2⟩
          · exact hd.2
      · rw [if_neg hout]
        exact ⟨hs, hd, rfl⟩

lemma issue_prefetches_aligned (a : Nat) (p : SplitPrefetcher) (d : DMAEngine)
    (hs : p.storeAligned a) (hd : d.reqsAligned a) :
    (p.issue_prefetches d).1.storeAligned a ∧
      (p.issue_prefetches d).2.1.reqsAligned a ∧
      (p.issue_prefetches d).1.dram_alignment = p.dram_alignment := by
  unfold issue_prefetches
  exact issueLoop_aligned a p.prefetch_queue.length p d [] hs hd

end SplitPrefetcher

lemma DMAEngine.reqsAligned_step (a : Nat) (d : DMAEngine)
    (hd : d.reqsAligned a) : d.step.reqsAligned a := by
  refine ⟨?_, ?_⟩
  · intro q hq
    exact hd.1 _ (List.mem_filter.mp hq).1
  · intro r hr
    rcases List.mem_append.mp hr with h | h
    · exact hd.2 _ h
    · obtain ⟨q, hq1, hq2⟩ := List.mem_map.mp h
      subst hq2
      exact hd.1 _ (List.mem_filter.mp hq1).1

lemma dispatch_fst (acc : SplitPrefetcher × List (Nat × Nat))
    (req : DMARequest) :
    (PrefetchSystem.dispatchCompleted acc req).1 =
      acc.1.on_dma_completed req := by
  unfold PrefetchSystem.dispatchCompleted
  simp only
  split
  · split
    · rfl
    · rfl
  · rfl

lemma dispatch_foldl_aligned (a : Nat) : ∀ (l : List DMARequest)
    (acc : SplitPrefetcher × List (Nat × Nat)), acc.1.storeAligned a →
    (l.foldl PrefetchSystem.dispatchCompleted acc).1.storeAligned a ∧
      (l.foldl PrefetchSystem.dispatchCompleted acc).1.dram_alignment =
        acc.1.dram_alignment := by
  intro l
  induction l with
  | nil => exact fun acc h => ⟨h, rfl⟩
  | cons r t ih =>
    intro acc hacc
    rw [List.foldl_cons]
    have h1 : (PrefetchSystem.dispatchCompleted acc r).1.storeAligned a := by
      rw [dispatch_fst]
      exact SplitPrefetcher.storeAligned_onCompleted a acc.1 hacc r
    obtain ⟨ha1, ha2⟩ := ih _ h1
    refine ⟨ha1, ha2.trans ?_⟩
    rw [dispatch_fst]
    exact SplitPrefetcher.dram_onCompleted acc.1 r

lemma psAligned_init (a mo pe cb dl bw : Nat) :
    (PrefetchSystem.init mo pe cb a dl bw).psAligned a := by
  refine ⟨?_, rfl, ?_, ?_⟩
  · intro e he
    exact absurd he (List.not_mem_nil e)
  · intro q hq
    exact absurd hq (List.not_mem_nil q)
  · intro r hr
    exact absurd hr (List.not_mem_nil r)

lemma psAligned_submit (a : Nat) (s : PrefetchSystem) (h : s.psAligned a)
    (gid base length : Nat) (db : List (Nat × Nat)) :
    ((s.submit gid base length db).1).psAligned a := by
  obtain ⟨hs, hda, hdm⟩ := h
  unfold PrefetchSystem.submit
  cases hce : s.pf.coalesce_enqueue base length db "reference" with
  | mk id pf =>
    simp only
    have hpf : pf.storeAligned a := by
      have h2 := SplitPrefetcher.storeAligned_coalesce a s.pf hs hda
        base length db "reference"
      rw [hce] at h2
      exact h2
    have hpfd : pf.dram_alignment = a := by
      have h2 := SplitPrefetcher.dram_coalesce s.pf base length db "reference"
      rw [hce] at h2
      exact h2.trans hda
    split
    · exact ⟨hpf, hpfd, hdm⟩
    · refine ⟨?_, hpfd, hdm⟩
      intro x hx
      rcases List.mem_or_eq_of_mem_set hx with hmem | rfl
      · exact hpf _ hmem
      · have h3 := SplitPrefetcher.getEntry_aligned a pf hpf id
        exact ⟨h3.1, h3.2⟩

lemma psAligned_phase23 (a : Nat) (s : PrefetchSystem) (h : s.psAligned a) :
    s.phase23.psAligned a := by
  obtain ⟨hs, hda, hdm⟩ := h
  unfold PrefetchSystem.phase23
  cases hip : s.pf.issue_prefetches s.dma with
  | mk pf pr =>
  cases pr with
  | mk dma issued =>
  simp only [DMAEngine.collect_completed]
  have hkey := SplitPrefetcher.issue_prefetches_aligned a s.pf s.dma hs hdm
  rw [hip] at hkey
  obtain ⟨hpf, hdma, hpfd⟩ := hkey
  have hdstep : dma.step.reqsAligned a := DMAEngine.reqsAligned_step a dma hdma
  cases hf : dma.step.completed.foldl PrefetchSystem.dispatchCompleted
      (pf, s.ready) with
  | mk pf2 ready2 =>
  simp only
  have hfold := dispatch_foldl_aligned a dma.step.completed (pf, s.ready) hpf
  rw [hf] at hfold
  refine ⟨hfold.1, hfold.2.trans (hpfd.trans hda), ?_, ?_⟩
  · intro q hq
    exact hdstep.1 _ hq
  · intro r hr
    exact absurd hr (List.not_mem_nil r)

/-- C7: every DMA request held by the engine (in flight or completed) in any
state of the readiness subsystem reachable by an arbitrary sequence of
tile submissions (`coalesce_enqueue` with arbitrary base, length and
destination banks, including tail-coalesced ones) and step phases, with the
prefetcher configured at the code's 4096-byte DRAM alignment, satisfies
`base_addr % 4096 = 0` and `length % 4096 = 0`. -/
theorem C7_dma_requests_aligned (mo pe cb dl bw : Nat) (s : PrefetchSystem)
    (h : PSReach mo pe cb 4096 dl bw s) :
    (∀ q ∈ s.dma.inflight, q.2.alignedTo 4096) ∧
      (∀ r ∈ s.dma.completed, r.alignedTo 4096) := by
  have key : s.psAligned 4096 := by
    induction h with
    | init => exact psAligned_init 4096 mo pe cb dl bw
    | submit t gid base length db _ ih =>
        exact psAligned_submit 4096 t ih gid base length db
    | step t _ ih => exact psAligned_phase23 4096 t ih
  exact key.2.2

/-- Witness for C7: after submitting one 64-byte reference region at base 0
and running one step phase, every request in the DMA engine is 4096-aligned. -/
theorem C7_dma_requests_aligned_witness :
    (∀ q ∈ (((PrefetchSystem.init 8 64 16384 4096 800 1024).submit 1 0 64
        [(0, 0)]).1.phase23).dma.inflight, q.2.alignedTo 4096) ∧
      (∀ r ∈ (((PrefetchSystem.init 8 64 16384 4096 800 1024).submit 1 0 64
        [(0, 0)]).1.phase23).dma.completed, r.alignedTo 4096) :=
  C7_dma_requests_aligned 8 64 16384 800 1024 _
    (PSReach.step _ (PSReach.submit _ 1 0 64 [(0, 0)] PSReach.init))



/-! ## Helper lemmas for the C10 subsystem invariant -/

lemma list_set_oob {α : Type} (l : List α) (i : Nat) (a : α)
    (h : l.length ≤ i) : l.set i a = l := by
  induction l generalizing i with
  | nil => rfl
  | cons x xs ih =>
      cases i with
      | zero => simp at h
      | succ n =>
          simp only [List.set_cons_succ, List.cons.injEq, true_and]
          exact ih n (by simpa using h)

lemma SplitPrefetcher.getEntry_set (p : SplitPrefetcher) (id id' : Nat)
    (e : PTEntry) :
    (p.setEntry id e).getEntry id' =
      if id' = id ∧ id < p.store.length then e else p.getEntry id' := by
  by_cases hb : id < p.store.length
  · by_cases hq : id' = id
    · subst hq
      rw [if_pos ⟨rfl, hb⟩]
      exact getD_set_self _ _ _ _ hb
    · rw [if_neg (fun hc => hq hc.1)]
      exact getD_set_other _ _ _ (fun hc => hq hc.symm)
  · rw [if_neg (fun hc => hb hc.2)]
    show (p.store.set id e).getD id' default = p.store.getD id' default
    rw [list_set_oob _ _ _ (le_of_not_lt hb)]

lemma SplitPrefetcher.setEntry_length (p : SplitPrefetcher) (id : Nat)
    (e : PTEntry) : (p.setEntry id e).store.length = p.store.length :=
  List.length_set _ _ _

lemma find_key_filter (m : List (Nat × Nat)) (k g : Nat) (h : k ≠ g) :
    ((m.filter (fun q => decide (q.1 ≠ k))).find?
        (fun q => decide (q.1 = g))) =
      m.find? (fun q => decide (q.1 = g)) := by
  induction m with
  | nil => rfl
  | cons p t ih =>
      by_cases hp : p.1 = k
      · rw [List.filter_cons_of_neg (by simpa using hp)]
        rw [List.find?_cons_of_neg _ (by simp [hp]; exact fun hc => h (hp ▸ hc))]
        exact ih
      · rw [List.filter_cons_of_pos (by simpa using hp)]
        by_cases hg : p.1 = g
        · rw [List.find?_cons_of_pos _ (by simpa using hg),
            List.find?_cons_of_pos _ (by simpa using hg)]
        · rw [List.find?_cons_of_neg _ (by simpa using hg),
            List.find?_cons_of_neg _ (by simpa using hg)]
          exact ih

lemma dictGet_dictSet_ne (m : List (Nat × Nat)) (k v g : Nat) (h : k ≠ g) :
    dictGet (dictSet m k v) g = dictGet m g := by
  unfold dictGet dictSet
  rw [List.find?_cons_of_neg _ (by simpa using h)]
  rw [find_key_filter m k g h]

lemma dictGet_dictSet_self (m : List (Nat × Nat)) (k v : Nat) :
    dictGet (dictSet m k v) k = some v := by
  unfold dictGet dictSet
  rw [List.find?_cons_of_pos _ (by simp)]
  rfl

lemma flipReady_ne (ready : List (Nat × Nat)) (gid g : Nat) (h : gid ≠ g) :
    dictGet (PrefetchSystem.flipReady ready gid) g = dictGet ready g := by
  unfold PrefetchSystem.flipReady
  cases dictGet ready gid with
  | none => rfl
  | some v => exact dictGet_dictSet_ne ready gid 1 g h

lemma flip_foldl_ne (g : Nat) : ∀ (L : List Nat) (ready : List (Nat × Nat)),
    g ∉ L →
    dictGet (L.foldl PrefetchSystem.flipReady ready) g = dictGet ready g := by
  intro L
  induction L with
  | nil => exact fun ready _ => rfl
  | cons x t ih =>
      intro ready hg
      rw [List.foldl_cons]
      rw [ih _ (fun hc => hg (List.mem_cons_of_mem x hc))]
      exact flipReady_ne ready x g (fun hc => hg (hc ▸ List.mem_cons_self x t))

lemma SplitPrefetcher.coalesce_core_cases (p : SplitPrefetcher) (b l : Nat)
    (db : List (Nat × Nat)) (ty : String) :
    (∃ id, p.lookup_done b l ty = some id ∧
      SplitPrefetcher.coalesce_core p b l db ty =
        (id, { p with requests_hits := p.requests_hits + 1 })) ∨
    (p.lookup_done b l ty = none ∧
      ∃ id, p.pending_overlap b l ty = some id ∧
        SplitPrefetcher.coalesce_core p b l db ty =
          (id, p.setEntry id { p.getEntry id with
            dest_banks := (p.getEntry id).dest_banks ++ db })) ∨
    (p.lookup_done b l ty = none ∧ p.pending_overlap b l ty = none ∧
      ∃ tailId, p.prefetch_queue.getLast? = some tailId ∧
        SplitPrefetcher.coalesce_core p b l db ty =
          (tailId,
           { p.setEntry tailId
               { p.getEntry tailId with
                 base_addr := min (p.getEntry tailId).base_addr b,
                 length := max ((p.getEntry tailId).base_addr +
                     (p.getEntry tailId).length) (b + l) -
                   min (p.getEntry tailId).base_addr b,
                 dest_banks := (p.getEntry tailId).dest_banks ++ db } with
             requests_coalesced := p.requests_coalesced + 1 })) ∨
    (p.lookup_done b l ty = none ∧ p.pending_overlap b l ty = none ∧
      SplitPrefetcher.coalesce_core p b l db ty =
        SplitPrefetcher.coalesce_allocNew p b l db ty) := by
  unfold SplitPrefetcher.coalesce_core
  cases hld : p.lookup_done b l ty with
  | some id => exact Or.inl ⟨id, rfl, rfl⟩
  | none =>
  cases hpo : p.pending_overlap b l ty with
  | some id => exact Or.inr (Or.inl ⟨rfl, id, rfl, rfl⟩)
  | none =>
  cases htl : p.prefetch_queue.getLast? with
  | none => exact Or.inr (Or.inr (Or.inr ⟨rfl, rfl, rfl⟩))
  | some tailId =>
      simp only
      by_cases hty : ((p.getEntry tailId).request_type == ty) = true
      · rw [if_pos hty]
        by_cases hfit : max ((p.getEntry tailId).base_addr +
            (p.getEntry tailId).length) (b + l) -
            min (p.getEntry tailId).base_addr b ≤ p.coalesce_bytes
        · rw [if_pos hfit]
          exact Or.inr (Or.inr (Or.inl ⟨by trivial, by trivial, tailId, rfl, rfl⟩))
        · rw [if_neg hfit]
          exact Or.inr (Or.inr (Or.inr ⟨by trivial, by trivial, rfl⟩))
      · rw [if_neg hty]
        exact Or.inr (Or.inr (Or.inr ⟨by trivial, by trivial, rfl⟩))

lemma SplitPrefetcher.allocNew_eq (p : SplitPrefetcher) (b l : Nat)
    (db : List (Nat × Nat)) (ty : String) :
    SplitPrefetcher.coalesce_allocNew p b l db ty =
      ((p.allocate_ptable b l ty).1,
       { (p.allocate_ptable b l ty).2.setEntry (p.allocate_ptable b l ty).1
           { (p.allocate_ptable b l ty).2.getEntry
               (p.allocate_ptable b l ty).1 with
             dest_banks := db, linked_tiles := [], status := "pending" } with
         prefetch_queue := (p.allocate_ptable b l ty).2.prefetch_queue ++
           [(p.allocate_ptable b l ty).1] }) := by
  unfold SplitPrefetcher.coalesce_allocNew
  cases halloc : p.allocate_ptable b l ty with
  | mk id p2 => rfl

lemma SplitPrefetcher.allocate_char (p : SplitPrefetcher) (b l : Nat)
    (ty : String) (hv : ∀ e ∈ p.store, e.valid = true)
    (hpb : ∀ id ∈ p.ptable, id < p.store.length) :
    (p.allocate_ptable b l ty).1 = p.store.length ∧
    (p.allocate_ptable b l ty).2.store = p.store ++ [SplitPrefetcher.mkEntry b l ty] ∧
    ((p.allocate_ptable b l ty).2.ptable = p.ptable ++ [p.store.length] ∨
      (∃ i, (p.allocate_ptable b l ty).2.ptable =
        p.ptable.eraseIdx i ++ [p.store.length]) ∨
      (p.allocate_ptable b l ty).2.ptable =
        p.ptable.drop 1 ++ [p.store.length]) ∧
    (p.allocate_ptable b l ty).2.prefetch_queue = p.prefetch_queue ∧
    (p.allocate_ptable b l ty).2.tag_to_entry = p.tag_to_entry := by
  have hfind : p.ptable.find? (fun id => ! (p.getEntry id).valid) = none := by
    rw [List.find?_eq_none]
    intro id hid
    have hval := hv (p.store.getD id default)
      (getD_mem p.store id default (hpb _ hid))
    show ¬ (! (p.getEntry id).valid) = true
    unfold SplitPrefetcher.getEntry
    rw [hval]
    decide
  unfold SplitPrefetcher.allocate_ptable
  rw [hfind]
  by_cases hcap : p.ptable.length < p.ptable_entries
  · rw [if_pos hcap]
    exact ⟨rfl, rfl, Or.inl rfl, rfl, rfl⟩
  · rw [if_neg hcap]
    simp only
    cases hidx : ({ p with store := p.store ++ [SplitPrefetcher.mkEntry b l ty]
        } : SplitPrefetcher).ptable.findIdx?
        (fun eid => ! ((({ p with store := p.store ++
          [SplitPrefetcher.mkEntry b l ty] } : SplitPrefetcher).getEntry
            eid).status == "inflight")) with
    | some i => exact ⟨rfl, rfl, Or.inr (Or.inl ⟨i, rfl⟩), rfl, rfl⟩
    | none => exact ⟨rfl, rfl, Or.inr (Or.inr rfl), rfl, rfl⟩

lemma gp_congr (pf pf' : SplitPrefetcher) (d : DMAEngine) (h : goodParts pf d)
    (hst : pf'.store = pf.store) (hpt : pf'.ptable = pf.ptable)
    (hq : pf'.prefetch_queue = pf.prefetch_queue)
    (hte : pf'.tag_to_entry = pf.tag_to_entry) : goodParts pf' d := by
  have hge : ∀ id, pf'.getEntry id = pf.getEntry id := by
    intro id
    unfold SplitPrefetcher.getEntry
    rw [hst]
  constructor
  · rw [hst]
    exact h.vld
  · intro i hi
    rw [hpt] at hi
    rw [hst]
    exact h.pbound i hi
  · intro m hm
    rw [hte] at hm
    rw [hge, hst]
    exact h.tmap m hm
  · intro i hi
    rw [hq] at hi
    rw [hge, hst]
    exact h.qpend i hi
  · rw [hq]
    exact h.qnodup
  · intro id1 id2 t h1 h2
    rw [hge] at h1 h2
    exact h.tuniq _ _ _ h1 h2
  · intro id t h1
    rw [hge] at h1
    exact h.tlt _ _ h1
  · intro q hq2 id h1
    rw [hge] at h1
    rw [hte]
    exact h.wmap q hq2 id h1
  · exact h.rtag
  · exact h.rnodup
  · exact h.cempty

lemma gp_set (pf : SplitPrefetcher) (d : DMAEngine) (h : goodParts pf d)
    (id : Nat) (e : PTEntry)
    (hstE : e.status = (pf.getEntry id).status)
    (htgE : e.tag = (pf.getEntry id).tag)
    (hvE : e.valid = (pf.getEntry id).valid) :
    goodParts (pf.setEntry id e) d := by
  by_cases hb : id < pf.store.length
  · have hlen : (pf.setEntry id e).store.length = pf.store.length :=
      SplitPrefetcher.setEntry_length pf id e
    have hgeS : ∀ id', ((pf.setEntry id e).getEntry id').status =
        (pf.getEntry id').status := by
      intro id'
      rw [SplitPrefetcher.getEntry_set]
      by_cases hc : id' = id ∧ id < pf.store.length
      · rw [if_pos hc, hc.1]
        exact hstE
      · rw [if_neg hc]
    have hgeT : ∀ id', ((pf.setEntry id e).getEntry id').tag =
        (pf.getEntry id').tag := by
      intro id'
      rw [SplitPrefetcher.getEntry_set]
      by_cases hc : id' = id ∧ id < pf.store.length
      · rw [if_pos hc, hc.1]
        exact htgE
      · rw [if_neg hc]
    constructor
    · intro x hx
      rcases List.mem_or_eq_of_mem_set hx with hmem | rfl
      · exact h.vld _ hmem
      · rw [hvE]
        exact h.vld _ (getD_mem _ _ _ hb)
    · intro i hi
      rw [hlen]
      exact h.pbound i hi
    · intro m hm
      obtain ⟨b1, b2, b3⟩ := h.tmap m hm
      exact ⟨by rw [hlen]; exact b1, by rw [hgeS]; exact b2,
        by rw [hgeT]; exact b3⟩
    · intro i hi
      obtain ⟨b1, b2⟩ := h.qpend i hi
      exact ⟨by rw [hlen]; exact b1, by rw [hgeS]; exact b2⟩
    · exact h.qnodup
    · intro id1 id2 t h1 h2
      rw [hgeT] at h1 h2
      exact h.tuniq _ _ _ h1 h2
    · intro id' t h1
      rw [hgeT] at h1
      exact h.tlt _ _ h1
    · intro q hq2 id' h1
      rw [hgeT] at h1
      exact h.wmap q hq2 id' h1
    · exact h.rtag
    · exact h.rnodup
    · exact h.cempty
  · have heq : pf.setEntry id e = pf := by
      show ({ pf with store := pf.store.set id e } : SplitPrefetcher) = pf
      rw [list_set_oob _ _ _ (le_of_not_lt hb)]
    rw [heq]
    exact h

lemma set_append_last {α : Type} (l : List α) (x e : α) :
    (l ++ [x]).set l.length e = l ++ [e] := by
  induction l with
  | nil => rfl
  | cons a t ih =>
      show a :: ((t ++ [x]).set t.length e) = a :: (t ++ [e])
      rw [ih]

lemma gp_append (pf : SplitPrefetcher) (d : DMAEngine) (h : goodParts pf d)
    (pfN : SplitPrefetcher) (e : PTEntry)
    (hst : pfN.store = pf.store ++ [e])
    (hpt : pfN.ptable = pf.ptable ++ [pf.store.length] ∨
      (∃ i, pfN.ptable = pf.ptable.eraseIdx i ++ [pf.store.length]) ∨
      pfN.ptable = pf.ptable.drop 1 ++ [pf.store.length])
    (hq : pfN.prefetch_queue = pf.prefetch_queue ++ [pf.store.length])
    (hte : pfN.tag_to_entry = pf.tag_to_entry)
    (hEv : e.valid = true) (hEs : e.status = "pending") (hEt : e.tag = none) :
    goodParts pfN d := by
  have hlen : pfN.store.length = pf.store.length + 1 := by
    rw [hst, List.length_append]
    rfl
  have hget : ∀ id', pfN.getEntry id' =
      if id' = pf.store.length then e else pf.getEntry id' := by
    intro id'
    unfold SplitPrefetcher.getEntry
    rw [hst]
    by_cases hc : id' = pf.store.length
    · rw [if_pos hc, hc]
      exact getD_append_self _ _ _
    · rw [if_neg hc]
      rcases Nat.lt_or_ge id' pf.store.length with hlt | hge
      · exact getD_append_lt _ _ _ _ hlt
      · have hgt : pf.store.length < id' := lt_of_le_of_ne hge (Ne.symm hc)
        rw [List.getD_eq_default _ _
            (by simp only [List.length_append, List.length_singleton]; omega),
          List.getD_eq_default _ _ (by omega)]
  have hdefS : (pf.getEntry pf.store.length).status = "pending" := by
    unfold SplitPrefetcher.getEntry
    rw [List.getD_eq_default _ _ (le_refl _)]
    rfl
  have hdefT : (pf.getEntry pf.store.length).tag = none := by
    unfold SplitPrefetcher.getEntry
    rw [List.getD_eq_default _ _ (le_refl _)]
    rfl
  have hgeS : ∀ id', (pfN.getEntry id').status = (pf.getEntry id').status := by
    intro id'
    rw [hget]
    by_cases hc : id' = pf.store.length
    · rw [if_pos hc, hEs, hc, hdefS]
    · rw [if_neg hc]
  have hgeT : ∀ id', (pfN.getEntry id').tag = (pf.getEntry id').tag := by
    intro id'
    rw [hget]
    by_cases hc : id' = pf.store.length
    · rw [if_pos hc, hEt, hc, hdefT]
    · rw [if_neg hc]
  constructor
  · intro x hx
    rw [hst] at hx
    rcases List.mem_append.mp hx with h2 | h2
    · exact h.vld _ h2
    · simp only [List.mem_singleton] at h2
      subst h2
      exact hEv
  · intro i hi
    rw [hlen]
    rcases hpt with h1 | ⟨j, h1⟩ | h1 <;> rw [h1] at hi <;>
      rcases List.mem_append.mp hi with h2 | h2
    · exact Nat.lt_succ_of_lt (h.pbound i h2)
    · simp only [List.mem_singleton] at h2
      omega
    · exact Nat.lt_succ_of_lt (h.pbound i (List.eraseIdx_subset _ _ h2))
    · simp only [List.mem_singleton] at h2
      omega
    · exact Nat.lt_succ_of_lt (h.pbound i (List.drop_subset _ _ h2))
    · simp only [List.mem_singleton] at h2
      omega
  · intro m hm
    rw [hte] at hm
    obtain ⟨b1, b2, b3⟩ := h.tmap m hm
    exact ⟨by rw [hlen]; omega, by rw [hgeS]; exact b2, by rw [hgeT]; exact b3⟩
  · intro i hi
    rw [hq] at hi
    rcases List.mem_append.mp hi with h2 | h2
    · obtain ⟨b1, b2⟩ := h.qpend i h2
      exact ⟨by rw [hlen]; omega, by rw [hgeS]; exact b2⟩
    · simp only [List.mem_singleton] at h2
      subst h2
      refine ⟨by rw [hlen]; omega, ?_⟩
      rw [hget, if_pos rfl]
      exact hEs
  · rw [hq, List.nodup_append]
    refine ⟨h.qnodup, List.nodup_singleton _, ?_⟩
    intro i hi hmem
    simp only [List.mem_singleton] at hmem
    subst hmem
    exact absurd (h.qpend _ hi).1 (lt_irrefl _)
  · intro id1 id2 t h1 h2
    rw [hgeT] at h1 h2
    exact h.tuniq _ _ _ h1 h2
  · intro id t h1
    rw [hgeT] at h1
    exact h.tlt _ _ h1
  · intro q hq2 id h1
    rw [hgeT] at h1
    rw [hte]
    exact h.wmap q hq2 id h1
  · exact h.rtag
  · exact h.rnodup
  · exact h.cempty

lemma gp_allocNew (pf : SplitPrefetcher) (d : DMAEngine) (h : goodParts pf d)
    (b l : Nat) (db : List (Nat × Nat)) (ty : String) :
    goodParts (SplitPrefetcher.coalesce_allocNew pf b l db ty).2 d := by
  obtain ⟨hid, hst, hpt, hq, hte⟩ :=
    SplitPrefetcher.allocate_char pf b l ty h.vld h.pbound
  have hgetA : (pf.allocate_ptable b l ty).2.getEntry
      (pf.allocate_ptable b l ty).1 = SplitPrefetcher.mkEntry b l ty := by
    unfold SplitPrefetcher.getEntry
    rw [hst, hid]
    exact getD_append_self _ _ _
  rw [SplitPrefetcher.allocNew_eq]
  refine gp_append pf d h _
    ({ (pf.allocate_ptable b l ty).2.getEntry (pf.allocate_ptable b l ty).1 with
       dest_banks := db, linked_tiles := [], status := "pending" })
    ?_ ?_ ?_ ?_ ?_ ?_ ?_
  · show ((pf.allocate_ptable b l ty).2.store.set
      (pf.allocate_ptable b l ty).1 _) = _
    rw [hst, hid, set_append_last]
  · exact hpt
  · show (pf.allocate_ptable b l ty).2.prefetch_queue ++
      [(pf.allocate_ptable b l ty).1] = _
    rw [hq, hid]
  · exact hte
  · rw [hgetA]
    rfl
  · rfl
  · rw [hgetA]
    rfl

lemma gp_coalesce (pf : SplitPrefetcher) (d : DMAEngine) (h : goodParts pf d)
    (base length : Nat) (db : List (Nat × Nat)) (ty : String) :
    goodParts (pf.coalesce_enqueue base length db ty).2 d := by
  have hbump : goodParts { pf with requests_total := pf.requests_total + 1 } d :=
    ⟨h.vld, h.pbound, h.tmap, h.qpend, h.qnodup, h.tuniq, h.tlt, h.wmap,
     h.rtag, h.rnodup, h.cempty⟩
  have hce : pf.coalesce_enqueue base length db ty =
      SplitPrefetcher.coalesce_core
        { pf with requests_total := pf.requests_total + 1 }
        (({ pf with requests_total := pf.requests_total + 1
          } : SplitPrefetcher).align base length).1
        (({ pf with requests_total := pf.requests_total + 1
          } : SplitPrefetcher).align base length).2 db ty := rfl
  rw [hce]
  rcases SplitPrefetcher.coalesce_core_cases
      { pf with requests_total := pf.requests_total + 1 }
      (({ pf with requests_total := pf.requests_total + 1
        } : SplitPrefetcher).align base length).1
      (({ pf with requests_total := pf.requests_total + 1
        } : SplitPrefetcher).align base length).2 db ty with
    ⟨id, hld, heq⟩ | ⟨hld, id, hpo, heq⟩ | ⟨hld, hpo, tailId, htl, heq⟩ |
    ⟨hld, hpo, heq⟩
  · rw [heq]
    exact gp_congr _ _ d hbump rfl rfl rfl rfl
  · rw [heq]
    exact gp_set _ d hbump id _ rfl rfl rfl
  · rw [heq]
    refine gp_congr _ _ d (gp_set _ d hbump tailId _ ?_ ?_ ?_) rfl rfl rfl rfl
    · rfl
    · rfl
    · rfl
  · rw [heq]
    exact gp_allocNew _ d hbump _ _ db ty

lemma gp_submit (s : PrefetchSystem) (h : goodParts s.pf s.dma)
    (gid base length : Nat) (db : List (Nat × Nat)) :
    goodParts (s.submit gid base length db).1.pf
      (s.submit gid base length db).1.dma := by
  unfold PrefetchSystem.submit
  cases hce : s.pf.coalesce_enqueue base length db "reference" with
  | mk id cpf =>
    simp only
    have hg : goodParts cpf s.dma := by
      have h2 := gp_coalesce s.pf s.dma h base length db "reference"
      rw [hce] at h2
      exact h2
    split
    · exact hg
    · exact gp_set cpf s.dma hg id _ rfl rfl rfl

lemma gp_issueStep (p : SplitPrefetcher) (d : DMAEngine) (h : goodParts p d)
    (id : Nat) (rest : List Nat) (hq : p.prefetch_queue = id :: rest) :
    goodParts
      { (p.setEntry id ({ p.getEntry id with
                          status := "inflight",
                          tag := some d.next_tag })) with
        prefetch_queue := rest,
        tag_to_entry := (d.next_tag, id) ::
          p.tag_to_entry.filter (fun q => decide (q.1 ≠ d.next_tag)) }
      (d.issue (p.getEntry id).base_addr (p.getEntry id).length
        (((p.getEntry id).dest_banks.headD (0, 0)).1,
          ((p.getEntry id).dest_banks.headD (0, 0)).2, 0)
        (p.getEntry id).request_type).2 := by
  obtain ⟨hid, hpend⟩ := h.qpend id (hq ▸ List.mem_cons_self id rest)
  have hidnr : id ∉ rest := (List.nodup_cons.mp (hq ▸ h.qnodup)).1
  have hD : (d.issue (p.getEntry id).base_addr (p.getEntry id).length
      (((p.getEntry id).dest_banks.headD (0, 0)).1,
        ((p.getEntry id).dest_banks.headD (0, 0)).2, 0)
      (p.getEntry id).request_type).2 =
    { d with
      next_tag := d.next_tag + 1,
      inflight := d.inflight ++ [(d.next_tag, { tag := d.next_tag, base_addr := (p.getEntry id).base_addr, length := (p.getEntry id).length, issue_cycle := d.cycle, done_cycle := some (d.cycle + d.dram_latency + max 1 (natCeilDiv (p.getEntry id).length (max 1 d.bw))), dest := (((p.getEntry id).dest_banks.headD (0, 0)).1, ((p.getEntry id).dest_banks.headD (0, 0)).2, 0), request_type := (p.getEntry id).request_type })] } := rfl
  rw [hD]
  have hget : ∀ id',
      (({ (p.setEntry id ({ p.getEntry id with
                            status := "inflight",
                            tag := some d.next_tag })) with
          prefetch_queue := rest,
          tag_to_entry := (d.next_tag, id) ::
            p.tag_to_entry.filter (fun q => decide (q.1 ≠ d.next_tag))
        } : SplitPrefetcher)).getEntry id' =
      if id' = id then { p.getEntry id with
                         status := "inflight",
                         tag := some d.next_tag } else p.getEntry id' := by
    intro id'
    show (p.store.set id _).getD id' default = _
    by_cases hc : id' = id
    · rw [if_pos hc, hc]
      exact getD_set_self _ _ _ _ hid
    · rw [if_neg hc]
      exact getD_set_other _ _ _ (fun hcc => hc hcc.symm)
  constructor
  · intro x hx
    rcases List.mem_or_eq_of_mem_set hx with hmem | rfl
    · exact h.vld _ hmem
    · show (p.getEntry id).valid = true
      exact h.vld _ (getD_mem _ _ _ hid)
  · intro i hi
    show i < (p.store.set id _).length
    rw [List.length_set]
    exact h.pbound i hi
  · intro m hm
    rcases List.mem_cons.mp hm with rfl | hmem
    · refine ⟨?_, ?_, ?_⟩
      · show id < (p.store.set id _).length
        rw [List.length_set]
        exact hid
      · rw [hget, if_pos rfl]
      · rw [hget, if_pos rfl]
    · obtain ⟨hmo, hkne⟩ := List.mem_filter.mp hmem
      obtain ⟨b1, b2, b3⟩ := h.tmap m hmo
      have hm2 : m.2 ≠ id := by
        intro hcc
        rw [hcc] at b2
        rw [hpend] at b2
        exact absurd b2 (by decide)
      refine ⟨?_, ?_, ?_⟩
      · show m.2 < (p.store.set id _).length
        rw [List.length_set]
        exact b1
      · rw [hget, if_neg hm2]
        exact b2
      · rw [hget, if_neg hm2]
        exact b3
  · intro i hi
    have himem : i ∈ p.prefetch_queue := hq ▸ List.mem_cons_of_mem id hi
    obtain ⟨b1, b2⟩ := h.qpend i himem
    have hine : i ≠ id := fun hcc => hidnr (hcc ▸ hi)
    refine ⟨?_, ?_⟩
    · show i < (p.store.set id _).length
      rw [List.length_set]
      exact b1
    · rw [hget, if_neg hine]
      exact b2
  · exact (List.nodup_cons.mp (hq ▸ h.qnodup)).2
  · intro id1 id2 t h1 h2
    rw [hget] at h1 h2
    by_cases hc1 : id1 = id <;> by_cases hc2 : id2 = id
    · rw [hc1, hc2]
    · rw [if_pos hc1] at h1
      rw [if_neg hc2] at h2
      simp only [Option.some.injEq] at h1
      rw [← h1] at h2
      exact absurd (h.tlt _ _ h2) (lt_irrefl _)
    · rw [if_neg hc1] at h1
      rw [if_pos hc2] at h2
      simp only [Option.some.injEq] at h2
      rw [← h2] at h1
      exact absurd (h.tlt _ _ h1) (lt_irrefl _)
    · rw [if_neg hc1] at h1
      rw [if_neg hc2] at h2
      exact h.tuniq _ _ _ h1 h2
  · intro id' t h1
    rw [hget] at h1
    show t < d.next_tag + 1
    by_cases hc : id' = id
    · rw [if_pos hc] at h1
      simp only [Option.some.injEq] at h1
      omega
    · rw [if_neg hc] at h1
      exact Nat.lt_succ_of_lt (h.tlt _ _ h1)
  · intro q hq2 id' h1
    rcases List.mem_append.mp hq2 with hmem | hmem
    · have hklt : q.1 < d.next_tag := (h.rtag q hmem).2
      rw [hget] at h1
      by_cases hc : id' = id
      · rw [if_pos hc] at h1
        simp only [Option.some.injEq] at h1
        omega
      · rw [if_neg hc] at h1
        have hkne2 : (fun m => decide (m.1 ≠ d.next_tag)) (q.1, id') = true := by
          simp only [decide_eq_true_eq]
          exact Nat.ne_of_lt hklt
        exact List.mem_cons_of_mem _
          (List.mem_filter.mpr ⟨h.wmap q hmem id' h1, hkne2⟩)
    · simp only [List.mem_singleton] at hmem
      subst hmem
      rw [hget] at h1
      by_cases hc : id' = id
      · rw [hc]
        exact List.mem_cons_self _ _
      · rw [if_neg hc] at h1
        exact absurd (h.tlt _ _ h1) (lt_irrefl _)
  · intro q hq2
    rcases List.mem_append.mp hq2 with hmem | hmem
    · obtain ⟨b1, b2⟩ := h.rtag q hmem
      exact ⟨b1, Nat.lt_succ_of_lt b2⟩
    · simp only [List.mem_singleton] at hmem
      subst hmem
      exact ⟨rfl, Nat.lt_succ_self d.next_tag⟩
  · rw [List.map_append, List.nodup_append]
    refine ⟨h.rnodup, List.nodup_singleton _, ?_⟩
    intro k hk hmem
    simp only [List.map_cons, List.map_nil, List.mem_singleton] at hmem
    obtain ⟨q, hqm, hqe⟩ := List.mem_map.mp hk
    have hlt := (h.rtag q hqm).2
    rw [hqe, hmem] at hlt
    exact lt_irrefl _ hlt
  · exact h.cempty

lemma gp_issueLoop : ∀ (fuel : Nat) (p : SplitPrefetcher) (d : DMAEngine)
    (acc : List (Nat × Nat)), goodParts p d →
    goodParts (SplitPrefetcher.issueLoop fuel p d acc).1
      (SplitPrefetcher.issueLoop fuel p d acc).2.1 := by
  intro fuel
  induction fuel with
  | zero => exact fun p d acc h => h
  | succ n ih =>
    intro p d acc h
    unfold SplitPrefetcher.issueLoop
    cases hq : p.prefetch_queue with
    | nil => exact h
    | cons id rest =>
      simp only
      by_cases hout : d.outstanding_count < p.max_outstanding
      · rw [if_pos hout]
        exact ih _ _ _ (gp_issueStep p d h id rest hq)
      · rw [if_neg hout]
        exact h

lemma nodup_map_inj {α β : Type} (l : List α) (f : α → β)
    (h : (l.map f).Nodup) :
    ∀ a ∈ l, ∀ b ∈ l, f a = f b → a = b := by
  induction l with
  | nil => intro a ha; exact absurd ha (List.not_mem_nil a)
  | cons x t ih =>
      rw [List.map_cons, List.nodup_cons] at h
      intro a ha b hb hf
      rcases List.mem_cons.mp ha with rfl | ha2 <;>
        rcases List.mem_cons.mp hb with rfl | hb2
      · rfl
      · exact absurd (hf ▸ List.mem_map_of_mem f hb2) h.1
      · exact absurd (hf ▸ List.mem_map_of_mem f ha2) h.1
      · exact ih h.2 a ha2 b hb2 hf

lemma gp_dispatch (pf : SplitPrefetcher) (d : DMAEngine)
    (h : goodParts pf d) (req : DMARequest)
    (hnin : ∀ q ∈ d.inflight, q.1 ≠ req.tag) :
    goodParts (pf.on_dma_completed req) d := by
  unfold SplitPrefetcher.on_dma_completed
  cases hfind : pf.tag_to_entry.find? (fun q => decide (q.1 = req.tag)) with
  | none => exact h
  | some m =>
      simp only
      have hmkey : m.1 = req.tag := by
        have := List.find?_some hfind
        simpa using this
      have hmem : m ∈ pf.tag_to_entry := List.mem_of_find?_eq_some hfind
      obtain ⟨hb, hstInf, htag⟩ := h.tmap m hmem
      have hget2 : ∀ id',
          ((({ pf with tag_to_entry :=
                         pf.tag_to_entry.filter
                           (fun q => decide (q.1 ≠ req.tag))
             } : SplitPrefetcher).setEntry
              m.2 ({ pf.getEntry m.2 with status := "done" })).getEntry id') =
          if id' = m.2 then { pf.getEntry m.2 with status := "done" }
          else pf.getEntry id' := by
        intro id'
        show (pf.store.set m.2 _).getD id' default = _
        by_cases hc : id' = m.2
        · rw [if_pos hc, hc]
          exact getD_set_self _ _ _ _ hb
        · rw [if_neg hc]
          exact getD_set_other _ _ _ (fun hcc => hc hcc.symm)
      have hgT : ∀ id',
          ((({ pf with tag_to_entry :=
                         pf.tag_to_entry.filter
                           (fun q => decide (q.1 ≠ req.tag))
             } : SplitPrefetcher).setEntry
              m.2 ({ pf.getEntry m.2 with status := "done" })).getEntry
            id').tag = (pf.getEntry id').tag := by
        intro id'
        rw [hget2]
        by_cases hc : id' = m.2
        · rw [if_pos hc, hc]
        · rw [if_neg hc]
      constructor
      · intro x hx
        rcases List.mem_or_eq_of_mem_set hx with hmem2 | rfl
        · exact h.vld _ hmem2
        · show (pf.getEntry m.2).valid = true
          exact h.vld _ (getD_mem _ _ _ hb)
      · intro i hi
        show i < (pf.store.set m.2 _).length
        rw [List.length_set]
        exact h.pbound i hi
      · intro m' hm'
        obtain ⟨hmo, hkne⟩ := List.mem_filter.mp hm'
        obtain ⟨b1, b2, b3⟩ := h.tmap m' hmo
        have hne : m'.2 ≠ m.2 := by
          intro hcc
          rw [hcc, htag] at b3
          simp only [Option.some.injEq] at b3
          rw [← b3, hmkey] at hkne
          simp at hkne
        refine ⟨?_, ?_, ?_⟩
        · show m'.2 < (pf.store.set m.2 _).length
          rw [List.length_set]
          exact b1
        · rw [hget2, if_neg hne]
          exact b2
        · rw [hget2, if_neg hne]
          exact b3
      · intro i hi
        obtain ⟨b1, b2⟩ := h.qpend i hi
        have hne : i ≠ m.2 := by
          intro hcc
          rw [hcc, hstInf] at b2
          exact absurd b2 (by decide)
        refine ⟨?_, ?_⟩
        · show i < (pf.store.set m.2 _).length
          rw [List.length_set]
          exact b1
        · rw [hget2, if_neg hne]
          exact b2
      · exact h.qnodup
      · intro id1 id2 t h1 h2
        rw [hgT] at h1 h2
        exact h.tuniq _ _ _ h1 h2
      · intro id' t h1
        rw [hgT] at h1
        exact h.tlt _ _ h1
      · intro q hq id' h1
        rw [hgT] at h1
        refine List.mem_filter.mpr ⟨h.wmap q hq id' h1, ?_⟩
        simp only [decide_eq_true_eq]
        exact hnin q hq
      · exact h.rtag
      · exact h.rnodup
      · exact h.cempty

lemma gp_dispatch_foldl : ∀ (l : List DMARequest)
    (acc : SplitPrefetcher × List (Nat × Nat)) (d : DMAEngine),
    goodParts acc.1 d → (∀ r ∈ l, ∀ q ∈ d.inflight, q.1 ≠ r.tag) →
    goodParts (l.foldl PrefetchSystem.dispatchCompleted acc).1 d := by
  intro l
  induction l with
  | nil => exact fun acc d h _ => h
  | cons r t ih =>
      intro acc d h hl
      rw [List.foldl_cons]
      refine ih _ d ?_ (fun r' hr' => hl r' (List.mem_cons_of_mem r hr'))
      rw [dispatch_fst]
      exact gp_dispatch acc.1 d h r (hl r (List.mem_cons_self r t))

lemma gp_phase23 (s : PrefetchSystem) (h : goodParts s.pf s.dma) :
    goodParts s.phase23.pf s.phase23.dma := by
  unfold PrefetchSystem.phase23
  cases hip : s.pf.issue_prefetches s.dma with
  | mk pf pr =>
  cases pr with
  | mk dma issued =>
  simp only [DMAEngine.collect_completed]
  have hkey : goodParts pf dma := by
    have h2 := gp_issueLoop s.pf.prefetch_queue.length s.pf s.dma [] h
    have h3 : s.pf.issue_prefetches s.dma =
        SplitPrefetcher.issueLoop s.pf.prefetch_queue.length s.pf s.dma [] := rfl
    rw [h3] at hip
    rw [hip] at h2
    exact h2
  have hsc : dma.step.completed = dma.completed ++
      (dma.inflight.filter (DMAEngine.reqDone (dma.cycle + 1))).map
        (fun p => p.2) := rfl
  have hsi : dma.step.inflight = dma.inflight.filter
      (fun p => ! DMAEngine.reqDone (dma.cycle + 1) p) := rfl
  have hg3 : goodParts pf { dma.step with completed := [] } := by
    refine ⟨hkey.vld, hkey.pbound, hkey.tmap, hkey.qpend, hkey.qnodup,
      hkey.tuniq, hkey.tlt, ?_, ?_, ?_, rfl⟩
    · intro q hq id h1
      have hq2 : q ∈ dma.inflight := by
        have : q ∈ dma.step.inflight := hq
        rw [hsi] at this
        exact (List.mem_filter.mp this).1
      exact hkey.wmap q hq2 id h1
    · intro q hq
      have hq2 : q ∈ dma.inflight := by
        have : q ∈ dma.step.inflight := hq
        rw [hsi] at this
        exact (List.mem_filter.mp this).1
      exact hkey.rtag q hq2
    · show ((dma.step.inflight).map (fun q => q.1)).Nodup
      rw [hsi]
      exact List.Nodup.sublist
        (List.Sublist.map _ (List.filter_sublist dma.inflight)) hkey.rnodup
  have hdisj : ∀ r ∈ dma.step.completed,
      ∀ q ∈ ({ dma.step with completed := [] } : DMAEngine).inflight,
        q.1 ≠ r.tag := by
    intro r hr q hq1
    rw [hsc, hkey.cempty, List.nil_append] at hr
    obtain ⟨q0, hq0mem, hq0eq⟩ := List.mem_map.mp hr
    have hq0in : q0 ∈ dma.inflight := (List.mem_filter.mp hq0mem).1
    have hq0done := (List.mem_filter.mp hq0mem).2
    have hq1f : q ∈ dma.inflight.filter
        (fun p => ! DMAEngine.reqDone (dma.cycle + 1) p) := by
      have : q ∈ dma.step.inflight := hq1
      rw [hsi] at this
      exact this
    have hqin := (List.mem_filter.mp hq1f).1
    have hqnd := (List.mem_filter.mp hq1f).2
    intro heq
    have hrt : r.tag = q0.1 := by
      rw [← hq0eq]
      exact (hkey.rtag q0 hq0in).1
    have hkq : q.1 = q0.1 := heq.trans hrt
    have hqq0 : q = q0 := nodup_map_inj _ _ hkey.rnodup q hqin q0 hq0in hkq
    rw [hqq0, hq0done] at hqnd
    exact absurd hqnd (by decide)
  cases hf : dma.step.completed.foldl PrefetchSystem.dispatchCompleted
      (pf, s.ready) with
  | mk pf2 ready2 =>
  simp only
  have hfold := gp_dispatch_foldl dma.step.completed (pf, s.ready)
    { dma.step with completed := [] } hg3 hdisj
  rw [hf] at hfold
  exact hfold

lemma find_filter_none (m : List (Nat × Nat)) (t : Nat) :
    (m.filter (fun q => decide (q.1 ≠ t))).find?
      (fun q => decide (q.1 = t)) = none := by
  rw [List.find?_eq_none]
  intro x hx
  have h2 := (List.mem_filter.mp hx).2
  simp only [decide_eq_true_eq] at h2 ⊢
  exact h2

lemma onCompleted_none (pf : SplitPrefetcher) (r : DMARequest)
    (hfind : pf.tag_to_entry.find? (fun q => decide (q.1 = r.tag)) = none) :
    pf.on_dma_completed r = pf := by
  unfold SplitPrefetcher.on_dma_completed
  rw [hfind]

lemma onCompleted_t2e_some (pf : SplitPrefetcher) (r : DMARequest)
    (m : Nat × Nat)
    (hfind : pf.tag_to_entry.find? (fun q => decide (q.1 = r.tag)) = some m) :
    (pf.on_dma_completed r).tag_to_entry =
      pf.tag_to_entry.filter (fun q => decide (q.1 ≠ r.tag)) := by
  unfold SplitPrefetcher.on_dma_completed
  rw [hfind]
  rfl

lemma onCompleted_getEntry_some (pf : SplitPrefetcher) (r : DMARequest)
    (m : Nat × Nat)
    (hfind : pf.tag_to_entry.find? (fun q => decide (q.1 = r.tag)) = some m) :
    ∀ id, (pf.on_dma_completed r).getEntry id =
      if id = m.2 ∧ m.2 < pf.store.length then
        { pf.getEntry m.2 with status := "done" } else pf.getEntry id := by
  unfold SplitPrefetcher.on_dma_completed
  rw [hfind]
  intro id
  show (pf.store.set m.2 _).getD id default = _
  by_cases hb : m.2 < pf.store.length
  · by_cases hc : id = m.2
    · rw [if_pos ⟨hc, hb⟩, hc]
      exact getD_set_self _ _ _ _ hb
    · rw [if_neg (fun hcc => hc hcc.1)]
      exact getD_set_other _ _ _ (fun hcc => hc hcc.symm)
  · rw [if_neg (fun hcc => hb hcc.2), list_set_oob _ _ _ (le_of_not_lt hb)]
    rfl

lemma onCompleted_tags (pf : SplitPrefetcher) (r : DMARequest) :
    ∀ id, ((pf.on_dma_completed r).getEntry id).tag = (pf.getEntry id).tag := by
  intro id
  cases hfind : pf.tag_to_entry.find? (fun q => decide (q.1 = r.tag)) with
  | none => rw [onCompleted_none pf r hfind]
  | some m =>
      rw [onCompleted_getEntry_some pf r m hfind]
      by_cases hc : id = m.2 ∧ m.2 < pf.store.length
      · rw [if_pos hc, hc.1]
      · rw [if_neg hc]

lemma onCompleted_linked (pf : SplitPrefetcher) (r : DMARequest) :
    ∀ id, ((pf.on_dma_completed r).getEntry id).linked_tiles =
      (pf.getEntry id).linked_tiles := by
  intro id
  cases hfind : pf.tag_to_entry.find? (fun q => decide (q.1 = r.tag)) with
  | none => rw [onCompleted_none pf r hfind]
  | some m =>
      rw [onCompleted_getEntry_some pf r m hfind]
      by_cases hc : id = m.2 ∧ m.2 < pf.store.length
      · rw [if_pos hc, hc.1]
      · rw [if_neg hc]

lemma hitL_onCompleted (g : Nat) (pf : SplitPrefetcher) (r : DMARequest)
    (hL : ∀ id, g ∈ (pf.getEntry id).linked_tiles →
      (pf.getEntry id).status = "done") :
    ∀ id, g ∈ ((pf.on_dma_completed r).getEntry id).linked_tiles →
      ((pf.on_dma_completed r).getEntry id).status = "done" := by
  intro id
  cases hfind : pf.tag_to_entry.find? (fun q => decide (q.1 = r.tag)) with
  | none =>
      rw [onCompleted_none pf r hfind]
      exact hL id
  | some m =>
      rw [onCompleted_getEntry_some pf r m hfind]
      by_cases hc : id = m.2 ∧ m.2 < pf.store.length
      · rw [if_pos hc]
        intro hgl
        rfl
      · rw [if_neg hc]
        exact hL id

lemma dispatch_snd (acc : SplitPrefetcher × List (Nat × Nat))
    (req : DMARequest) :
    (PrefetchSystem.dispatchCompleted acc req).2 = acc.2 ∨
    ∃ id, (acc.1.on_dma_completed req).entryForCompleted req = some id ∧
      (PrefetchSystem.dispatchCompleted acc req).2 =
        ((acc.1.on_dma_completed req).getEntry id).linked_tiles.foldl
          PrefetchSystem.flipReady acc.2 := by
  unfold PrefetchSystem.dispatchCompleted
  simp only
  cases hefc : (acc.1.on_dma_completed req).entryForCompleted req with
  | none => exact Or.inl rfl
  | some id =>
      simp only
      by_cases href : (((acc.1.on_dma_completed req).getEntry
          id).request_type == "reference") = true
      · rw [if_pos href]
        exact Or.inr ⟨id, rfl, rfl⟩
      · rw [if_neg href]
        exact Or.inl rfl

lemma hitR_dispatch (g : Nat) (pf : SplitPrefetcher) (d : DMAEngine)
    (ready : List (Nat × Nat)) (h : goodParts pf d) (r : DMARequest)
    (hw : ∀ id, (pf.getEntry id).tag = some r.tag →
      (r.tag, id) ∈ pf.tag_to_entry)
    (hL : ∀ id, g ∈ (pf.getEntry id).linked_tiles →
      (pf.getEntry id).status = "done")
    (hR : dictGet ready g = some 0) :
    dictGet (PrefetchSystem.dispatchCompleted (pf, ready) r).2 g = some 0 := by
  rcases dispatch_snd (pf, ready) r with heq | ⟨id0, hefc, heq⟩
  · rw [heq]
    exact hR
  · simp only at hefc heq
    rw [heq]
    cases hfind : pf.tag_to_entry.find? (fun q => decide (q.1 = r.tag)) with
    | none =>
        rw [onCompleted_none pf r hfind] at hefc
        unfold SplitPrefetcher.entryForCompleted at hefc
        rw [hfind] at hefc
        simp only at hefc
        have hid0 := List.find?_some hefc
        have hid0t : (pf.getEntry id0).tag = some r.tag := by
          simpa using hid0
        have hfmem := hefc
        have hmem := hw id0 hid0t
        have hnone := List.find?_eq_none.mp hfind _ hmem
        simp at hnone
    | some m =>
        have hmkey : m.1 = r.tag := by
          have := List.find?_some hfind
          simpa using this
        have hmem := List.mem_of_find?_eq_some hfind
        obtain ⟨hb, hstInf, htag⟩ := h.tmap m hmem
        unfold SplitPrefetcher.entryForCompleted at hefc
        rw [onCompleted_t2e_some pf r m hfind, find_filter_none] at hefc
        simp only at hefc
        have hid0 := List.find?_some hefc
        have hid0t : ((pf.on_dma_completed r).getEntry id0).tag =
            some r.tag := by
          simpa using hid0
        rw [onCompleted_tags] at hid0t
        have hm2t : (pf.getEntry m.2).tag = some r.tag := by
          rw [htag, hmkey]
        have hid0m : id0 = m.2 := h.tuniq id0 m.2 r.tag hid0t hm2t
        rw [onCompleted_linked, hid0m]
        have hgnl : g ∉ (pf.getEntry m.2).linked_tiles := by
          intro hcc
          have := hL m.2 hcc
          rw [hstInf] at this
          exact absurd this (by decide)
        rw [flip_foldl_ne g _ ready hgnl]
        exact hR

lemma hitLR_dispatch_foldl (g : Nat) : ∀ (l : List DMARequest)
    (acc : SplitPrefetcher × List (Nat × Nat)) (d : DMAEngine),
    goodParts acc.1 d →
    (∀ r ∈ l, ∀ q ∈ d.inflight, q.1 ≠ r.tag) →
    (∀ r ∈ l, ∀ id, (acc.1.getEntry id).tag = some r.tag →
      (r.tag, id) ∈ acc.1.tag_to_entry) →
    (l.map (fun r => r.tag)).Nodup →
    (∀ id, g ∈ (acc.1.getEntry id).linked_tiles →
      (acc.1.getEntry id).status = "done") →
    dictGet acc.2 g = some 0 →
    (∀ id, g ∈ ((l.foldl PrefetchSystem.dispatchCompleted
        acc).1.getEntry id).linked_tiles →
      ((l.foldl PrefetchSystem.dispatchCompleted acc).1.getEntry id).status =
        "done") ∧
    dictGet (l.foldl PrefetchSystem.dispatchCompleted acc).2 g = some 0 := by
  intro l
  induction l with
  | nil => exact fun acc d _ _ _ _ hL hR => ⟨hL, hR⟩
  | cons r t ih =>
      intro acc d h hnin hw hnd hL hR
      rw [List.foldl_cons]
      have hstep1 : (PrefetchSystem.dispatchCompleted acc r).1 =
          acc.1.on_dma_completed r := dispatch_fst acc r
      have hgp2 : goodParts (PrefetchSystem.dispatchCompleted acc r).1 d := by
        rw [hstep1]
        exact gp_dispatch acc.1 d h r (hnin r (List.mem_cons_self r t))
      have hL2 : ∀ id, g ∈ ((PrefetchSystem.dispatchCompleted
          acc r).1.getEntry id).linked_tiles →
          ((PrefetchSystem.dispatchCompleted acc r).1.getEntry id).status =
            "done" := by
        rw [hstep1]
        exact hitL_onCompleted g acc.1 r hL
      have hR2 : dictGet (PrefetchSystem.dispatchCompleted acc r).2 g =
          some 0 := by
        have := hitR_dispatch g acc.1 d acc.2 h r
          (hw r (List.mem_cons_self r t)) hL hR
        exact this
      have hw2 : ∀ r' ∈ t, ∀ id,
          ((PrefetchSystem.dispatchCompleted acc r).1.getEntry id).tag =
            some r'.tag →
          (r'.tag, id) ∈ (PrefetchSystem.dispatchCompleted
            acc r).1.tag_to_entry := by
        intro r' hr' id h1
        rw [hstep1] at h1 ⊢
        rw [onCompleted_tags] at h1
        have hmem := hw r' (List.mem_cons_of_mem r hr') id h1
        cases hfind : acc.1.tag_to_entry.find?
            (fun q => decide (q.1 = r.tag)) with
        | none =>
            rw [onCompleted_none _ _ hfind]
            exact hmem
        | some m =>
            rw [onCompleted_t2e_some _ _ m hfind]
            refine List.mem_filter.mpr ⟨hmem, ?_⟩
            simp only [decide_eq_true_eq]
            rw [List.map_cons, List.nodup_cons] at hnd
            intro hcc
            exact hnd.1 (hcc ▸ List.mem_map_of_mem (fun r'' => r''.tag) hr')
      have hnd2 : (t.map (fun r'' => r''.tag)).Nodup := by
        rw [List.map_cons, List.nodup_cons] at hnd
        exact hnd.2
      exact ih (PrefetchSystem.dispatchCompleted acc r) d hgp2
        (fun r' hr' => hnin r' (List.mem_cons_of_mem r hr')) hw2 hnd2 hL2 hR2

lemma hitL_set (g : Nat) (p : SplitPrefetcher) (id : Nat) (e : PTEntry)
    (hL : ∀ i, g ∈ (p.getEntry i).linked_tiles →
      (p.getEntry i).status = "done")
    (he : g ∈ e.linked_tiles → e.status = "done") :
    ∀ i, g ∈ ((p.setEntry id e).getEntry i).linked_tiles →
      ((p.setEntry id e).getEntry i).status = "done" := by
  intro i
  rw [SplitPrefetcher.getEntry_set]
  by_cases hc : i = id ∧ id < p.store.length
  · rw [if_pos hc]
    exact he
  · rw [if_neg hc]
    exact hL i

lemma hitL_issueLoop (g : Nat) : ∀ (fuel : Nat) (p : SplitPrefetcher)
    (d : DMAEngine) (acc : List (Nat × Nat)), goodParts p d →
    (∀ i, g ∈ (p.getEntry i).linked_tiles → (p.getEntry i).status = "done") →
    ∀ i, g ∈ ((SplitPrefetcher.issueLoop fuel p d acc).1.getEntry
        i).linked_tiles →
      ((SplitPrefetcher.issueLoop fuel p d acc).1.getEntry i).status =
        "done" := by
  intro fuel
  induction fuel with
  | zero => exact fun p d acc _ hL => hL
  | succ n ih =>
    intro p d acc h hL
    unfold SplitPrefetcher.issueLoop
    cases hq : p.prefetch_queue with
    | nil => exact hL
    | cons id rest =>
      simp only
      by_cases hout : d.outstanding_count < p.max_outstanding
      · rw [if_pos hout]
        have hpend := (h.qpend id (hq ▸ List.mem_cons_self id rest)).2
        have he : g ∈ ({ p.getEntry id with
            status := "inflight",
            tag := some d.next_tag } : PTEntry).linked_tiles →
            ({ p.getEntry id with
               status := "inflight",
               tag := some d.next_tag } : PTEntry).status = "done" := by
          intro hgl
          have hx := hL id hgl
          rw [hpend] at hx
          exact absurd hx (by decide)
        exact ih _ _ _ (gp_issueStep p d h id rest hq)
          (hitL_set g { p with prefetch_queue := rest } id _ hL he)
      · rw [if_neg hout]
        exact hL

lemma allocNew_getEntry (p : SplitPrefetcher) (b l : Nat)
    (db : List (Nat × Nat)) (ty : String)
    (hv : ∀ e ∈ p.store, e.valid = true)
    (hpb : ∀ id ∈ p.ptable, id < p.store.length) :
    ∀ id, (SplitPrefetcher.coalesce_allocNew p b l db ty).2.getEntry id =
      if id = p.store.length then
        ({ SplitPrefetcher.mkEntry b l ty with
           dest_banks := db, linked_tiles := [], status := "pending" })
      else p.getEntry id := by
  obtain ⟨hid, hst, hpt, hq, hte⟩ :=
    SplitPrefetcher.allocate_char p b l ty hv hpb
  have hgetA : (p.allocate_ptable b l ty).2.getEntry
      (p.allocate_ptable b l ty).1 = SplitPrefetcher.mkEntry b l ty := by
    unfold SplitPrefetcher.getEntry
    rw [hst, hid]
    exact getD_append_self _ _ _
  rw [SplitPrefetcher.allocNew_eq]
  intro id
  show ((p.allocate_ptable b l ty).2.store.set
    (p.allocate_ptable b l ty).1 _).getD id default = _
  rw [hgetA, hst, hid, set_append_last]
  by_cases hc : id = p.store.length
  · rw [if_pos hc, hc]
    exact getD_append_self _ _ _
  · rw [if_neg hc]
    rcases Nat.lt_or_ge id p.store.length with hlt | hge
    · exact getD_append_lt _ _ _ _ hlt
    · have hgt : p.store.length < id := lt_of_le_of_ne hge (Ne.symm hc)
      show _ = p.store.getD id default
      rw [List.getD_eq_default _ _
          (by simp only [List.length_append, List.length_singleton]; omega),
        List.getD_eq_default _ _ (by omega)]

lemma hitL_coalesce (g : Nat) (p : SplitPrefetcher) (d : DMAEngine)
    (h : goodParts p d) (base length : Nat) (db : List (Nat × Nat))
    (ty : String)
    (hL : ∀ i, g ∈ (p.getEntry i).linked_tiles →
      (p.getEntry i).status = "done") :
    ∀ i, g ∈ ((p.coalesce_enqueue base length db ty).2.getEntry
        i).linked_tiles →
      ((p.coalesce_enqueue base length db ty).2.getEntry i).status =
        "done" := by
  have hce : p.coalesce_enqueue base length db ty =
      SplitPrefetcher.coalesce_core
        { p with requests_total := p.requests_total + 1 }
        (({ p with requests_total := p.requests_total + 1
          } : SplitPrefetcher).align base length).1
        (({ p with requests_total := p.requests_total + 1
          } : SplitPrefetcher).align base length).2 db ty := rfl
  rw [hce]
  rcases SplitPrefetcher.coalesce_core_cases
      { p with requests_total := p.requests_total + 1 }
      (({ p with requests_total := p.requests_total + 1
        } : SplitPrefetcher).align base length).1
      (({ p with requests_total := p.requests_total + 1
        } : SplitPrefetcher).align base length).2 db ty with
    ⟨id, hld, heq⟩ | ⟨hld, id, hpo, heq⟩ | ⟨hld, hpo, tailId, htl, heq⟩ |
    ⟨hld, hpo, heq⟩
  · rw [heq]
    exact hL
  · rw [heq]
    exact hitL_set g _ id _ hL (hL id)
  · rw [heq]
    exact hitL_set g _ tailId _ hL (hL tailId)
  · rw [heq]
    intro i
    rw [allocNew_getEntry { p with requests_total := p.requests_total + 1 }
      (({ p with requests_total := p.requests_total + 1
        } : SplitPrefetcher).align base length).1
      (({ p with requests_total := p.requests_total + 1
        } : SplitPrefetcher).align base length).2 db ty h.vld h.pbound]
    by_cases hc : i = ({ p with requests_total := p.requests_total + 1
        } : SplitPrefetcher).store.length
    · rw [if_pos hc]
      intro hgl
      exact absurd hgl (List.not_mem_nil g)
    · rw [if_neg hc]
      exact hL i

lemma submit_ready_eq (s : PrefetchSystem) (gid base length : Nat)
    (db : List (Nat × Nat)) :
    (s.submit gid base length db).1.ready = dictSet s.ready gid 0 := rfl

lemma psHitInv_submit_ne (g : Nat) (s : PrefetchSystem) (h : psHitInv g s)
    (gid base length : Nat) (db : List (Nat × Nat)) (hne : gid ≠ g) :
    psHitInv g (s.submit gid base length db).1 := by
  obtain ⟨hgp, hR, hL⟩ := h
  refine ⟨gp_submit s hgp gid base length db, ?_, ?_⟩
  · rw [submit_ready_eq, dictGet_dictSet_ne s.ready gid 0 g hne]
    exact hR
  · unfold PrefetchSystem.submit
    cases hce : s.pf.coalesce_enqueue base length db "reference" with
    | mk id cpf =>
      simp only
      have hLc : ∀ i, g ∈ (cpf.getEntry i).linked_tiles →
          (cpf.getEntry i).status = "done" := by
        have h2 := hitL_coalesce g s.pf s.dma hgp base length db "reference" hL
        rw [hce] at h2
        exact h2
      split
      · exact hLc
      · refine hitL_set g cpf id _ hLc ?_
        intro hgl
        have hgl2 : g ∈ (cpf.getEntry id).linked_tiles ++ [gid] := hgl
        rcases List.mem_append.mp hgl2 with hgl3 | hgl3
        · exact hLc id hgl3
        · simp only [List.mem_singleton] at hgl3
          exact absurd hgl3.symm hne

lemma psHitInv_phase23 (g : Nat) (s : PrefetchSystem) (h : psHitInv g s) :
    psHitInv g s.phase23 := by
  obtain ⟨hgp, hR, hL⟩ := h
  have hmain : (∀ id, g ∈ (s.phase23.pf.getEntry id).linked_tiles →
      (s.phase23.pf.getEntry id).status = "done") ∧
      dictGet s.phase23.ready g = some 0 := by
    unfold PrefetchSystem.phase23
    cases hip : s.pf.issue_prefetches s.dma with
    | mk pf pr =>
    cases pr with
    | mk dma issued =>
    simp only [DMAEngine.collect_completed]
    have h3 : s.pf.issue_prefetches s.dma =
        SplitPrefetcher.issueLoop s.pf.prefetch_queue.length s.pf s.dma [] :=
      rfl
    have hkey : goodParts pf dma := by
      have h2 := gp_issueLoop s.pf.prefetch_queue.length s.pf s.dma [] hgp
      rw [h3] at hip
      rw [hip] at h2
      exact h2
    have hLmid : ∀ i, g ∈ (pf.getEntry i).linked_tiles →
        (pf.getEntry i).status = "done" := by
      have h2 := hitL_issueLoop g s.pf.prefetch_queue.length s.pf s.dma []
        hgp hL
      rw [h3] at hip
      rw [hip] at h2
      exact h2
    have hsc : dma.step.completed = dma.completed ++
        (dma.inflight.filter (DMAEngine.reqDone (dma.cycle + 1))).map
          (fun p => p.2) := rfl
    have hsi : dma.step.inflight = dma.inflight.filter
        (fun p => ! DMAEngine.reqDone (dma.cycle + 1) p) := rfl
    have hg3 : goodParts pf { dma.step with completed := [] } := by
      refine ⟨hkey.vld, hkey.pbound, hkey.tmap, hkey.qpend, hkey.qnodup,
        hkey.tuniq, hkey.tlt, ?_, ?_, ?_, rfl⟩
      · intro q hq id h1
        have hq2 : q ∈ dma.inflight := by
          have hx : q ∈ dma.step.inflight := hq
          rw [hsi] at hx
          exact (List.mem_filter.mp hx).1
        exact hkey.wmap q hq2 id h1
      · intro q hq
        have hq2 : q ∈ dma.inflight := by
          have hx : q ∈ dma.step.inflight := hq
          rw [hsi] at hx
          exact (List.mem_filter.mp hx).1
        exact hkey.rtag q hq2
      · show ((dma.step.inflight).map (fun q => q.1)).Nodup
        rw [hsi]
        exact List.Nodup.sublist
          (List.Sublist.map _ (List.filter_sublist dma.inflight)) hkey.rnodup
    have hdisj : ∀ r ∈ dma.step.completed,
        ∀ q ∈ ({ dma.step with completed := [] } : DMAEngine).inflight,
          q.1 ≠ r.tag := by
      intro r hr q hq1
      rw [hsc, hkey.cempty, List.nil_append] at hr
      obtain ⟨q0, hq0mem, hq0eq⟩ := List.mem_map.mp hr
      have hq0in : q0 ∈ dma.inflight := (List.mem_filter.mp hq0mem).1
      have hq0done := (List.mem_filter.mp hq0mem).2
      have hq1f : q ∈ dma.inflight.filter
          (fun p => ! DMAEngine.reqDone (dma.cycle + 1) p) := by
        have hx : q ∈ dma.step.inflight := hq1
        rw [hsi] at hx
        exact hx
      have hqin := (List.mem_filter.mp hq1f).1
      have hqnd := (List.mem_filter.mp hq1f).2
      intro heq
      have hrt : r.tag = q0.1 := by
        rw [← hq0eq]
        exact (hkey.rtag q0 hq0in).1
      have hkq : q.1 = q0.1 := heq.trans hrt
      have hqq0 : q = q0 := nodup_map_inj _ _ hkey.rnodup q hqin q0 hq0in hkq
      rw [hqq0, hq0done] at hqnd
      exact absurd hqnd (by decide)
    have hw : ∀ r ∈ dma.step.completed, ∀ id,
        (pf.getEntry id).tag = some r.tag →
        (r.tag, id) ∈ pf.tag_to_entry := by
      intro r hr id h1
      rw [hsc, hkey.cempty, List.nil_append] at hr
      obtain ⟨q0, hq0mem, hq0eq⟩ := List.mem_map.mp hr
      have hq0in : q0 ∈ dma.inflight := (List.mem_filter.mp hq0mem).1
      have hrt : r.tag = q0.1 := by
        rw [← hq0eq]
        exact (hkey.rtag q0 hq0in).1
      rw [hrt] at h1 ⊢
      exact hkey.wmap q0 hq0in id h1
    have hnd : (dma.step.completed.map (fun r => r.tag)).Nodup := by
      rw [hsc, hkey.cempty, List.nil_append, List.map_map]
      have hcongr : (dma.inflight.filter
          (DMAEngine.reqDone (dma.cycle + 1))).map
            ((fun r => r.tag) ∘ (fun p => p.2)) =
          (dma.inflight.filter (DMAEngine.reqDone (dma.cycle + 1))).map
            (fun p => p.1) := by
        apply List.map_congr_left
        intro q hq
        exact (hkey.rtag q ((List.mem_filter.mp hq).1)).1
      rw [hcongr]
      exact List.Nodup.sublist
        (List.Sublist.map _ (List.filter_sublist dma.inflight)) hkey.rnodup
    cases hf : dma.step.completed.foldl PrefetchSystem.dispatchCompleted
        (pf, s.ready) with
    | mk pf2 ready2 =>
    simp only
    have hfold := hitLR_dispatch_foldl g dma.step.completed (pf, s.ready)
      { dma.step with completed := [] } hg3 hdisj hw hnd hLmid hR
    rw [hf] at hfold
    exact ⟨hfold.1, hfold.2⟩
  exact ⟨gp_phase23 s hgp, hmain.2, hmain.1⟩

lemma psHitInv_step (g : Nat) (s t : PrefetchSystem) (hst : PSStep g s t)
    (h : psHitInv g s) : psHitInv g t := by
  rcases hst with ⟨gid, base, length, db, hne, rfl⟩ | rfl
  · exact psHitInv_submit_ne g s h gid base length db hne
  · exact psHitInv_phase23 g s h

lemma psHitInv_steps (g : Nat) (s t : PrefetchSystem) (hst : PSSteps g s t)
    (h : psHitInv g s) : psHitInv g t := by
  induction hst with
  | refl => exact h
  | tail hab hbc ih => exact psHitInv_step g _ _ hbc ih

lemma gp_init (mo pe cb da dl bw : Nat) :
    goodParts (PrefetchSystem.init mo pe cb da dl bw).pf
      (PrefetchSystem.init mo pe cb da dl bw).dma := by
  constructor
  · intro e he
    exact absurd he (List.not_mem_nil e)
  · intro i hi
    exact absurd hi (List.not_mem_nil i)
  · intro m hm
    exact absurd hm (List.not_mem_nil m)
  · intro i hi
    exact absurd hi (List.not_mem_nil i)
  · exact List.nodup_nil
  · intro id1 id2 t h1 h2
    exact absurd h1 (by
      simp [SplitPrefetcher.getEntry, SplitPrefetcher.init,
        PrefetchSystem.init])
  · intro id t h1
    exact absurd h1 (by
      simp [SplitPrefetcher.getEntry, SplitPrefetcher.init,
        PrefetchSystem.init])
  · intro q hq
    exact absurd hq (List.not_mem_nil q)
  · intro q hq
    exact absurd hq (List.not_mem_nil q)
  · exact List.nodup_nil
  · rfl

lemma psHitInv_establish (g : Nat) (s : PrefetchSystem)
    (hgp : goodParts s.pf s.dma)
    (hfresh : ∀ id, g ∉ (s.pf.getEntry id).linked_tiles)
    (base length : Nat) (db : List (Nat × Nat)) (id0 : Nat)
    (hhit : s.pf.lookup_done (s.pf.align base length).1
      (s.pf.align base length).2 "reference" = some id0) :
    psHitInv g (s.submit g base length db).1 := by
  have hhitB : ({ s.pf with requests_total := s.pf.requests_total + 1
      } : SplitPrefetcher).lookup_done
      (({ s.pf with requests_total := s.pf.requests_total + 1
        } : SplitPrefetcher).align base length).1
      (({ s.pf with requests_total := s.pf.requests_total + 1
        } : SplitPrefetcher).align base length).2 "reference" = some id0 :=
    hhit
  have hce : s.pf.coalesce_enqueue base length db "reference" =
      (id0, { s.pf with
              requests_total := s.pf.requests_total + 1,
              requests_hits := s.pf.requests_hits + 1 }) := by
    rcases SplitPrefetcher.coalesce_core_cases
        { s.pf with requests_total := s.pf.requests_total + 1 }
        (({ s.pf with requests_total := s.pf.requests_total + 1
          } : SplitPrefetcher).align base length).1
        (({ s.pf with requests_total := s.pf.requests_total + 1
          } : SplitPrefetcher).align base length).2 db "reference" with
      ⟨id1, hld, heq⟩ | ⟨hld, hrest⟩ | ⟨hld, hrest⟩ | ⟨hld, hrest⟩
    · have hid1 : id1 = id0 := Option.some.inj (hld.symm.trans hhitB)
      rw [hid1] at heq
      exact heq
    · exact Option.noConfusion (hld.symm.trans hhitB)
    · exact Option.noConfusion (hld.symm.trans hhitB)
    · exact Option.noConfusion (hld.symm.trans hhitB)
  have hdone : (s.pf.getEntry id0).status = "done" := by
    have hpred := List.find?_some hhit
    simp only [Bool.and_eq_true, beq_iff_eq, decide_eq_true_eq] at hpred
    exact hpred.1.1.2
  refine ⟨gp_submit s hgp g base length db, ?_, ?_⟩
  · rw [submit_ready_eq, dictGet_dictSet_self]
  · unfold PrefetchSystem.submit
    rw [hce]
    simp only
    rw [if_neg (show g ∉ (({ s.pf with
        requests_total := s.pf.requests_total + 1,
        requests_hits := s.pf.requests_hits + 1
      } : SplitPrefetcher).getEntry id0).linked_tiles from hfresh id0)]
    refine hitL_set g _ id0 _ ?_ ?_
    · intro i hgl
      exact absurd hgl (hfresh i)
    · intro hgl
      exact hdone

lemma consPhase_no_pop (sim : Simulator) (u tid : Nat)
    (hpeek : (sim.fifos.getD u default).peek = some tid)
    (href : (sim.tile_store.getD tid default).reference_ready = false) :
    (sim.consPhase u).consLog = sim.consLog := by
  unfold Simulator.consPhase
  simp only
  split
  · rw [hpeek]
    simp only
    have hcond : ((sim.tile_store.getD tid default).motion_ready &&
        (sim.tile_store.getD tid default).reference_ready) = false := by
      rw [href, Bool.and_false]
    rw [hcond, if_neg (by decide)]
  · rfl

/-- C10: when a tile's reference-region submission hits an already-done
prefetch-table entry (`lookup_done` succeeds), no interleaving of later
submissions of other tiles and step phases ever sets that tile's
`reference_ready` flag (its registry entry stays `0`); and in the full
simulator the consumer never pops a FIFO whose head tile has
`reference_ready = false`, so such a tile is never consumed.  The initial
state must be well formed and the tile's gid fresh, as holds in every run
because producers hand out strictly increasing gids. -/
theorem C10_hit_reference_never_ready (g : Nat) (s : PrefetchSystem)
    (hgp : goodParts s.pf s.dma)
    (hfresh : ∀ id, g ∉ (s.pf.getEntry id).linked_tiles)
    (base length : Nat) (db : List (Nat × Nat)) (id0 : Nat)
    (hhit : s.pf.lookup_done (s.pf.align base length).1
      (s.pf.align base length).2 "reference" = some id0) :
    (∀ t, PSSteps g (s.submit g base length db).1 t →
      dictGet t.ready g = some 0) ∧
    (∀ (sim : Simulator) (u tid : Nat),
      (sim.fifos.getD u default).peek = some tid →
      (sim.tile_store.getD tid default).reference_ready = false →
      (sim.consPhase u).consLog = sim.consLog) := by
  constructor
  · intro t hsteps
    exact (psHitInv_steps g _ t hsteps
      (psHitInv_establish g s hgp hfresh base length db id0 hhit)).2.1
  · exact fun sim u tid hpeek href => consPhase_no_pop sim u tid hpeek href

/-- Witness for C10: submitting a second tile (gid 2) over the same 64-byte
region after the first prefetch completed is a hit, and one further step
phase leaves its readiness flag at `0`; the one-slot full-FIFO simulator
state with a not-ready head tile pops nothing. -/
theorem C10_hit_reference_never_ready_witness :
    dictGet (((((PrefetchSystem.init 8 64 16384 4096 0 4096).submit 1 0 64
        [(0, 0)]).1.phase23).submit 2 0 64 [(0, 0)]).1.phase23).ready 2 =
      some 0 ∧
    (c8State.consPhase 0).consLog = c8State.consLog := by
  have hmain := C10_hit_reference_never_ready 2
    (((PrefetchSystem.init 8 64 16384 4096 0 4096).submit 1 0 64
      [(0, 0)]).1.phase23)
    (gp_phase23 _ (gp_submit (PrefetchSystem.init 8 64 16384 4096 0 4096)
      (gp_init 8 64 16384 4096 0 4096) 1 0 64 [(0, 0)]))
    (by
      intro id
      cases id with
      | zero => decide
      | succ n =>
          show (2 : Nat) ∉ (((((PrefetchSystem.init 8 64 16384 4096 0
            4096).submit 1 0 64 [(0, 0)]).1.phase23).pf.store.getD (n + 1)
            default)).linked_tiles
          rw [List.getD_eq_default]
          · decide
          · have hlen : ((((PrefetchSystem.init 8 64 16384 4096 0
                4096).submit 1 0 64 [(0, 0)]).1.phase23).pf.store).length =
                1 := by decide
            omega)
    0 64 [(0, 0)] 0 (by decide)
  refine ⟨hmain.1 _ (Relation.ReflTransGen.single (Or.inr rfl)), ?_⟩
  exact hmain.2 c8State 0 0 (by decide) (by decide)

/-! ## Helper lemmas for the full-simulator invariant (claims C2 and C6) -/

lemma getD_set_cases {α : Type} (l : List α) (i j : Nat) (a d : α) :
    (l.set i a).getD j d = if j = i ∧ i < l.length then a else l.getD j d := by
  by_cases hb : i < l.length
  · by_cases hc : j = i
    · rw [if_pos ⟨hc, hb⟩, hc]
      exact getD_set_self _ _ _ _ hb
    · rw [if_neg (fun hx => hc hx.1)]
      exact getD_set_other _ _ _ (fun hx => hc hx.symm)
  · rw [if_neg (fun hx => hb hx.2), list_set_oob _ _ _ (le_of_not_lt hb)]

lemma producer_step_tile (p : ProducerSFTM) (rng : List Int)
    (hact : ∀ t0, p.active_tile = some t0 → t0.reference_ready = false) :
    (∀ t c2 m2, (p.step rng).1 = some (t, c2, m2) →
      t.reference_ready = false) ∧
    (∀ t0, ((p.step rng).2.1).active_tile = some t0 →
      t0.reference_ready = false) := by
  unfold ProducerSFTM.step
  cases hat : p.active_tile with
  | some t =>
      simp only
      split
      · constructor
        · intro t' c2 m2 he
          exact absurd he (by simp)
        · intro t0 h0
          exact hact t0 (hat ▸ h0)
      · constructor
        · intro t' c2 m2 he
          simp only [Option.some.injEq, Prod.mk.injEq] at he
          have ht' : t' = { t with sftm_done := true, motion_ready := true } :=
            he.1.symm
          rw [ht']
          show t.reference_ready = false
          exact hact t hat
        · intro t0 h0
          exact absurd h0 (by simp)
  | none =>
      simp only
      split
      · constructor
        · intro t' c2 m2 he
          exact absurd he (by simp)
        · intro t0 h0
          exact absurd h0 (by simp [hat])
      · split
        · constructor
          · intro t' c2 m2 he
            exact absurd he (by simp)
          · intro t0 h0
            simp only [Option.some.injEq] at h0
            rw [← h0]
        · constructor
          · intro t' c2 m2 he
            exact absurd he (by simp)
          · intro t0 h0
            exact absurd h0 (by simp [hat])

lemma push_queue_cases (f : BankedGroupFIFO) (tid gid : Nat) :
    (f.push tid gid).1.queue = f.queue ++ [tid] ∨
      (f.push tid gid).1.queue = f.queue := by
  unfold BankedGroupFIFO.push
  simp only
  split
  · exact Or.inr rfl
  · split
    · exact Or.inr rfl
    · exact Or.inl rfl

lemma pop_of_peek (f : BankedGroupFIFO) (gidOf : Nat → Nat) (tid : Nat)
    (hpeek : f.peek = some tid) :
    (f.pop gidOf).1 = some tid ∧ (f.pop gidOf).2.queue = f.queue.tail := by
  unfold BankedGroupFIFO.peek at hpeek
  unfold BankedGroupFIFO.pop
  cases hq : f.queue with
  | nil =>
      rw [hq] at hpeek
      exact absurd hpeek (by simp)
  | cons hd rest =>
      rw [hq] at hpeek
      simp only [List.head?_cons, Option.some.injEq] at hpeek
      simp only
      constructor
      · show some hd = some tid
        rw [hpeek]
      · cases (BankedGroupFIFO.dictPop f.tile_to_slot (gidOf hd)).1 with
        | none => rfl
        | some bs =>
            simp only
            split
            · rfl
            · rfl

lemma MidInv_produce_general (c : Nat) (m : Simulator) (h : MidInv c m)
    (u : Nat) (m' : Simulator) (t : TileGroup)
    (htref : t.reference_ready = false)
    (prod2 : List ProducerSFTM)
    (hpact2 : ∀ u' : Nat, ∀ t0, (prod2.getD u' default).active_tile =
      some t0 → t0.reference_ready = false)
    (hcyc : m'.cycle = m.cycle)
    (hdma : m'.dma = m.dma)
    (hstore : m'.tile_store = m.tile_store ++ [t] ∨
      m'.tile_store = (m.tile_store ++ [t]).set m.tile_store.length
        ({ t with bypass_mode := true }))
    (hplog : m'.prodLog = m.prodLog ++ [(m.cycle, m.tile_store.length)])
    (hclog : m'.consLog = m.consLog)
    (hrlog : m'.readyLog = m.readyLog)
    (hprod : m'.producers = prod2)
    (hfifos : m'.fifos = m.fifos ∨
      ∃ fifo2 : BankedGroupFIFO,
        (fifo2.queue = (m.fifos.getD u default).queue ++
            [m.tile_store.length] ∨
          fifo2.queue = (m.fifos.getD u default).queue) ∧
        m'.fifos = m.fifos.set u fifo2) :
    MidInv c m' := by
  have hgetS : ∀ tid', tid' < m.tile_store.length →
      m'.tile_store.getD tid' default = m.tile_store.getD tid' default := by
    intro tid' hb
    rcases hstore with hs1 | hs1 <;> rw [hs1]
    · exact getD_append_lt _ _ _ _ hb
    · rw [getD_set_cases, if_neg (fun hx => absurd (hx.1 ▸ hb) (lt_irrefl _))]
      exact getD_append_lt _ _ _ _ hb
  have hgetN : (m'.tile_store.getD m.tile_store.length
      default).reference_ready = false := by
    rcases hstore with hs1 | hs1 <;> rw [hs1]
    · rw [getD_append_self]
      exact htref
    · rw [getD_set_cases, if_pos ⟨rfl, by
        simp only [List.length_append, List.length_singleton]; omega⟩]
      exact htref
  have hlenS : m'.tile_store.length = m.tile_store.length + 1 := by
    rcases hstore with hs1 | hs1 <;> rw [hs1]
    · rw [List.length_append]
      rfl
    · rw [List.length_set, List.length_append]
      rfl
  have hqmem : ∀ tid', tid' ∈ (m.fifos.getD u default).queue ∨
      tid' = m.tile_store.length →
      tid' < m'.tile_store.length ∧ ∃ cp, (cp, tid') ∈ m'.prodLog ∧
        (cp ≤ c ∨ (m'.tile_store.getD tid' default).reference_ready =
          false) := by
    intro tid' hmem
    rcases hmem with hmem | rfl
    · obtain ⟨hb, cp, hcp, hdisj⟩ := h.mqlog u tid' hmem
      refine ⟨by omega, cp, by rw [hplog]; exact List.mem_append_left _ hcp,
        ?_⟩
      rcases hdisj with hd | hd
      · exact Or.inl hd
      · right
        rw [hgetS tid' hb]
        exact hd
    · refine ⟨by omega, m.cycle, ?_, Or.inr hgetN⟩
      rw [hplog]
      exact List.mem_append_right _ (List.mem_singleton.mpr rfl)
  constructor
  · rw [hcyc]
    exact h.mcyc
  · rw [hdma]
    exact h.mdcyc
  · rw [hdma]
    exact h.mdcomp
  · intro p hp
    rw [hplog] at hp
    rw [hcyc]
    rcases List.mem_append.mp hp with h2 | h2
    · exact h.mplog p h2
    · simp only [List.mem_singleton] at h2
      subst h2
      exact le_refl _
  · intro u' tid' hmem
    rcases hfifos with hf | ⟨fifo2, hq2, hf⟩
    · rw [hf] at hmem
      obtain ⟨hb, cp, hcp, hdisj⟩ := h.mqlog u' tid' hmem
      refine ⟨by omega, cp, by rw [hplog]; exact List.mem_append_left _ hcp,
        ?_⟩
      rcases hdisj with hd | hd
      · exact Or.inl hd
      · right
        rw [hgetS tid' hb]
        exact hd
    · rw [hf, getD_set_cases] at hmem
      by_cases hc : u' = u ∧ u < m.fifos.length
      · rw [if_pos hc] at hmem
        rcases hq2 with hq2 | hq2 <;> rw [hq2] at hmem
        · rcases List.mem_append.mp hmem with h2 | h2
          · exact hqmem tid' (Or.inl h2)
          · simp only [List.mem_singleton] at h2
            exact hqmem tid' (Or.inr h2)
        · exact hqmem tid' (Or.inl hmem)
      · rw [if_neg hc] at hmem
        obtain ⟨hb, cp, hcp, hdisj⟩ := h.mqlog u' tid' hmem
        refine ⟨by omega, cp,
          by rw [hplog]; exact List.mem_append_left _ hcp, ?_⟩
        rcases hdisj with hd | hd
        · exact Or.inl hd
        · right
          rw [hgetS tid' hb]
          exact hd
  · intro p hp
    rw [hclog] at hp
    obtain ⟨cp, hcp, hlt⟩ := h.mclog p hp
    exact ⟨cp, by rw [hplog]; exact List.mem_append_left _ hcp, hlt⟩
  · intro e he
    rw [hrlog] at he
    exact h.mrlog e he
  · intro tid' hflag
    rcases Nat.lt_trichotomy tid' m.tile_store.length with hlt | heq | hgt
    · rw [hgetS tid' hlt] at hflag
      obtain ⟨d, tc, hmem⟩ := h.mrdy tid' hflag
      exact ⟨d, tc, by rw [hrlog]; exact hmem⟩
    · subst heq
      rw [hgetN] at hflag
      exact absurd hflag (by decide)
    · have hoob : m'.tile_store.getD tid' default = default := by
        apply List.getD_eq_default
        omega
      rw [hoob] at hflag
      exact absurd hflag (by decide)
  · intro p hp
    rw [hclog] at hp
    obtain ⟨d, tc, hmem, hdt, htc⟩ := h.mcrdy p hp
    exact ⟨d, tc, by rw [hrlog]; exact hmem, hdt, htc⟩
  · intro u' t0 hat
    rw [hprod] at hat
    exact hpact2 u' t0 hat

lemma MidInv_prodPhase (c : Nat) (m : Simulator) (h : MidInv c m) (u : Nat) :
    MidInv c (m.prodPhase u) := by
  unfold Simulator.prodPhase
  cases hps : (m.producers.getD u default).step m.rng with
  | mk result pr2 =>
  cases pr2 with
  | mk producer2 rng2 =>
  simp only
  rw [hps]
  simp only
  have hstep := producer_step_tile (m.producers.getD u default) m.rng
    (h.mpact u)
  rw [hps] at hstep
  have hpact2 : ∀ u' : Nat, ∀ t0,
      ((m.producers.set u producer2).getD u' default).active_tile =
        some t0 → t0.reference_ready = false := by
    intro u' t0 hat
    rw [getD_set_cases] at hat
    by_cases hc : u' = u ∧ u < m.producers.length
    · rw [if_pos hc] at hat
      exact hstep.2 t0 hat
    · rw [if_neg hc] at hat
      exact h.mpact u' t0 hat
  cases result with
  | none =>
      simp only
      exact ⟨h.mcyc, h.mdcyc, h.mdcomp, h.mplog, h.mqlog, h.mclog, h.mrlog,
        h.mrdy, h.mcrdy, hpact2⟩
  | some tri =>
  cases tri with
  | mk t rest3 =>
  cases rest3 with
  | mk sftm macs =>
  simp only
  have htref : t.reference_ready = false := hstep.1 t sftm macs rfl
  unfold Simulator.handleProducedTile
  split
  · unfold Simulator.bypassProducedTile
    refine MidInv_produce_general c m h u _ t htref
      (m.producers.set u producer2) hpact2 rfl rfl ?_ rfl rfl rfl rfl
      (Or.inl rfl)
    right
    show ((m.tile_store ++ [t]).set m.tile_store.length _) = _
    rw [getD_append_self]
  · unfold Simulator.pushProducedTile
    simp only
    have hgetT : (m.tile_store ++ [t]).getD m.tile_store.length default =
        t := getD_append_self _ _ _
    rw [hgetT]
    split
    · refine MidInv_produce_general c m h u _ t htref
        (m.producers.set u producer2) hpact2 rfl rfl (Or.inl rfl) rfl rfl
        rfl rfl ?_
      exact Or.inr ⟨((m.fifos.getD u default).push m.tile_store.length
        t.gid).1, push_queue_cases _ _ _, rfl⟩
    · refine MidInv_produce_general c m h u _ t htref
        (m.producers.set u producer2) hpact2 rfl rfl (Or.inl rfl) rfl rfl
        rfl rfl ?_
      exact Or.inr ⟨((m.fifos.getD u default).push m.tile_store.length
        t.gid).1, push_queue_cases _ _ _, rfl⟩

lemma MidInv_consPhase (c : Nat) (m : Simulator) (h : MidInv c m) (u : Nat) :
    MidInv c (m.consPhase u) := by
  unfold Simulator.consPhase
  simp only
  split
  · cases hq : (m.fifos.getD u default).queue with
    | nil =>
        have hpeek : (m.fifos.getD u default).peek = none := by
          unfold BankedGroupFIFO.peek
          rw [hq]
          rfl
        rw [hpeek]
        exact ⟨h.mcyc, h.mdcyc, h.mdcomp, h.mplog, h.mqlog, h.mclog, h.mrlog,
          h.mrdy, h.mcrdy, h.mpact⟩
    | cons tid0 rest =>
        have hpeek : (m.fifos.getD u default).peek = some tid0 := by
          unfold BankedGroupFIFO.peek
          rw [hq]
          rfl
        rw [hpeek]
        simp only
        split
        · rename_i hflags
          have href : (m.tile_store.getD tid0 default).reference_ready =
              true := by
            rw [Bool.and_eq_true] at hflags
            exact hflags.2
          obtain ⟨hpop1, hpop2⟩ := pop_of_peek (m.fifos.getD u default)
            (fun tid2 => (m.tile_store.getD tid2 default).gid) tid0 hpeek
          rw [hpop1]
          simp only
          have hhead : tid0 ∈ (m.fifos.getD u default).queue :=
            hq ▸ List.mem_cons_self tid0 rest
          obtain ⟨hb0, cp0, hcp0, hdisj0⟩ := h.mqlog u tid0 hhead
          have hcp0lt : cp0 < m.cycle := by
            rcases hdisj0 with hd | hd
            · rw [h.mcyc]
              omega
            · rw [hd] at href
              exact absurd href (by decide)
          constructor
          · exact h.mcyc
          · exact h.mdcyc
          · exact h.mdcomp
          · exact h.mplog
          · intro u' tid' hmem
            rw [getD_set_cases] at hmem
            by_cases hc : u' = u ∧ u < m.fifos.length
            · rw [if_pos hc] at hmem
              rw [hpop2, hq] at hmem
              simp only [List.tail_cons] at hmem
              exact h.mqlog u tid' (hq ▸ List.mem_cons_of_mem tid0 hmem)
            · rw [if_neg hc] at hmem
              exact h.mqlog u' tid' hmem
          · intro p hp
            rcases List.mem_append.mp hp with h2 | h2
            · exact h.mclog p h2
            · simp only [List.mem_singleton] at h2
              subst h2
              exact ⟨cp0, hcp0, hcp0lt⟩
          · exact h.mrlog
          · exact h.mrdy
          · intro p hp
            rcases List.mem_append.mp hp with h2 | h2
            · exact h.mcrdy p h2
            · simp only [List.mem_singleton] at h2
              subst h2
              obtain ⟨d, tc, hmem2⟩ := h.mrdy tid0 href
              obtain ⟨hdt, htc⟩ := h.mrlog _ hmem2
              simp only at hdt htc
              refine ⟨d, tc, hmem2, hdt, ?_⟩
              rw [h.mcyc]
              omega
          · exact h.mpact
        · exact ⟨h.mcyc, h.mdcyc, h.mdcomp, h.mplog, h.mqlog, h.mclog,
            h.mrlog, h.mrdy, h.mcrdy, h.mpact⟩
  · exact ⟨h.mcyc, h.mdcyc, h.mdcomp, h.mplog, h.mqlog, h.mclog, h.mrlog,
      h.mrdy, h.mcrdy, h.mpact⟩

lemma MidInv_statsPhase (c : Nat) (m : Simulator) (h : MidInv c m)
    (u : Nat) : MidInv c (m.statsPhase u) := by
  unfold Simulator.statsPhase
  simp only
  constructor
  · exact h.mcyc
  · exact h.mdcyc
  · exact h.mdcomp
  · exact h.mplog
  · intro u' tid' hmem
    rw [getD_set_cases] at hmem
    by_cases hc : u' = u ∧ u < m.fifos.length
    · rw [if_pos hc] at hmem
      exact h.mqlog u tid' hmem
    · rw [if_neg hc] at hmem
      exact h.mqlog u' tid' hmem
  · exact h.mclog
  · exact h.mrlog
  · exact h.mrdy
  · exact h.mcrdy
  · exact h.mpact

lemma MidInv_stepUnit (c : Nat) (m : Simulator) (h : MidInv c m) (u : Nat) :
    MidInv c (m.stepUnit u) :=
  MidInv_statsPhase c _ (MidInv_consPhase c _ (MidInv_prodPhase c m h u) u) u

lemma MidInv_foldUnits (c : Nat) : ∀ (l : List Nat) (m : Simulator),
    MidInv c m → MidInv c (l.foldl Simulator.stepUnit m) := by
  intro l
  induction l with
  | nil => exact fun m h => h
  | cons x t ih =>
      intro m h
      rw [List.foldl_cons]
      exact ih _ (MidInv_stepUnit c m h x)

lemma issueLoop_dma_frame : ∀ (fuel : Nat) (p : SplitPrefetcher)
    (d : DMAEngine) (acc : List (Nat × Nat)),
    (SplitPrefetcher.issueLoop fuel p d acc).2.1.cycle = d.cycle ∧
    (SplitPrefetcher.issueLoop fuel p d acc).2.1.completed = d.completed := by
  intro fuel
  induction fuel with
  | zero => exact fun p d acc => ⟨rfl, rfl⟩
  | succ n ih =>
    intro p d acc
    unfold SplitPrefetcher.issueLoop
    cases hq : p.prefetch_queue with
    | nil => exact ⟨rfl, rfl⟩
    | cons id rest =>
      simp only
      by_cases hout : d.outstanding_count < p.max_outstanding
      · rw [if_pos hout]
        exact ih _ _ _
      · rw [if_neg hout]
        exact ⟨rfl, rfl⟩

lemma fold_frame {α : Type} (f : Simulator → α → Simulator)
    (hf : ∀ (s : Simulator) (a : α), (f s a).cycle = s.cycle ∧
      (f s a).dma = s.dma ∧ (f s a).prodLog = s.prodLog ∧
      (f s a).consLog = s.consLog ∧ (f s a).readyLog = s.readyLog ∧
      (f s a).fifos = s.fifos ∧ (f s a).producers = s.producers ∧
      (f s a).tile_store = s.tile_store) :
    ∀ (l : List α) (s : Simulator), (l.foldl f s).cycle = s.cycle ∧
      (l.foldl f s).dma = s.dma ∧ (l.foldl f s).prodLog = s.prodLog ∧
      (l.foldl f s).consLog = s.consLog ∧
      (l.foldl f s).readyLog = s.readyLog ∧
      (l.foldl f s).fifos = s.fifos ∧
      (l.foldl f s).producers = s.producers ∧
      (l.foldl f s).tile_store = s.tile_store := by
  intro l
  induction l with
  | nil => exact fun s => ⟨rfl, rfl, rfl, rfl, rfl, rfl, rfl, rfl⟩
  | cons x t ih =>
      intro s
      rw [List.foldl_cons]
      obtain ⟨h1, h2, h3, h4, h5, h6, h7, h8⟩ := ih (f s x)
      obtain ⟨g1, g2, g3, g4, g5, g6, g7, g8⟩ := hf s x
      exact ⟨h1.trans g1, h2.trans g2, h3.trans g3, h4.trans g4,
        h5.trans g5, h6.trans g6, h7.trans g7, h8.trans g8⟩

lemma flip_fold (req : DMARequest) : ∀ (gl : List Nat) (s : Simulator),
    (∀ e ∈ s.readyLog, e.2.1 ≤ e.2.2 ∧ e.2.2 ≤ s.cycle) →
    (∀ tid : Nat, (s.tile_store.getD tid default).reference_ready = true →
      ∃ d tc, (tid, d, tc) ∈ s.readyLog) →
    req.done_cycle.getD 0 ≤ s.cycle →
    (gl.foldl (fun (s : Simulator) gid =>
      match dictGet s.tile_registry gid with
      | some tid =>
          let t := s.tile_store.getD tid default
          { s with
            tile_store := s.tile_store.set tid
              { t with reference_ready := true },
            readyLog := s.readyLog ++ [(tid, req.done_cycle.getD 0,
              s.cycle)] }
      | none => s) s).cycle = s.cycle ∧
    (gl.foldl (fun (s : Simulator) gid =>
      match dictGet s.tile_registry gid with
      | some tid =>
          let t := s.tile_store.getD tid default
          { s with
            tile_store := s.tile_store.set tid
              { t with reference_ready := true },
            readyLog := s.readyLog ++ [(tid, req.done_cycle.getD 0,
              s.cycle)] }
      | none => s) s).dma = s.dma ∧
    (gl.foldl (fun (s : Simulator) gid =>
      match dictGet s.tile_registry gid with
      | some tid =>
          let t := s.tile_store.getD tid default
          { s with
            tile_store := s.tile_store.set tid
              { t with reference_ready := true },
            readyLog := s.readyLog ++ [(tid, req.done_cycle.getD 0,
              s.cycle)] }
      | none => s) s).prodLog = s.prodLog ∧
    (gl.foldl (fun (s : Simulator) gid =>
      match dictGet s.tile_registry gid with
      | some tid =>
          let t := s.tile_store.getD tid default
          { s with
            tile_store := s.tile_store.set tid
              { t with reference_ready := true },
            readyLog := s.readyLog ++ [(tid, req.done_cycle.getD 0,
              s.cycle)] }
      | none => s) s).consLog = s.consLog ∧
    (gl.foldl (fun (s : Simulator) gid =>
      match dictGet s.tile_registry gid with
      | some tid =>
          let t := s.tile_store.getD tid default
          { s with
            tile_store := s.tile_store.set tid
              { t with reference_ready := true },
            readyLog := s.readyLog ++ [(tid, req.done_cycle.getD 0,
              s.cycle)] }
      | none => s) s).fifos = s.fifos ∧
    (gl.foldl (fun (s : Simulator) gid =>
      match dictGet s.tile_registry gid with
      | some tid =>
          let t := s.tile_store.getD tid default
          { s with
            tile_store := s.tile_store.set tid
              { t with reference_ready := true },
            readyLog := s.readyLog ++ [(tid, req.done_cycle.getD 0,
              s.cycle)] }
      | none => s) s).producers = s.producers ∧
    (gl.foldl (fun (s : Simulator) gid =>
      match dictGet s.tile_registry gid with
      | some tid =>
          let t := s.tile_store.getD tid default
          { s with
            tile_store := s.tile_store.set tid
              { t with reference_ready := true },
            readyLog := s.readyLog ++ [(tid, req.done_cycle.getD 0,
              s.cycle)] }
      | none => s) s).tile_store.length = s.tile_store.length ∧
    (∀ e ∈ s.readyLog, e ∈ (gl.foldl (fun (s : Simulator) gid =>
      match dictGet s.tile_registry gid with
      | some tid =>
          let t := s.tile_store.getD tid default
          { s with
            tile_store := s.tile_store.set tid
              { t with reference_ready := true },
            readyLog := s.readyLog ++ [(tid, req.done_cycle.getD 0,
              s.cycle)] }
      | none => s) s).readyLog) ∧
    (∀ e ∈ (gl.foldl (fun (s : Simulator) gid =>
      match dictGet s.tile_registry gid with
      | some tid =>
          let t := s.tile_store.getD tid default
          { s with
            tile_store := s.tile_store.set tid
              { t with reference_ready := true },
            readyLog := s.readyLog ++ [(tid, req.done_cycle.getD 0,
              s.cycle)] }
      | none => s) s).readyLog, e.2.1 ≤ e.2.2 ∧ e.2.2 ≤ s.cycle) ∧
    (∀ tid : Nat, ((gl.foldl (fun (s : Simulator) gid =>
      match dictGet s.tile_registry gid with
      | some tid =>
          let t := s.tile_store.getD tid default
          { s with
            tile_store := s.tile_store.set tid
              { t with reference_ready := true },
            readyLog := s.readyLog ++ [(tid, req.done_cycle.getD 0,
              s.cycle)] }
      | none => s) s).tile_store.getD tid default).reference_ready = true →
      ∃ d tc, (tid, d, tc) ∈ (gl.foldl (fun (s : Simulator) gid =>
        match dictGet s.tile_registry gid with
        | some tid =>
            let t := s.tile_store.getD tid default
            { s with
              tile_store := s.tile_store.set tid
                { t with reference_ready := true },
              readyLog := s.readyLog ++ [(tid, req.done_cycle.getD 0,
                s.cycle)] }
        | none => s) s).readyLog) := by
  intro gl
  induction gl with
  | nil =>
      intro s hrl hrd hdone
      exact ⟨rfl, rfl, rfl, rfl, rfl, rfl, rfl, fun e he => he, hrl, hrd⟩
  | cons g t ih =>
      intro s hrl hrd hdone
      rw [List.foldl_cons]
      cases hreg : dictGet s.tile_registry g with
      | none =>
          simp only [hreg]
          exact ih s hrl hrd hdone
      | some tid0 =>
          simp only [hreg]
          have hrl2 : ∀ e ∈ s.readyLog ++ [(tid0, req.done_cycle.getD 0,
              s.cycle)], e.2.1 ≤ e.2.2 ∧ e.2.2 ≤ s.cycle := by
            intro e he
            rcases List.mem_append.mp he with h2 | h2
            · exact hrl e h2
            · simp only [List.mem_singleton] at h2
              subst h2
              exact ⟨hdone, le_refl _⟩
          have hrd2 : ∀ tid : Nat, ((s.tile_store.set tid0
              { s.tile_store.getD tid0 default with
                reference_ready := true }).getD tid
                default).reference_ready = true →
              ∃ d tc, (tid, d, tc) ∈ s.readyLog ++
                [(tid0, req.done_cycle.getD 0, s.cycle)] := by
            intro tid hflag
            rw [getD_set_cases] at hflag
            by_cases hc : tid = tid0 ∧ tid0 < s.tile_store.length
            · refine ⟨req.done_cycle.getD 0, s.cycle, ?_⟩
              rw [hc.1]
              exact List.mem_append_right _ (List.mem_singleton.mpr rfl)
            · rw [if_neg hc] at hflag
              obtain ⟨d, tc, hmem⟩ := hrd tid hflag
              exact ⟨d, tc, List.mem_append_left _ hmem⟩
          obtain ⟨k1, k2, k3, k4, k5, k6, k7, k8, k9, k10⟩ :=
            ih ({ s with
                  tile_store := s.tile_store.set tid0
                    ({ s.tile_store.getD tid0 default with
                       reference_ready := true }),
                  readyLog := s.readyLog ++ [(tid0, req.done_cycle.getD 0,
                    s.cycle)] }) hrl2 hrd2 hdone
          refine ⟨k1, k2, k3, k4, k5, k6, ?_, ?_, k9, k10⟩
          · rw [k7]
            show (s.tile_store.set tid0 _).length = _
            rw [List.length_set]
          · intro e he
            exact k8 e (List.mem_append_left _ he)

lemma simDispatch_one (s : Simulator) (req : DMARequest)
    (hrl : ∀ e ∈ s.readyLog, e.2.1 ≤ e.2.2 ∧ e.2.2 ≤ s.cycle)
    (hrd : ∀ tid : Nat, (s.tile_store.getD tid default).reference_ready =
      true → ∃ d tc, (tid, d, tc) ∈ s.readyLog)
    (hdone : req.done_cycle.getD 0 ≤ s.cycle) :
    (Simulator.dispatchCompleted s req).cycle = s.cycle ∧
    (Simulator.dispatchCompleted s req).dma = s.dma ∧
    (Simulator.dispatchCompleted s req).prodLog = s.prodLog ∧
    (Simulator.dispatchCompleted s req).consLog = s.consLog ∧
    (Simulator.dispatchCompleted s req).fifos = s.fifos ∧
    (Simulator.dispatchCompleted s req).producers = s.producers ∧
    (Simulator.dispatchCompleted s req).tile_store.length =
      s.tile_store.length ∧
    (∀ e ∈ s.readyLog, e ∈ (Simulator.dispatchCompleted s req).readyLog) ∧
    (∀ e ∈ (Simulator.dispatchCompleted s req).readyLog,
      e.2.1 ≤ e.2.2 ∧ e.2.2 ≤ s.cycle) ∧
    (∀ tid : Nat, ((Simulator.dispatchCompleted
        s req).tile_store.getD tid default).reference_ready = true →
      ∃ d tc, (tid, d, tc) ∈ (Simulator.dispatchCompleted
        s req).readyLog) := by
  unfold Simulator.dispatchCompleted
  simp only
  split
  · rename_i id heq
    split
    · rename_i href
      obtain ⟨k1, k2, k3, k4, k5, k6, k7, k8, k9, k10⟩ :=
        flip_fold req
          (((s.prefetcher.on_dma_completed req).getEntry id).linked_tiles)
          ({ s with prefetcher := s.prefetcher.on_dma_completed req })
          hrl hrd hdone
      exact ⟨k1, k2, k3, k4, k5, k6, k7, k8, k9, k10⟩
    · exact ⟨rfl, rfl, rfl, rfl, rfl, rfl, rfl, fun e he => he, hrl, hrd⟩
  · exact ⟨rfl, rfl, rfl, rfl, rfl, rfl, rfl, fun e he => he, hrl, hrd⟩

lemma simDispatch_foldl : ∀ (l : List DMARequest) (s : Simulator),
    (∀ e ∈ s.readyLog, e.2.1 ≤ e.2.2 ∧ e.2.2 ≤ s.cycle) →
    (∀ tid : Nat, (s.tile_store.getD tid default).reference_ready = true →
      ∃ d tc, (tid, d, tc) ∈ s.readyLog) →
    (∀ r ∈ l, r.done_cycle.getD 0 ≤ s.cycle) →
    (l.foldl Simulator.dispatchCompleted s).cycle = s.cycle ∧
    (l.foldl Simulator.dispatchCompleted s).dma = s.dma ∧
    (l.foldl Simulator.dispatchCompleted s).prodLog = s.prodLog ∧
    (l.foldl Simulator.dispatchCompleted s).consLog = s.consLog ∧
    (l.foldl Simulator.dispatchCompleted s).fifos = s.fifos ∧
    (l.foldl Simulator.dispatchCompleted s).producers = s.producers ∧
    (l.foldl Simulator.dispatchCompleted s).tile_store.length =
      s.tile_store.length ∧
    (∀ e ∈ s.readyLog, e ∈ (l.foldl Simulator.dispatchCompleted
      s).readyLog) ∧
    (∀ e ∈ (l.foldl Simulator.dispatchCompleted s).readyLog,
      e.2.1 ≤ e.2.2 ∧ e.2.2 ≤ s.cycle) ∧
    (∀ tid : Nat, ((l.foldl Simulator.dispatchCompleted
        s).tile_store.getD tid default).reference_ready = true →
      ∃ d tc, (tid, d, tc) ∈ (l.foldl Simulator.dispatchCompleted
        s).readyLog) := by
  intro l
  induction l with
  | nil =>
      intro s hrl hrd hdone
      exact ⟨rfl, rfl, rfl, rfl, rfl, rfl, rfl, fun e he => he, hrl, hrd⟩
  | cons r t ih =>
      intro s hrl hrd hdone
      rw [List.foldl_cons]
      obtain ⟨k1, k2, k3, k4, k5, k6, k7, k8, k9, k10⟩ :=
        simDispatch_one s r hrl hrd (hdone r (List.mem_cons_self r t))
      obtain ⟨j1, j2, j3, j4, j5, j6, j7, j8, j9, j10⟩ :=
        ih (Simulator.dispatchCompleted s r)
          (fun e he => by rw [k1]; exact k9 e he) k10
          (fun r' hr' => by
            rw [k1]; exact hdone r' (List.mem_cons_of_mem r hr'))
      refine ⟨j1.trans k1, j2.trans k2, j3.trans k3, j4.trans k4,
        j5.trans k5, j6.trans k6, j7.trans k7,
        fun e he => j8 e (k8 e he),
        fun e he => by
          have := j9 e he
          rw [k1] at this
          exact this,
        j10⟩

lemma SimInv_tail (c : Nat) (s2 : Simulator)
    (hcyc : s2.cycle = c + 1)
    (hdcyc : s2.dma.cycle = c)
    (hdcomp : s2.dma.completed = [])
    (hplog : ∀ p ∈ s2.prodLog, p.1 ≤ c + 1)
    (hqlog : ∀ u : Nat, ∀ tid ∈ (s2.fifos.getD u default).queue,
      tid < s2.tile_store.length ∧ ∃ cp, (cp, tid) ∈ s2.prodLog ∧ cp ≤ c + 1)
    (hclog : ∀ p ∈ s2.consLog, ∃ cp, (cp, p.2) ∈ s2.prodLog ∧ cp < p.1)
    (hrlog : ∀ e ∈ s2.readyLog, e.2.1 ≤ e.2.2 ∧ e.2.2 ≤ c)
    (hrdy : ∀ tid : Nat, (s2.tile_store.getD tid default).reference_ready =
      true → ∃ d tc, (tid, d, tc) ∈ s2.readyLog)
    (hcrdy : ∀ p ∈ s2.consLog, ∃ d tc, (p.2, d, tc) ∈ s2.readyLog ∧
      d ≤ tc ∧ tc < p.1)
    (hpact : ∀ u : Nat, ∀ t, (s2.producers.getD u default).active_tile =
      some t → t.reference_ready = false) :
    SimInv (Simulator.phase23Tail s2) := by
  have hdone : ∀ r ∈ s2.dma.step.completed,
      r.done_cycle.getD 0 ≤ c + 1 := by
    intro r hr
    have hr2 : r ∈ s2.dma.completed ++
        (s2.dma.inflight.filter
          (DMAEngine.reqDone (s2.dma.cycle + 1))).map (fun p => p.2) := hr
    rw [hdcomp, List.nil_append] at hr2
    obtain ⟨p, hpmem, hpe⟩ := List.mem_map.mp hr2
    have hpd := (List.mem_filter.mp hpmem).2
    unfold DMAEngine.reqDone at hpd
    cases hdc : p.2.done_cycle with
    | none =>
        rw [hdc] at hpd
        simp at hpd
    | some dc =>
        rw [hdc] at hpd
        simp only [decide_eq_true_eq] at hpd
        rw [hdcyc] at hpd
        rw [← hpe, hdc]
        simp only [Option.getD_some]
        exact hpd
  unfold Simulator.phase23Tail
  simp only [DMAEngine.collect_completed]
  obtain ⟨j1, j2, j3, j4, j5, j6, j7, j8, j9, j10⟩ :=
    simDispatch_foldl s2.dma.step.completed
      ({ s2 with dma := { s2.dma.step with completed := [] } })
      (fun e he => ⟨(hrlog e he).1, by
        show e.2.2 ≤ s2.cycle
        rw [hcyc]
        exact Nat.le_succ_of_le (hrlog e he).2⟩)
      hrdy
      (fun r hr => by
        show r.done_cycle.getD 0 ≤ s2.cycle
        rw [hcyc]
        exact hdone r hr)
  have e1 := j1
  have e2 := j2
  have e3 := j3
  have e4 := j4
  have e5 := j5
  have e6 := j6
  have e7 := j7
  have e9 := j9
  simp only at e1 e2 e3 e4 e5 e6 e7 e9
  refine ⟨?_, ?_, ?_, ?_, ?_, ?_, ?_, ?_, ?_⟩
  · exact ((congrArg DMAEngine.cycle e2).trans
      (congrArg Nat.succ hdcyc)).trans (e1.trans hcyc).symm
  · exact congrArg DMAEngine.completed e2
  · intro p hp
    have hp2 : p ∈ s2.prodLog := by rw [← e3]; exact hp
    exact le_of_le_of_eq (hplog p hp2) (e1.trans hcyc).symm
  · intro u tid htid
    have ht2 : tid ∈ (s2.fifos.getD u default).queue := by
      rw [← e5]; exact htid
    obtain ⟨hlt, cp, hcp, hcple⟩ := hqlog u tid ht2
    refine ⟨lt_of_lt_of_eq hlt e7.symm, cp, ?_,
      le_of_le_of_eq hcple (e1.trans hcyc).symm⟩
    have hcp2 : (cp, tid) ∈ s2.prodLog := hcp
    rw [← e3] at hcp2
    exact hcp2
  · intro p hp
    have hp2 : p ∈ s2.consLog := by rw [← e4]; exact hp
    obtain ⟨cp, hcp, hlt⟩ := hclog p hp2
    have hcp2 : (cp, p.2) ∈ s2.prodLog := hcp
    rw [← e3] at hcp2
    exact ⟨cp, hcp2, hlt⟩
  · intro e he
    have h2 := e9 e he
    exact ⟨h2.1, le_of_le_of_eq h2.2 e1.symm⟩
  · exact j10
  · intro p hp
    have hp2 : p ∈ s2.consLog := by rw [← e4]; exact hp
    obtain ⟨d, tc, hm2, hd, htc⟩ := hcrdy p hp2
    exact ⟨d, tc, j8 _ hm2, hd, htc⟩
  · intro u t ht
    have ht2 : (s2.producers.getD u default).active_tile = some t := by
      rw [← e6]; exact ht
    exact hpact u t ht2

lemma SimInv_phase23 (c : Nat) (m : Simulator) (hm : MidInv c m) :
    SimInv m.phase23 := by
  obtain ⟨mcyc, mdcyc, mdcomp, mplog, mqlog, mclog, mrlog, mrdy, mcrdy,
    mpact⟩ := hm
  unfold Simulator.phase23
  cases hip : m.prefetcher.issue_prefetches m.dma with
  | mk pf pr =>
  cases pr with
  | mk dma issued =>
  simp only
  have hip2 : SplitPrefetcher.issueLoop m.prefetcher.prefetch_queue.length
      m.prefetcher m.dma [] = (pf, dma, issued) := hip
  have hil := issueLoop_dma_frame m.prefetcher.prefetch_queue.length
    m.prefetcher m.dma []
  rw [hip2] at hil
  simp only at hil
  obtain ⟨f1, f2, f3, f4, f5, f6, f7, f8⟩ :=
    fold_frame Simulator.issueStats
      (fun s a => ⟨rfl, rfl, rfl, rfl, rfl, rfl, rfl, rfl⟩) issued
      ({ m with prefetcher := pf, dma := dma })
  simp only at f1 f2 f3 f4 f5 f6 f7 f8
  refine SimInv_tail c _ ?_ ?_ ?_ ?_ ?_ ?_ ?_ ?_ ?_ ?_
  · exact f1.trans mcyc
  · exact (congrArg DMAEngine.cycle f2).trans (hil.1.trans mdcyc)
  · exact (congrArg DMAEngine.completed f2).trans (hil.2.trans mdcomp)
  · intro p hp
    rw [f3] at hp
    exact le_of_le_of_eq (mplog p hp) mcyc
  · intro u tid htid
    rw [f6] at htid
    obtain ⟨hlt, cp, hcp, _⟩ := mqlog u tid htid
    refine ⟨?_, cp, ?_, le_of_le_of_eq (mplog (cp, tid) hcp) mcyc⟩
    · rw [f8]
      exact hlt
    · rw [f3]
      exact hcp
  · intro p hp
    rw [f4] at hp
    obtain ⟨cp, hcp, hlt⟩ := mclog p hp
    refine ⟨cp, ?_, hlt⟩
    rw [f3]
    exact hcp
  · intro e he
    rw [f5] at he
    exact mrlog e he
  · intro tid h
    rw [f8] at h
    obtain ⟨d, tc, hmem⟩ := mrdy tid h
    refine ⟨d, tc, ?_⟩
    rw [f5]
    exact hmem
  · intro p hp
    rw [f4] at hp
    obtain ⟨d, tc, hmem, hd, htc⟩ := mcrdy p hp
    refine ⟨d, tc, ?_, hd, htc⟩
    rw [f5]
    exact hmem
  · intro u t ht
    rw [f7] at ht
    exact mpact u t ht

lemma getD_all {α : Type} [Inhabited α] (P : α → Prop) :
    ∀ (l : List α), (∀ x ∈ l, P x) → P (default : α) → ∀ n : Nat,
      P (l.getD n default) := by
  intro l
  induction l with
  | nil => exact fun _ hd n => hd
  | cons a t ih =>
      intro hl hd n
      cases n with
      | zero => exact hl a (List.mem_cons_self a t)
      | succ m => exact ih (fun x hx => hl x (List.mem_cons_of_mem a hx)) hd m

lemma MidInv_start (s : Simulator) (h : SimInv s) :
    MidInv s.cycle { s with cycle := s.cycle + 1 } := by
  obtain ⟨dcyc, dcomp, plog, qlog, clog, rlog, rdy, crdy, pact⟩ := h
  refine ⟨rfl, dcyc, dcomp, ?_, ?_, clog, rlog, rdy, crdy, pact⟩
  · intro p hp
    show p.1 ≤ s.cycle + 1
    exact Nat.le_succ_of_le (plog p hp)
  · intro u tid htid
    obtain ⟨hlt, cp, hcp, hcple⟩ := qlog u tid htid
    exact ⟨hlt, cp, hcp, Or.inl hcple⟩

lemma SimInv_step (s : Simulator) (h : SimInv s) : SimInv (s.step).1 := by
  unfold Simulator.step
  simp only
  exact SimInv_phase23 s.cycle _
    (MidInv_foldUnits s.cycle _ _ (MidInv_start s h))

lemma SimInv_init (cfg : SimConfig) (rng : List Int) :
    SimInv (Simulator.init cfg rng) := by
  refine ⟨rfl, rfl, ?_, ?_, ?_, ?_, ?_, ?_, ?_⟩
  · intro p hp
    exact absurd hp (List.not_mem_nil p)
  · intro u tid htid
    exfalso
    have hq : (((Simulator.init cfg rng).fifos.getD u
        (default : BankedGroupFIFO))).queue = ([] : List Nat) := by
      refine getD_all (fun (f : BankedGroupFIFO) => f.queue = ([] : List Nat)) _ ?_ rfl u
      intro x hx
      rw [List.eq_of_mem_replicate hx]
      rfl
    rw [hq] at htid
    exact absurd htid (List.not_mem_nil tid)
  · intro p hp
    exact absurd hp (List.not_mem_nil p)
  · intro e he
    exact absurd he (List.not_mem_nil e)
  · intro tid h
    have h0 : ((Simulator.init cfg rng).tile_store.getD tid
        (default : TileGroup)).reference_ready = false :=
      getD_all (fun (t : TileGroup) => t.reference_ready = false) _
        (fun x hx => absurd hx (List.not_mem_nil x)) rfl tid
    rw [h0] at h
    exact absurd h (by decide)
  · intro p hp
    exact absurd hp (List.not_mem_nil p)
  · intro u t ht
    have hP : ((Simulator.init cfg rng).producers.getD u
        (default : ProducerSFTM)).active_tile = none := by
      refine getD_all (fun (p : ProducerSFTM) => p.active_tile = none) _ ?_ rfl u
      intro x hx
      obtain ⟨i, hi, hfe⟩ := List.mem_map.mp hx
      rw [← hfe]
      rfl
    rw [hP] at ht
    exact Option.noConfusion ht

lemma SimInv_reach (cfg : SimConfig) (rng : List Int) (s : Simulator)
    (h : SimReach cfg rng s) : SimInv s := by
  induction h with
  | init => exact SimInv_init cfg rng
  | step t _ ih => exact SimInv_step t ih

lemma consPhase_gating (m : Simulator) (u : Nat) :
    (m.consPhase u).consLog = m.consLog ∨
    ∃ tid, (m.fifos.getD u default).peek = some tid ∧
      (m.tile_store.getD tid default).motion_ready = true ∧
      (m.tile_store.getD tid default).reference_ready = true ∧
      (m.consPhase u).consLog = m.consLog ++ [(m.cycle, tid)] := by
  unfold Simulator.consPhase
  simp only
  split
  · cases hq : (m.fifos.getD u default).queue with
    | nil =>
        have hpeek : (m.fifos.getD u default).peek = none := by
          unfold BankedGroupFIFO.peek
          rw [hq]
          rfl
        rw [hpeek]
        exact Or.inl rfl
    | cons tid0 rest =>
        have hpeek : (m.fifos.getD u default).peek = some tid0 := by
          unfold BankedGroupFIFO.peek
          rw [hq]
          rfl
        rw [hpeek]
        simp only
        split
        · rename_i hflags
          rw [Bool.and_eq_true] at hflags
          obtain ⟨hpop1, hpop2⟩ := pop_of_peek (m.fifos.getD u default)
            (fun tid2 => (m.tile_store.getD tid2 default).gid) tid0 hpeek
          rw [hpop1]
          simp only
          exact Or.inr ⟨tid0, rfl, hflags.1, hflags.2, rfl⟩
        · exact Or.inl rfl
  · exact Or.inl rfl

/-- C2: in every reachable simulator state, each consumed tile was popped
strictly after the cycle in which its producer delivered it (the consume
log's cycle exceeds the matching produce log entry's cycle); and the
consumer phase pops a tile from a unit's FIFO only when both the
`motion_ready` and `reference_ready` flags of the FIFO-head tile are set at
that point (otherwise the consume log is unchanged). -/
theorem C2_consume_gated_and_after_produce (cfg : SimConfig)
    (rng : List Int) (s : Simulator) (h : SimReach cfg rng s) :
    (∀ p ∈ s.consLog, ∃ cp, (cp, p.2) ∈ s.prodLog ∧ cp < p.1) ∧
    (∀ (sim : Simulator) (u : Nat),
      (sim.consPhase u).consLog = sim.consLog ∨
      ∃ tid, (sim.fifos.getD u default).peek = some tid ∧
        (sim.tile_store.getD tid default).motion_ready = true ∧
        (sim.tile_store.getD tid default).reference_ready = true ∧
        (sim.consPhase u).consLog = sim.consLog ++ [(sim.cycle, tid)]) :=
  ⟨(SimInv_reach cfg rng s h).clog, fun sim u => consPhase_gating sim u⟩

/-- Witness for C2 at the default configuration's initial state. -/
theorem C2_consume_gated_and_after_produce_witness :
    (∀ p ∈ (Simulator.init {} ([] : List Int)).consLog,
      ∃ cp, (cp, p.2) ∈ (Simulator.init {} ([] : List Int)).prodLog ∧
        cp < p.1) ∧
    (∀ (sim : Simulator) (u : Nat),
      (sim.consPhase u).consLog = sim.consLog ∨
      ∃ tid, (sim.fifos.getD u default).peek = some tid ∧
        (sim.tile_store.getD tid default).motion_ready = true ∧
        (sim.tile_store.getD tid default).reference_ready = true ∧
        (sim.consPhase u).consLog = sim.consLog ++ [(sim.cycle, tid)]) :=
  C2_consume_gated_and_after_produce ({} : SimConfig) ([] : List Int) _
    SimReach.init

/-- C6 counterexample: one 64-byte reference region submitted to the
readiness subsystem at the code's defaults (DRAM latency 800, bandwidth
1024, 4096-byte alignment) is issued as a single DMA request at cycle 0
whose completion cycle is 804 = 0 + 800 + 4, not issue_cycle + 800 + 1. -/
theorem C6_counterexample :
    ((((PrefetchSystem.init 8 64 16384 4096 800 1024).submit 1 0 64
      [(0, 0)]).1.phase23).dma.inflight.map
        (fun q => (q.2.issue_cycle, q.2.done_cycle))) = [(0, some 804)] ∧
    (804 : Nat) ≠ 0 + 800 + 1 := by decide

/-- C6 (amended): a 64-byte reference region at base 0 is aligned up to a
single 4096-byte request; at DRAM latency 800 and bandwidth 1024 a
4096-byte request issued at cycle `c` is queued with completion cycle
`c + 800 + 4` (transfer takes `max 1 ⌈4096/1024⌉ = 4` cycles, not 1); and
in every reachable simulator state each consumed tile's reference flag was
set by a completed request at a flip cycle `tc` at or after that request's
completion cycle `dc`, strictly before the consume cycle. -/
theorem C6_first_request_timing_amended :
    (∀ p : SplitPrefetcher, p.dram_alignment = 4096 →
      p.align 0 64 = (0, 4096)) ∧
    (∀ (d : DMAEngine) (base : Nat) (dest : Nat × Nat × Nat) (rt : String),
      d.dram_latency = 800 → d.bw = 1024 →
      (d.issue base 4096 dest rt).2.inflight = d.inflight ++
        [(d.next_tag,
          { tag := d.next_tag, base_addr := base, length := 4096,
            issue_cycle := d.cycle, done_cycle := some (d.cycle + 800 + 4),
            dest := dest, request_type := rt })]) ∧
    (∀ (cfg : SimConfig) (rng : List Int) (s : Simulator),
      SimReach cfg rng s → ∀ p ∈ s.consLog, ∃ dc tc,
        (p.2, dc, tc) ∈ s.readyLog ∧ dc ≤ tc ∧ tc < p.1) := by
  refine ⟨?_, ?_, ?_⟩
  · intro p hpa
    unfold SplitPrefetcher.align
    simp only
    rw [hpa]
    rfl
  · intro d base dest rt hl hbw
    unfold DMAEngine.issue
    simp only
    rw [hl, hbw]
    rfl
  · intro cfg rng s h
    exact (SimInv_reach cfg rng s h).crdy

/-- Witness for C6 (amended) at the concrete initial prefetcher, a fresh
DMA engine and the default configuration's initial simulator state. -/
theorem C6_first_request_timing_amended_witness :
    (SplitPrefetcher.init 8 64 16384 4096).align 0 64 = (0, 4096) ∧
    ((DMAEngine.init 800 1024).issue 0 4096 (0, 0, 0)
        "reference").2.inflight = [] ++
      [(1,
        { tag := 1, base_addr := 0, length := 4096, issue_cycle := 0,
          done_cycle := some (0 + 800 + 4), dest := (0, 0, 0),
          request_type := "reference" })] ∧
    (∀ p ∈ (Simulator.init {} ([] : List Int)).consLog, ∃ dc tc,
      (p.2, dc, tc) ∈ (Simulator.init {} ([] : List Int)).readyLog ∧
        dc ≤ tc ∧ tc < p.1) :=
  ⟨C6_first_request_timing_amended.1 (SplitPrefetcher.init 8 64 16384 4096)
      rfl,
   C6_first_request_timing_amended.2.1 (DMAEngine.init 800 1024) 0 (0, 0, 0)
      "reference" rfl rfl,
   C6_first_request_timing_amended.2.2 ({} : SimConfig) ([] : List Int) _
      SimReach.init⟩

/-- C9 counterexample: two runs with identical configuration, jitter
stream, cycle budget and probe but different wall-clock samples return
different records — `runtime_s` is the elapsed wall-clock time, so the
output record is not bit-identical across runs. -/
theorem C9_counterexample :
    (Simulator.init {} ([] : List Int)).run 0 none 0 0 ≠
      (Simulator.init {} ([] : List Int)).run 0 none 0 1 := by
  intro h
  have h2 : (0 : ℚ) - 0 = 1 - 0 := congrArg Simulator.SimRes.runtime_s h
  norm_num at h2

/-- C9 (amended): every output field except the wall-clock `runtime_s` is
a deterministic function of the simulator state, cycle budget and probe —
two runs differing only in the `time.time()` samples agree on all of them. -/
theorem C9_deterministic_except_runtime (s : Simulator) (max_cycles : Nat)
    (probe : Option Nat) (t0 t1 t0' t1' : ℚ) :
    (s.run max_cycles probe t0 t1).core =
      (s.run max_cycles probe t0' t1').core := rfl
